import Mathlib

/-!
# wplacerArk: the template execution engine

A shallow embedding of the engine of `src/src/core` (`WPlacer.js`,
`ChargeCache.js`, `TemplateManager.js`, `TokenManager.js`), of the share-code
codec (`src/src/utils/templateCodec.js`), of the template collection and the
template queue (`src/src/services`) and of the settings update
(`src/src/api/routes/settings.js`), followed by the theorems about them.

Conventions of the embedding.
* JavaScript `undefined` is `none`; a thrown `TypeError` (reading a property
  of `undefined`) makes a function return `none`. Where a call has changed
  the state before it throws, the state it leaves behind is given as well, as
  the doc comment of the function says.
* A JavaScript array that is read and written by index (`tile.data`) is a map
  from indices to values: reading a missing index gives `undefined`,
  writing creates the entry.
* `Map` objects are functions into `Option`.
* Times are integers (milliseconds), tile and pixel coordinates are naturals.
-/

namespace WPlacerArk

/-! ## Data model -/

/-- The palette matrix of a template: `template.width`, `template.height`
and the x-major `template.data` (a list of columns). -/
structure Template where
  width : Nat
  height : Nat
  data : List (List Int)
deriving DecidableEq, Repr

/-- The image is rectangular: `width` columns of `height` cells each. -/
def Template.Rect (t : Template) : Prop :=
  t.data.length = t.width ∧ ∀ col ∈ t.data, col.length = t.height

instance (t : Template) : Decidable t.Rect := by
  unfold Template.Rect; infer_instance

/-- Every cell is a palette ID at most 63 (the palette has the IDs 1..63 and
the two sentinels 0 and -1). -/
def Template.PaletteBounded (t : Template) : Prop :=
  ∀ col ∈ t.data, ∀ c ∈ col, c ≤ 63

instance (t : Template) : Decidable t.PaletteBounded := by
  unfold Template.PaletteBounded; infer_instance

/-- A cached tile, `{ width, heigh, data }` of `loadTiles`: `data[px]` is a
column or `undefined`, `data[px][py]` a palette ID or `undefined`. -/
structure Tile where
  data : Nat → Option (Nat → Option Int)

/-- The anchor `this.coords = [startX, startY, startPx, startPy]`. -/
structure Coords where
  startX : Nat
  startY : Nat
  startPx : Nat
  startPy : Nat
deriving DecidableEq, Repr

/-- The `templateSettings` object handed to the client. -/
structure TemplateSettings where
  eraseMode : Bool
  outlineMode : Bool
  skipPaintedPixels : Bool
deriving DecidableEq, Repr

/-- The `charges` object of the `/me` response. -/
structure Charges where
  count : Option ℚ
  max : Option ℚ

/-- The part of the `/me` response the engine reads. -/
structure UserInfo where
  id : Nat
  extraColorsBitmap : Nat
  charges : Option Charges
  droplets : Int

/-- One entry of the list `_getMismatchedPixels` returns. -/
structure Mismatch where
  tx : Nat
  ty : Nat
  px : Nat
  py : Nat
  color : Int
  isEdge : Bool
  localX : Nat
  localY : Nat
deriving DecidableEq, Repr

/-- The `globalSettings` fields that `paint` reads. -/
structure GlobalSettings where
  drawingDirection : String
  drawingOrder : String
deriving DecidableEq, Repr

/-- The fields of a `WPlacer` client that the mismatch resolver and the
paint scheduler read: `template`, `coords`, `globalSettings`,
`templateSettings`, `userInfo` (`null` before login), the tile cache `tiles`
(a `Map` keyed by the tile coordinates, in insertion order) and `token`. -/
structure WPlacer where
  template : Template
  coords : Coords
  globalSettings : GlobalSettings
  templateSettings : TemplateSettings
  userInfo : Option UserInfo
  tiles : List ((Nat × Nat) × Tile)
  token : Option String

/-- `this.tiles.get(key)` for the key of tile `(tx, ty)`. -/
def WPlacer.tileAt (w : WPlacer) (tx ty : Nat) : Option Tile :=
  w.tiles.lookup (tx, ty)

/-! ## Mismatch resolver (`WPlacer.js`, `_getMismatchedPixels`) -/

/-- `hasColor(id)`: IDs below 32 are free; otherwise
`!!(this.userInfo.extraColorsBitmap & (1 << (id - 32)))`, where `<<` takes
its shift count modulo 32 and `&` works on the low 32 bits. Reading the
bitmap of a `null` `userInfo` throws. -/
def hasColor (userInfo : Option UserInfo) (id : Int) : Option Bool :=
  if id < 32 then some true
  else match userInfo with
    | none => none
    | some u => some ((u.extraColorsBitmap % 2 ^ 32).testBit ((id - 32).toNat % 32))

/-- `this.template.data[i]?.[j]` for possibly negative indices: `undefined`
when the column or the cell is missing. -/
def cellOpt (t : Template) (i j : Int) : Option Int :=
  if i < 0 ∨ j < 0 then none
  else (t.data[i.toNat]?).bind (fun col => col[j.toNat]?)

/-- The `isEdge` flag: some 4-neighbour is `0` or `undefined`. -/
def isEdgeAt (t : Template) (x y : Nat) : Bool :=
  [cellOpt t ((x : Int) - 1) y, cellOpt t ((x : Int) + 1) y,
   cellOpt t x ((y : Int) - 1), cellOpt t x ((y : Int) + 1)].any
    (fun n => n == some 0 || n == none)

/-- `targetTx`/`targetTy`: `start + Math.floor(global / 1000)`. -/
def targetTile (start startP off : Nat) : Nat := start + (startP + off) / 1000

/-- `localPx`/`localPy`: `global % 1000`. -/
def localPixel (startP off : Nat) : Nat := (startP + off) % 1000

/-- The body of the two nested loops of `_getMismatchedPixels` for one cell:
`none` when reading the cell throws, `some []` when nothing is pushed,
`some [entry]` when an entry is pushed. -/
def cellMismatch (w : WPlacer) (currentSkip : Nat) (colorFilter : Option Int)
    (x y : Nat) : Option (List Mismatch) :=
  -- `(x + y) % 0` is `NaN`, and `NaN !== 0`
  if currentSkip = 0 ∨ (x + y) % currentSkip ≠ 0 then some []
  else match w.template.data[x]? with
  | none => none
  | some column =>
    let tplColor : Option Int := column[y]?
    if colorFilter ≠ none ∧ tplColor ≠ colorFilter then some []
    else
      let targetTx := targetTile w.coords.startX w.coords.startPx x
      let targetTy := targetTile w.coords.startY w.coords.startPy y
      let localPx := localPixel w.coords.startPx x
      let localPy := localPixel w.coords.startPy y
      match (w.tileAt targetTx targetTy).bind (fun tile => tile.data localPx) with
      | none => some []
      | some tileColumn =>
        let canvasColor : Option Int := tileColumn localPy
        let isEdge := isEdgeAt w.template x y
        if w.templateSettings.eraseMode ∧ tplColor = some 0 ∧ canvasColor ≠ some 0 then
          some [⟨targetTx, targetTy, localPx, localPy, 0, false, x, y⟩]
        else if tplColor = some (-1) ∧ canvasColor ≠ some 0 then
          some [⟨targetTx, targetTy, localPx, localPy, 0, isEdge, x, y⟩]
        else match tplColor with
          | none => some []
          | some c =>
            if 0 < c then
              match hasColor w.userInfo c with
              | none => none
              | some false => some []
              | some true =>
                let shouldPaint : Bool :=
                  if w.templateSettings.skipPaintedPixels then decide (canvasColor = some 0)
                  else decide (some c ≠ canvasColor)
                if shouldPaint then
                  some [⟨targetTx, targetTy, localPx, localPy, c, isEdge, x, y⟩]
                else some []
            else some []

/-- The inner loop `for (x = 0; x < width; x++)` for a fixed `y`, appending
to `out`. -/
def mismatchRow (w : WPlacer) (currentSkip : Nat) (colorFilter : Option Int)
    (y : Nat) (out : List Mismatch) : Option (List Mismatch) :=
  (List.range w.template.width).foldlM
    (fun acc x => (cellMismatch w currentSkip colorFilter x y).map (acc ++ ·)) out

/-- `_getMismatchedPixels(currentSkip, colorFilter)`: the pixels that need a
change, in row-major order (`y` outer, `x` inner). The defaults of the source
are `currentSkip = 1` and `colorFilter = null`. -/
def _getMismatchedPixels (w : WPlacer) (currentSkip : Nat)
    (colorFilter : Option Int) : Option (List Mismatch) :=
  (List.range w.template.height).foldlM
    (fun acc y => mismatchRow w currentSkip colorFilter y acc) []

/-- A tile whose every pixel is `0` (a blank 1000 x 1000 tile). -/
def blankTile : Tile := ⟨fun px => if px < 1000 then some (fun py => if py < 1000 then some 0 else none) else none⟩

/-- Every cached tile has its 1000 columns (tiles are 1000 x 1000). -/
def WPlacer.TilesFull (w : WPlacer) : Prop :=
  ∀ tx ty tile, w.tileAt tx ty = some tile → ∀ px, px < 1000 → (tile.data px).isSome

/-- The rule of the mismatch resolver for one image cell holding `cell` over
the remote pixel `remote`, in the words of the specification: the colour of
the entry that is due, or `none` when no entry is due. Rules in precedence
order: erase (cell `0`, remote non-zero), clear-sentinel (cell `-1`, remote
non-zero), authorised real colour that is to be painted. -/
def ruleColor (s : TemplateSettings) (extraColorsBitmap : Nat) (cell : Int)
    (remote : Option Int) : Option Int :=
  if s.eraseMode = true ∧ cell = 0 ∧ remote ≠ some 0 then some 0
  else if cell = -1 ∧ remote ≠ some 0 then some 0
  else if 0 < cell ∧ (cell < 32 ∨ extraColorsBitmap.testBit (cell - 32).toNat = true) ∧
      ((s.skipPaintedPixels = true ∧ remote = some 0) ∨
       (s.skipPaintedPixels = false ∧ remote ≠ some cell)) then some cell
  else none

/-- The remote pixel under image cell `(x, y)`: `none` when its tile is not
cached, otherwise the value read from the tile (itself possibly
`undefined`). -/
def remotePixel (w : WPlacer) (x y : Nat) : Option (Option Int) :=
  (w.tileAt (targetTile w.coords.startX w.coords.startPx x)
      (targetTile w.coords.startY w.coords.startPy y)).map
    (fun tile => (tile.data (localPixel w.coords.startPx x)).bind
      (fun column => column (localPixel w.coords.startPy y)))

/-- The witness client of the specification's scenario: the 2 x 2 image
`[[1,0],[0,2]]` anchored at the origin over a blank tile, both modes off. -/
def scenarioClient : WPlacer :=
  { template := ⟨2, 2, [[1, 0], [0, 2]]⟩
    coords := ⟨0, 0, 0, 0⟩
    globalSettings := ⟨"ttb", "linear"⟩
    templateSettings := ⟨false, false, false⟩
    userInfo := some ⟨1, 0, none, 0⟩
    tiles := [((0, 0), blankTile)]
    token := none }

/-! ## Paint requests (`WPlacer.js`, `_executePaint`) -/

/-- `HTTP_STATUS` of `config/constants.js`. -/
def HTTP_STATUS.UNAUTH : Nat := 401
/-- `HTTP_STATUS.FORBIDDEN`. -/
def HTTP_STATUS.FORBIDDEN : Nat := 403
/-- `HTTP_STATUS.TOO_MANY`. -/
def HTTP_STATUS.TOO_MANY : Nat := 429
/-- `HTTP_STATUS.UNAVAILABLE_LEGAL`. -/
def HTTP_STATUS.UNAVAILABLE_LEGAL : Nat := 451
/-- `HTTP_STATUS.SRV_ERR`. -/
def HTTP_STATUS.SRV_ERR : Nat := 500
/-- `MS.FORTY_SEC`. -/
def MS.FORTY_SEC : Nat := 40000

/-- The body of a paint request: `{ colors, coords, t }` (the optional
fingerprint `fp` and the pawtect header are opaque pass-through values and
are left out). -/
structure PaintBody where
  colors : List Int
  coords : List Nat
  t : String
deriving DecidableEq, Repr

/-- What `post` returns for a paint request: the HTTP status and the fields
of the JSON body that `_executePaint` reads (`painted`, `error`,
`suspension`, `durationMs`; an absent field is `none`, a falsy `suspension`
is `false`). -/
structure PaintResponse where
  status : Nat
  painted : Option Int
  error : Option String
  suspension : Bool
  durationMs : Option Int
deriving DecidableEq, Repr

/-- The errors a paint turn can raise. -/
inductive PaintError where
  /-- `NetworkError`. -/
  | network
  /-- `Error('REFRESH_TOKEN')`. -/
  | refreshToken
  /-- `SuspensionError(message, durationMs)`. -/
  | suspension (durationMs : Int)
  /-- `Error('Unexpected response for tile ...')`. -/
  | unexpected
  /-- `Error('Token not provided.')`. -/
  | tokenMissing
  /-- A `TypeError` from reading a property of `undefined` or `null`. -/
  | typeError
  /-- A rejected tile fetch. -/
  | fetchFailed
  /-- Any other `Error` (a rejected credential, an unparsable response). -/
  | generic
deriving DecidableEq, Repr

/-- `tile.data[px][py] = color` under the guard `if (tile.data[px])`. -/
def Tile.set (t : Tile) (px py : Nat) (color : Int) : Tile :=
  match t.data px with
  | none => t
  | some column =>
    ⟨fun i => if i = px then some (fun j => if j = py then some color else column j)
      else t.data i⟩

/-- The loop `for (i = 0; i < body.colors.length; i++)` that writes the
painted colours into the cached tile. A missing coordinate (`undefined`)
touches no cell. -/
def Tile.paintAll (t : Tile) (colors : List Int) (coords : List Nat) : Tile :=
  (List.range colors.length).foldl
    (fun tile i =>
      match coords[i * 2]?, coords[i * 2 + 1]?, colors[i]? with
      | some px, some py, some color => tile.set px py color
      | _, _, _ => tile)
    t

/-- The in-place update of the tile object stored under `key`. -/
def modifyTile (tiles : List ((Nat × Nat) × Tile)) (key : Nat × Nat) (f : Tile → Tile) :
    List ((Nat × Nat) × Tile) :=
  match tiles with
  | [] => []
  | (k, t) :: rest =>
    if k = key then (k, f t) :: rest else (k, t) :: modifyTile rest key f

/-- What one `_executePaint` call does: the client afterwards, whether a
request was posted, the milliseconds slept, and the returned `painted` count
or the raised error. -/
structure ExecResult where
  client : WPlacer
  posted : Bool
  sleptMs : Nat
  result : Except PaintError Nat

/-- `"Error 1015"` occurs in the string (`String.prototype.includes`). -/
def includesError1015 (s : String) : Bool :=
  decide ("Error 1015".data <:+: s.data)

/-- `response.data.error && response.data.error.includes('Error 1015')`. -/
def errorIncludes1015 (error : Option String) : Bool :=
  match error with
  | some e => e ≠ "" && includesError1015 e
  | none => false

/-- The classification of a response that is not a full success, in the
order of the `if` cascade of `_executePaint`: the milliseconds slept and the
result (`durationMs || 0` is the duration, or `0` when it is absent). -/
def classifyFailure (response : PaintResponse) : Nat × Except PaintError Nat :=
  if response.status = HTTP_STATUS.UNAUTH ∧ response.error = some "Unauthorized" then
    (0, .error .network)
  else if response.status = HTTP_STATUS.FORBIDDEN ∧
      (response.error = some "refresh" ∨ response.error = some "Unauthorized") then
    (0, .error .refreshToken)
  else if response.status = HTTP_STATUS.UNAVAILABLE_LEGAL ∧ response.suspension = true then
    (0, .error (.suspension (response.durationMs.getD 0)))
  else if response.status = HTTP_STATUS.SRV_ERR then
    (MS.FORTY_SEC, .ok 0)
  else if response.status = HTTP_STATUS.TOO_MANY ∨ errorIncludes1015 response.error = true then
    (0, .error .network)
  else (0, .error .unexpected)

/-- `_executePaint(tx, ty, body)`, with `post` answering the request. -/
def _executePaint (w : WPlacer) (post : Nat → Nat → PaintBody → PaintResponse)
    (tx ty : Nat) (body : PaintBody) : ExecResult :=
  if body.colors.length = 0 then ⟨w, false, 0, .ok 0⟩
  else
    let response := post tx ty body
    if response.painted ≠ none ∧ response.painted ≠ some 0 ∧
        response.painted = some (body.colors.length : Int) then
      let tiles := modifyTile w.tiles (tx, ty) (fun tile => tile.paintAll body.colors body.coords)
      ⟨{ w with tiles := tiles }, true, 0, .ok body.colors.length⟩
    else
      let c := classifyFailure response
      ⟨w, true, c.1, c.2⟩

/-! ## Paint scheduler (`WPlacer.js`, `loadTiles` and `paint`) -/

/-- The result of one tile fetch in `loadTiles`: a decoded tile, a response
that is not `ok` (the tile is left out of the cache), or a rejected fetch. -/
inductive TileFetch where
  | tile (t : Tile)
  | notOk
  | failed

/-- The tile coordinates `loadTiles` requests: `X` from `tx` to `endTx` and
`Y` from `ty` to `endTy`, both inclusive. -/
def tileKeys (w : WPlacer) : List (Nat × Nat) :=
  let endTx := w.coords.startX + (w.coords.startPx + w.template.width) / 1000
  let endTy := w.coords.startY + (w.coords.startPy + w.template.height) / 1000
  (List.range' w.coords.startX (endTx - w.coords.startX + 1)).flatMap (fun X =>
    (List.range' w.coords.startY (endTy - w.coords.startY + 1)).map (fun Y => (X, Y)))

/-- `loadTiles()`: clears the cache and stores every fetched tile; a rejected
fetch rejects the whole load. -/
def loadTiles (w : WPlacer) (fetch : Nat → Nat → TileFetch) : Except PaintError WPlacer :=
  if (tileKeys w).any (fun k => match fetch k.1 k.2 with
      | .failed => true
      | _ => false) then .error .fetchFailed
  else
    let tiles := (tileKeys w).filterMap (fun k => match fetch k.1 k.2 with
      | .tile t => some (k, t)
      | _ => none)
    .ok { w with tiles := tiles }

/-- The outline step: `edge = mismatched.filter(p => p.isEdge)`, used when it
is not empty. -/
def outlineStep (outlineMode : Bool) (mismatched : List Mismatch) : List Mismatch :=
  if outlineMode then
    let edge := mismatched.filter (fun p => p.isEdge)
    if edge.length > 0 then edge else mismatched
  else mismatched

/-- The sort key of the comparator of a non-random `drawingDirection`. -/
def directionKey (drawingDirection : String) (t : Template) (p : Mismatch) : ℚ :=
  if drawingDirection = "btt" then -(p.localY : ℚ)
  else if drawingDirection = "ltr" then (p.localX : ℚ)
  else if drawingDirection = "rtl" then -(p.localX : ℚ)
  else if drawingDirection = "center_out" then
    ((p.localX : ℚ) - (t.width : ℚ) / 2) ^ 2 + ((p.localY : ℚ) - (t.height : ℚ) / 2) ^ 2
  else (p.localY : ℚ)

/-- Exchange of the elements at positions `i` and `j`. -/
def swapAt (l : List Mismatch) (i j : Nat) : List Mismatch :=
  match l[i]?, l[j]? with
  | some a, some b => (l.set i b).set j a
  | _, _ => l

/-- The shuffle loop `for (i = length - 1; i > 0; i--)`, with `random k` the
`k`-th value drawn from `Math.random()`; `fuel` counts the remaining
iterations, `i` the current index. -/
def shuffleLoop (random : Nat → ℚ) : Nat → Nat → Nat → List Mismatch → List Mismatch
  | 0, _, _, l => l
  | fuel + 1, i, k, l =>
    if i > 0 then
      let j := (⌊random k * ((i : ℚ) + 1)⌋).toNat
      shuffleLoop random fuel (i - 1) (k + 1) (swapAt l i j)
    else l

/-- The direction step: a stable sort by the comparator of the mode
(`Array.prototype.sort` is stable), or the shuffle. -/
def directionStep (drawingDirection : String) (t : Template) (random : Nat → ℚ)
    (mismatched : List Mismatch) : List Mismatch :=
  if drawingDirection = "random" then
    shuffleLoop random mismatched.length (mismatched.length - 1) 0 mismatched
  else
    mismatched.insertionSort
      (fun a b => directionKey drawingDirection t a ≤ directionKey drawingDirection t b)

/-- One step of the `reduce` that fills `buckets`: `(acc[p.color] ??= []).push(p)`,
the buckets kept in the order their key was created. -/
def pushBucket (acc : List (Int × List Mismatch)) (p : Mismatch) : List (Int × List Mismatch) :=
  match acc with
  | [] => [(p.color, [p])]
  | (c, ps) :: rest =>
    if c = p.color then (c, ps ++ [p]) :: rest else (c, ps) :: pushBucket rest p

/-- A property key that is an array index (an integer from `0` to
`2^32 - 2`): `Object.keys` lists these first, in ascending numeric order. -/
def isArrayIndex (c : Int) : Bool := decide (0 ≤ c ∧ c < 4294967295)

/-- `Object.keys(buckets)`: the array-index keys in ascending order, then the
other keys in creation order. -/
def objectKeys (buckets : List (Int × List Mismatch)) : List Int :=
  ((buckets.map Prod.fst).filter isArrayIndex).insertionSort (fun a b => a ≤ b) ++
    (buckets.map Prod.fst).filter (fun c => !isArrayIndex c)

/-- The colour-order step, applied when `drawingOrder === 'color'`. -/
def colorOrderStep (drawingOrder : String) (mismatched : List Mismatch) : List Mismatch :=
  if drawingOrder = "color" then
    let buckets := mismatched.foldl pushBucket []
    (objectKeys buckets).flatMap (fun c => (buckets.lookup c).getD [])
  else mismatched

/-- `Math.floor(this.userInfo?.charges?.count ?? 0)`. -/
def chargesNow (userInfo : Option UserInfo) : Int :=
  ⌊(((userInfo.bind (fun u => u.charges)).bind (fun c => c.count)).getD 0 : ℚ)⌋

/-- `arr.slice(0, e)`: a negative `e` counts from the end. -/
def slice0 {α : Type} (l : List α) (e : Int) : List α :=
  if 0 ≤ e then l.take e.toNat else l.take ((l.length : Int) + e).toNat

/-- One entry of `byTile`: the key `(tx, ty)` with its `colors` and `coords`. -/
structure TileGroup where
  tx : Nat
  ty : Nat
  colors : List Int
  coords : List Nat
deriving DecidableEq, Repr

/-- One step of the `reduce` that fills `byTile`, the groups kept in the order
their key was created (the keys `"tx,ty"` are not array indices). -/
def pushGroup (acc : List TileGroup) (p : Mismatch) : List TileGroup :=
  match acc with
  | [] => [⟨p.tx, p.ty, [p.color], [p.px, p.py]⟩]
  | g :: rest =>
    if g.tx = p.tx ∧ g.ty = p.ty then
      ⟨g.tx, g.ty, g.colors ++ [p.color], g.coords ++ [p.px, p.py]⟩ :: rest
    else g :: pushGroup rest p

/-- `byTile = todo.reduce(...)`. -/
def byTile (todo : List Mismatch) : List TileGroup := todo.foldl pushGroup []

/-- A posted paint request. -/
structure PaintRequest where
  tx : Nat
  ty : Nat
  body : PaintBody
deriving DecidableEq, Repr

/-- What a run of `paint` does: the client afterwards, the requests posted
(in order), the milliseconds slept, and the returned total or the raised
error. -/
structure PaintRun where
  client : WPlacer
  requests : List PaintRequest
  sleptMs : Nat
  result : Except PaintError Nat

/-- The loop `for (const k in byTile)`: one `_executePaint` per group, the
`painted` counts summed in `total`; an error ends the loop. `post i` answers
the `i`-th request of the run. -/
def submitGroups (post : Nat → Nat → Nat → PaintBody → PaintResponse) (token : String) :
    List TileGroup → WPlacer → List PaintRequest → Nat → Nat → PaintRun
  | [], w, requests, slept, total => ⟨w, requests, slept, .ok total⟩
  | g :: rest, w, requests, slept, total =>
    let body : PaintBody := ⟨g.colors, g.coords, token⟩
    let r := _executePaint w (post requests.length) g.tx g.ty body
    let requests' := if r.posted then requests ++ [⟨g.tx, g.ty, body⟩] else requests
    match r.result with
    | .error e => ⟨r.client, requests', slept + r.sleptMs, .error e⟩
    | .ok painted => submitGroups post token rest r.client requests' (slept + r.sleptMs)
        (total + painted)

/-- What the outside world answers during one run of `paint`. -/
structure PaintEnv where
  fetch : Nat → Nat → TileFetch
  random : Nat → ℚ
  post : Nat → Nat → Nat → PaintBody → PaintResponse

/-- The mismatch list of `paint` after the outline, direction and
colour-order steps. -/
def orderedMismatches (w : WPlacer) (random : Nat → ℚ) (mismatched : List Mismatch) :
    List Mismatch :=
  colorOrderStep w.globalSettings.drawingOrder
    (directionStep w.globalSettings.drawingDirection w.template random
      (outlineStep w.templateSettings.outlineMode mismatched))

/-- The part of `paint` after the tiles are loaded. -/
def paintLoaded (w : WPlacer) (env : PaintEnv) (currentSkip : Nat)
    (colorFilter : Option Int) : PaintRun :=
  match w.token with
  | none => ⟨w, [], 0, .error .tokenMissing⟩
  | some token =>
    if token = "" then ⟨w, [], 0, .error .tokenMissing⟩
    else match _getMismatchedPixels w currentSkip colorFilter with
    | none => ⟨w, [], 0, .error .typeError⟩
    | some mismatched =>
      if mismatched.length = 0 then ⟨w, [], 0, .ok 0⟩
      else match w.userInfo with
      | none => ⟨w, [], 0, .error .typeError⟩
      | some _ =>
        let ordered := orderedMismatches w env.random mismatched
        let todo := slice0 ordered (chargesNow w.userInfo)
        submitGroups env.post token (byTile todo) w [] 0 0

/-- `paint(currentSkip, colorFilter)`. -/
def paint (w : WPlacer) (env : PaintEnv) (currentSkip : Nat) (colorFilter : Option Int) :
    PaintRun :=
  if w.tiles.length = 0 then
    match loadTiles w env.fetch with
    | .error e => ⟨w, [], 0, .error e⟩
    | .ok w' => paintLoaded w' env currentSkip colorFilter
  else paintLoaded w env currentSkip colorFilter

/-- The pixels a request body names: the `i`-th colour with the `i`-th
coordinate pair. -/
def bodyPixels : List Int → List Nat → List (Nat × Nat × Int)
  | c :: colors, px :: py :: coords => (px, py, c) :: bodyPixels colors coords
  | _, _ => []

/-- A submitted pixel: remote tile, pixel in the tile, colour. -/
abbrev Pixel := Nat × Nat × Nat × Nat × Int

/-- The pixels a posted request submits. -/
def PaintRequest.pixels (r : PaintRequest) : List Pixel :=
  (bodyPixels r.body.colors r.body.coords).map (fun p => (r.tx, r.ty, p.1, p.2.1, p.2.2))

/-- The pixel a mismatch entry asks for. -/
def Mismatch.pixel (p : Mismatch) : Pixel := (p.tx, p.ty, p.px, p.py, p.color)

/-- A well-formed tile group: at least one colour and one coordinate pair per
colour. -/
def TileGroup.Good (g : TileGroup) : Prop :=
  g.colors ≠ [] ∧ g.coords.length = 2 * g.colors.length

/-- The pixels a tile group names. -/
def TileGroup.pixels (g : TileGroup) : List Pixel :=
  (bodyPixels g.colors g.coords).map (fun p => (g.tx, g.ty, p.1, p.2.1, p.2.2))

/-- The client `paint` works on once the tiles are there: the client itself
when its cache is not empty, the client after `loadTiles` otherwise. -/
def clientAfterLoad (w : WPlacer) (fetch : Nat → Nat → TileFetch) : Except PaintError WPlacer :=
  if w.tiles.length = 0 then loadTiles w fetch else .ok w

/-- The scenario client with a token, an account holding `count` charges and
ten pending pixels: a 10 x 1 image of colour 1 over a blank tile. -/
def tenPixelClient (count : ℚ) : WPlacer :=
  { template := ⟨10, 1, List.replicate 10 [1]⟩
    coords := ⟨0, 0, 0, 0⟩
    globalSettings := ⟨"ttb", "linear"⟩
    templateSettings := ⟨false, false, false⟩
    userInfo := some ⟨1, 0, some ⟨some count, some 100⟩, 0⟩
    tiles := [((0, 0), blankTile)]
    token := some "token" }

/-- A server that paints every pixel it is sent. -/
def allPaintedEnv : PaintEnv :=
  { fetch := fun _ _ => .notOk
    random := fun _ => 0
    post := fun _ _ _ body => ⟨200, some (body.colors.length : Int), none, false, none⟩ }

/-! ## Share-code codec (`utils/templateCodec.js` and `utils/codec.js`)

The helpers `varintWrite`, `varintRead`, `rleEncode`, `flatten2D_XMajor`,
`reshape_XMajor`, `transposeToXMajor` and `ensureXMajor` are the same in the
two files. Bytes are naturals; a cell that may be `undefined` is an
`Option Int`; a thrown error is `none`. -/

/-- A matrix cell as the codec sees it: a number or `undefined`. -/
abbrev Cell := Option Int

/-- The loop of `varintWrite`: `while (n >= 0x80) { out.push((n & 0x7f) | 0x80); n >>>= 7 }`
followed by `out.push(n)`; `>>>` works on the low 32 bits. The first argument
bounds the number of iterations (`n` itself is enough, `n` decreases). -/
def varintWriteLoop : Nat → Nat → List Nat → List Nat
  | 0, n, out => out ++ [n]
  | fuel + 1, n, out =>
    if n ≥ 0x80 then varintWriteLoop fuel ((n % 2 ^ 32) >>> 7) (out ++ [(n &&& 0x7f) ||| 0x80])
    else out ++ [n]

/-- `varintWrite(n, out)` for a non-negative integer `n`. -/
def varintWrite (n : Nat) (out : List Nat) : List Nat := varintWriteLoop n n out

/-- The `do ... while (b & 0x80)` loop of `varintRead`: `b = u8[i++]` (a read
past the end gives `undefined`, which `&` treats as `0`),
`n |= (b & 0x7f) << shift` on 32-bit integers (`<<` takes its count modulo
32), `shift += 7`. The first argument bounds the number of iterations. -/
def varintReadLoop (u8 : List Nat) : Nat → Nat → Nat → Nat → Nat × Nat
  | 0, i, n, _ => (n, i)
  | fuel + 1, i, n, shift =>
    let b := (u8[i]?).getD 0
    let n' := n ||| (((b &&& 0x7f) <<< (shift % 32)) % 2 ^ 32)
    if b &&& 0x80 ≠ 0 then varintReadLoop u8 fuel (i + 1) n' (shift + 7)
    else (n', i + 1)

/-- `varintRead(u8, i)`: the pair `[n >>> 0, i]`. Every iteration but the last
reads a byte inside the array, so `length - i + 1` iterations are enough. -/
def varintRead (u8 : List Nat) (i : Nat) : Nat × Nat :=
  varintReadLoop u8 (u8.length - i + 1) i 0 0

/-- The `for` loop of `rleEncode` with the current run `(p, c)`. -/
def rleLoop : List Cell → Cell → Nat → List (Cell × Nat) → List (Cell × Nat)
  | [], p, c, o => o ++ [(p, c)]
  | v :: rest, p, c, o =>
    if v = p then rleLoop rest p (c + 1) o else rleLoop rest v 1 (o ++ [(p, c)])

/-- `rleEncode(a)`. -/
def rleEncode (a : List Cell) : List (Cell × Nat) :=
  match a with
  | [] => []
  | p :: rest => rleLoop rest p 1 []

/-- `cols[x][y]` for an existing column index `x`: `undefined` when the
column is too short. -/
def cellAt (cols : List (List Cell)) (x y : Nat) : Cell :=
  ((cols[x]?).bind (fun col => col[y]?)).join

/-- `flatten2D_XMajor(cols)`: the cells row by row; `new Array(w * h)` throws
a `RangeError` when `w * h` is not below `2^32`. -/
def flatten2D_XMajor (cols : List (List Cell)) : Option (List Cell) :=
  let w := cols.length
  let h := ((cols[0]?).map List.length).getD 0
  if w * h ≥ 2 ^ 32 then none
  else some ((List.range h).flatMap (fun y => (List.range w).map (fun x => cellAt cols x y)))

/-- `reshape_XMajor(flat, w, h)`: `cols[x][y] = flat[y * w + x]`. -/
def reshape_XMajor (flat : List Cell) (w h : Nat) : List (List Cell) :=
  (List.range w).map (fun x => (List.range h).map (fun y => (flat[y * w + x]?).join))

/-- `transposeToXMajor(mat)`: `out[x][y] = mat[y][x]`. -/
def transposeToXMajor (mat : List (List Int)) : List (List Cell) :=
  let h := mat.length
  let w := ((mat[0]?).map List.length).getD 0
  (List.range w).map (fun x => (List.range h).map (fun y => (mat[y]?).bind (fun row => row[x]?)))

/-- `ensureXMajor(data, w, h)`; an empty `data` has no `data[0]` and is a
`bad matrix`. -/
def ensureXMajor (data : List (List Int)) (w h : Nat) : Option (List (List Cell)) :=
  match data[0]? with
  | none => none
  | some first =>
    if data.length = w ∧ first.length = h then some (data.map (fun col => col.map some))
    else if data.length = h ∧ first.length = w then some (transposeToXMajor data)
    else none

/-- `normPix(v)`: `-1` and `0..255` pass, everything else throws. -/
def normPix (v : Cell) : Option Int :=
  match v with
  | none => none
  | some n => if n = -1 then some (-1) else if n < 0 ∨ n > 255 then none else some n

/-- The result of `arr.map(f)` for an `f` that may throw, given the results of
the calls: the list of the values, or the throw of the first failing call. -/
def allOrThrow {α : Type} : List (Option α) → Option (List α)
  | [] => some []
  | none :: _ => none
  | some a :: rest => (allOrThrow rest).map (fun l => a :: l)

/-- Membership in `VALID_COLOR_IDS`: `-1`, `0` and the palette IDs `1..63`. -/
def isValidColorId (v : Cell) : Bool :=
  match v with
  | none => false
  | some n => decide (-1 ≤ n ∧ n ≤ 63)

/-- `sanitizePalette2D(matrix)`: every cell that is not a valid colour ID
becomes `0`. -/
def sanitizePalette2D (matrix : List (List Cell)) : List (List Cell) :=
  matrix.map (fun col => col.map (fun c => if isValidColorId c then c else some 0))

/-- The byte pushed for a run value: `vb = val === -1 ? 255 : val`, then
`vb & 0xff` (`undefined & 0xff` is `0`). -/
def runByte (val : Cell) : Nat :=
  match val with
  | none => 0
  | some n => if n = -1 then 255 else (n % 256).toNat

/-- The loop `for (const [val, cnt] of runs)` of `buildShareBytes`. -/
def writeRuns : List (Cell × Nat) → List Nat → List Nat
  | [], bytes => bytes
  | (val, cnt) :: rest, bytes => writeRuns rest (varintWrite cnt (bytes ++ [runByte val]))

/-- The bytes `buildShareBytes` pushes for a flat cell list, before
`Uint8Array.from` reduces them modulo 256. -/
def shareBytesOf (w h : Nat) (flat : List Cell) : List Nat :=
  let runs := rleEncode flat
  let bytes := varintWrite runs.length (varintWrite h (varintWrite w [0x57, 0x54, 0x01]))
  (writeRuns runs bytes).map (fun b => b % 256)

/-- The result of decoding: `{ width, height, data }`. -/
structure Decoded where
  width : Nat
  height : Nat
  data : List (List Cell)
deriving DecidableEq, Repr

/-- The loop `for (r = 0; r < rc; r++)` of `parseShareBytes`: `raw = u8[i++]`,
`cnt` read as a varint, `v = raw === 255 ? -1 : raw`, pushed `cnt` times. -/
def readRuns (u8 : List Nat) : Nat → Nat → List Cell → List Cell
  | 0, _, flat => flat
  | rc + 1, i, flat =>
    let raw := u8[i]?
    let r := varintRead u8 (i + 1)
    let v : Cell := raw.map (fun b => if b = (255 : Nat) then (-1 : Int) else (b : Int))
    readRuns u8 rc r.2 (flat ++ List.replicate r.1 v)

/-- The part of `parseShareBytes` the two files share: magic and version,
the three varints, the runs, the size check and the reshape. -/
def parseShareBytesCore (u8 : List Nat) : Option Decoded :=
  if u8.length < 3 ∨ u8[0]? ≠ some 0x57 ∨ u8[1]? ≠ some 0x54 ∨ u8[2]? ≠ some 0x01 then none
  else
    let rw := varintRead u8 3
    let rh := varintRead u8 rw.2
    let rrc := varintRead u8 rh.2
    let flat := readRuns u8 rrc.1 rrc.2 []
    if flat.length ≠ rw.1 * rh.1 then none
    else some ⟨rw.1, rh.1, reshape_XMajor flat rw.1 rh.1⟩

/-- `Base64URL` of the codec files: `enc` and `dec` are Node's `Buffer`
base64 conversions with the URL-safe alphabet; `κ` is the type of share
codes. -/
structure Base64URL (κ : Type) where
  enc : List Nat → κ
  dec : κ → List Nat

/-- A template as the codec receives it: `{ width, height, data }`. -/
structure ShareTemplate where
  width : Nat
  height : Nat
  data : List (List Int)
deriving DecidableEq, Repr

namespace TemplateCodec

/-- `buildShareBytes(width, height, data2D)` of `templateCodec.js`. -/
def buildShareBytes (width height : Nat) (data2D : List (List Int)) : Option (List Nat) :=
  let w := width % 2 ^ 32
  let h := height % 2 ^ 32
  if w = 0 ∨ h = 0 then none
  else do
    let xmaj0 ← ensureXMajor data2D w h
    let xmaj ← allOrThrow (xmaj0.map (fun col => allOrThrow (col.map normPix)))
    let flat ← flatten2D_XMajor (xmaj.map (fun col => col.map some))
    pure (shareBytesOf w h flat)

/-- `parseShareBytes(u8)` of `templateCodec.js`: the result is sanitized. -/
def parseShareBytes (u8 : List Nat) : Option Decoded :=
  (parseShareBytesCore u8).map (fun d => { d with data := sanitizePalette2D d.data })

/-- `shareCodeFromTemplate(t)` of `templateCodec.js`. -/
def shareCodeFromTemplate {κ : Type} (b64 : Base64URL κ) (t : ShareTemplate) : Option κ :=
  (buildShareBytes t.width t.height t.data).map b64.enc

/-- `templateFromShareCode(code)` of `templateCodec.js`: parsed, then
sanitized once more. -/
def templateFromShareCode {κ : Type} (b64 : Base64URL κ) (code : κ) : Option Decoded :=
  (parseShareBytes ((b64.dec code).map (fun b => b % 256))).map
    (fun d => { d with data := sanitizePalette2D d.data })

end TemplateCodec

namespace Codec

/-- `buildShareBytes(width, height, data2D)` of `codec.js` (no `normPix`). -/
def buildShareBytes (width height : Nat) (data2D : List (List Int)) : Option (List Nat) :=
  let w := width % 2 ^ 32
  let h := height % 2 ^ 32
  if w = 0 ∨ h = 0 then none
  else do
    let xmaj ← ensureXMajor data2D w h
    let flat ← flatten2D_XMajor xmaj
    pure (shareBytesOf w h flat)

/-- `parseShareBytes(u8)` of `codec.js` (no sanitizing). -/
def parseShareBytes (u8 : List Nat) : Option Decoded := parseShareBytesCore u8

/-- `shareCodeFromTemplate(template)` of `codec.js`. -/
def shareCodeFromTemplate {κ : Type} (b64 : Base64URL κ) (t : ShareTemplate) : Option κ :=
  (buildShareBytes t.width t.height t.data).map b64.enc

/-- `templateFromShareCode(code)` of `codec.js`. -/
def templateFromShareCode {κ : Type} (b64 : Base64URL κ) (code : κ) : Option Decoded :=
  parseShareBytes ((b64.dec code).map (fun b => b % 256))

end Codec

/-- The identity stand-in for `Base64URL`, with byte lists as share codes. -/
def plainBase64 : Base64URL (List Nat) := ⟨id, id⟩

/-- The cells a list of runs stands for. -/
def expandRuns (runs : List (Cell × Nat)) : List Cell :=
  runs.flatMap (fun r => List.replicate r.2 r.1)

/-- The bytes `writeRuns` appends for a list of runs. -/
def encodeRuns (runs : List (Cell × Nat)) : List Nat :=
  runs.flatMap (fun r => runByte r.1 :: varintWrite r.2 [])

/-- What `parseShareBytes` makes of a byte: `raw === 255 ? -1 : raw`. -/
def byteCell (b : Nat) : Cell := some (if b = (255 : Nat) then (-1 : Int) else (b : Int))

/-! ## Charge predictor (`core/ChargeCache.js`, the same in `core/charge-cache.js`) -/

/-- One entry of the cache: `{ base, max, lastSync }`. -/
structure ChargeEntry where
  base : Int
  max : Int
  lastSync : Int
deriving DecidableEq, Repr

/-- The cache `_m`, a `Map` keyed by `String(id)`; `String` is injective on
the numeric ids, so the map is keyed by the id. -/
structure ChargeCache where
  _m : Nat → Option ChargeEntry

/-- `REGEN_MS`: one charge every 30 seconds. -/
def ChargeCache.REGEN_MS : Int := 30000

/-- `SYNC_MS`: a reading is stale after 8 minutes. -/
def ChargeCache.SYNC_MS : Int := 8 * 60000

/-- The cache of `new ChargeCache()`. -/
def ChargeCache.empty : ChargeCache := ⟨fun _ => none⟩

/-- `this._m.set(k, entry)`. -/
def ChargeCache.set (c : ChargeCache) (k : Nat) (entry : ChargeEntry) : ChargeCache :=
  ⟨fun j => if j = k then some entry else c._m j⟩

/-- `markFromUserInfo(userInfo, now)`: nothing happens when `userInfo?.id` or
`userInfo?.charges` is falsy. -/
def ChargeCache.markFromUserInfo (c : ChargeCache) (userInfo : Option UserInfo) (now : Int) :
    ChargeCache :=
  match userInfo with
  | none => c
  | some u =>
    if u.id = 0 then c
    else match u.charges with
      | none => c
      | some charges =>
        let base : Int := ⌊(charges.count.getD 0 : ℚ)⌋
        let max : Int := ⌊(charges.max.getD 0 : ℚ)⌋
        c.set u.id ⟨base, max, now⟩

/-- The object `predict` returns: `{ count, max, cooldownMs }`. -/
structure Prediction where
  count : Int
  max : Int
  cooldownMs : Int
deriving DecidableEq, Repr

/-- `predict(id, now)`; `null` is `none`. -/
def ChargeCache.predict (c : ChargeCache) (id : Nat) (now : Int) : Option Prediction :=
  match c._m id with
  | none => none
  | some u =>
    let grown := (now - u.lastSync) / ChargeCache.REGEN_MS
    let count := min u.max (u.base + max 0 grown)
    some ⟨count, u.max, ChargeCache.REGEN_MS⟩

/-- `consume(id, n, now)`; `%` is the JavaScript remainder, which takes the
sign of the dividend. -/
def ChargeCache.consume (c : ChargeCache) (id : Nat) (n : Int) (now : Int) : ChargeCache :=
  match c._m id with
  | none => c
  | some u =>
    let grown := (now - u.lastSync) / ChargeCache.REGEN_MS
    let avail := min u.max (u.base + max 0 grown)
    let newCount := max 0 (avail - n)
    c.set id ⟨newCount, u.max, now - (now - u.lastSync).tmod ChargeCache.REGEN_MS⟩

/-- `stale(id, now)`. -/
def ChargeCache.stale (c : ChargeCache) (id : Nat) (now : Int) : Bool :=
  match c._m id with
  | none => true
  | some u => decide (now - u.lastSync > ChargeCache.SYNC_MS)

/-- The classification of a failed paint response as the specification words
it, in its order of precedence: `401` with `Unauthorized`; `403` with
`refresh`; `451` with the suspension flag; every server-error status `5xx`
(no error, `0` painted after the 40 s backoff); `429` or the `Error 1015`
marker; anything else. The pair is the milliseconds slept and the result. -/
def classifyAsSpecified (response : PaintResponse) : Nat × Except PaintError Nat :=
  if response.status = 401 ∧ response.error = some "Unauthorized" then (0, .error .network)
  else if response.status = 403 ∧ response.error = some "refresh" then (0, .error .refreshToken)
  else if response.status = 451 ∧ response.suspension = true then
    (0, .error (.suspension (response.durationMs.getD 0)))
  else if 500 ≤ response.status ∧ response.status ≤ 599 then (40000, .ok 0)
  else if response.status = 429 ∨ errorIncludes1015 response.error = true then
    (0, .error .network)
  else (0, .error .unexpected)

/-- The value `tile.data[px]?.[py]` as the cache holds it: `none` when the
column is missing, `some undefined` or `some colour` otherwise. -/
def Tile.read (t : Tile) (px py : Nat) : Option (Option Int) :=
  (t.data px).map (fun column => column py)

/-- The paint body `byTile` builds from the entries `S` of one tile: their
colours and their coordinate pairs, in order. -/
def entriesBody (S : List Mismatch) (token : String) : PaintBody :=
  ⟨S.map (fun e => e.color), S.flatMap (fun e => [e.px, e.py]), token⟩

/-- The decision `_getMismatchedPixels` takes for a cell once the remote
pixel has been read: `remote` is `tile.data[localPx]?.[localPy]` of the
cached tile (`none`: no tile, or no column). -/
def cellDecision (w : WPlacer) (currentSkip : Nat) (colorFilter : Option Int)
    (x y : Nat) (remote : Option (Option Int)) : Option (List Mismatch) :=
  if currentSkip = 0 ∨ (x + y) % currentSkip ≠ 0 then some []
  else match w.template.data[x]? with
  | none => none
  | some column =>
    let tplColor : Option Int := column[y]?
    if colorFilter ≠ none ∧ tplColor ≠ colorFilter then some []
    else
      let targetTx := targetTile w.coords.startX w.coords.startPx x
      let targetTy := targetTile w.coords.startY w.coords.startPy y
      let localPx := localPixel w.coords.startPx x
      let localPy := localPixel w.coords.startPy y
      match remote with
      | none => some []
      | some canvasColor =>
        let isEdge := isEdgeAt w.template x y
        if w.templateSettings.eraseMode ∧ tplColor = some 0 ∧ canvasColor ≠ some 0 then
          some [⟨targetTx, targetTy, localPx, localPy, 0, false, x, y⟩]
        else if tplColor = some (-1) ∧ canvasColor ≠ some 0 then
          some [⟨targetTx, targetTy, localPx, localPy, 0, isEdge, x, y⟩]
        else match tplColor with
          | none => some []
          | some c =>
            if 0 < c then
              match hasColor w.userInfo c with
              | none => none
              | some false => some []
              | some true =>
                let shouldPaint : Bool :=
                  if w.templateSettings.skipPaintedPixels then decide (canvasColor = some 0)
                  else decide (some c ≠ canvasColor)
                if shouldPaint then
                  some [⟨targetTx, targetTy, localPx, localPy, c, isEdge, x, y⟩]
                else some []
            else some []

/-- The remote pixel `_getMismatchedPixels` reads for cell `(x, y)`. -/
def remoteRead (w : WPlacer) (x y : Nat) : Option (Option Int) :=
  (w.tileAt (targetTile w.coords.startX w.coords.startPx x)
      (targetTile w.coords.startY w.coords.startPy y)).bind
    (fun tile => tile.read (localPixel w.coords.startPx x) (localPixel w.coords.startPy y))

/-- The client after the tile `(tx, ty)` of its cache took the colours of the
entries `S`, written one after the other. -/
def paintedClient (w : WPlacer) (tx ty : Nat) (S : List Mismatch) : WPlacer :=
  { w with tiles := (modifyTile w.tiles (tx, ty)
      (fun tile => S.foldl (fun tile e => tile.set e.px e.py e.color) tile)) }

/-! ## Template execution engine (`core/TemplateManager.js`) -/

/-- An entry of the `users` object. -/
structure User where
  name : String
  cookies : String
  suspendedUntil : Option Int
deriving DecidableEq, Repr

/-- The `users` object, keyed by user id. -/
abbrev Users := Nat → Option User

/-- The guard of both rotation passes:
`!users[userId] || (users[userId].suspendedUntil && Date.now() < users[userId].suspendedUntil)`. -/
def skipsUser (users : Users) (userId : Nat) (now : Int) : Bool :=
  match users userId with
  | none => true
  | some u =>
    match u.suspendedUntil with
    | none => false
    | some t => decide (t ≠ 0 ∧ now < t)

/-- The fields of `currentSettings` the engine reads. -/
structure Settings where
  accountCooldown : Nat
  purchaseCooldown : Nat
  antiGriefStandby : Nat
  dropletReserve : Int
  drawingDirection : String
  drawingOrder : String
deriving DecidableEq, Repr

/-- The state of a `TemplateManager`. The property `userIds` holds an array,
or `undefined` (`none`) after an edit request whose body has no `userIds`;
`masterId` is `none` when it holds `undefined` or `null`. -/
structure TemplateManager where
  name : String
  template : Template
  coords : Coords
  canBuyCharges : Bool
  canBuyMaxCharges : Bool
  antiGriefMode : Bool
  eraseMode : Bool
  outlineMode : Bool
  skipPaintedPixels : Bool
  userIds : Option (List Nat)
  running : Bool
  status : String
  masterId : Option Nat
  totalPixels : Nat
  pixelsRemaining : Nat
  currentPixelSkip : Nat
  initialRetryDelay : Nat
  maxRetryDelay : Nat
  currentRetryDelay : Nat
  userQueue : List Nat
deriving DecidableEq, Repr

/-- What the engine does to the outside world, in order. -/
inductive Event where
  /-- `wplacer.login(cookies)` for a user. -/
  | login (userId : Nat)
  /-- `wplacer.loadTiles()`. -/
  | loadTiles (userId : Nat)
  /-- `tokenManager.getToken(name)`. -/
  | getToken
  /-- One call of `wplacer.paint`, with the paint requests it posted. -/
  | paint (requests : List PaintRequest)
  /-- `tokenManager.invalidateToken()`. -/
  | invalidateToken
  /-- `sleep(ms)` or `cancellableSleep(ms)`. -/
  | sleep (ms : Nat)
  /-- `wplacer.loadUserInfo()` of a purchase flow. -/
  | loadUserInfo
  /-- `wplacer.buyProduct(productId, amount)`. -/
  | buyProduct (productId : Nat) (amount : Int)
deriving DecidableEq, Repr

/-- An event that is a paint attempt. -/
def Event.isPaint : Event → Bool
  | .paint _ => true
  | _ => false

/-- `new WPlacer({ template, coords, globalSettings, templateSettings, templateName })`. -/
def TemplateManager.newClient (tm : TemplateManager) (settings : Settings) : WPlacer :=
  { template := tm.template
    coords := tm.coords
    globalSettings := ⟨settings.drawingDirection, settings.drawingOrder⟩
    templateSettings := ⟨tm.eraseMode, tm.outlineMode, tm.skipPaintedPixels⟩
    userInfo := none
    tiles := []
    token := none }

/-- `wplacer.login(cookies)`: the outcome of `loadUserInfo` is the world's
answer; on success the client holds the user info. -/
def login (w : WPlacer) (answer : Except PaintError UserInfo) : Except PaintError WPlacer :=
  match answer with
  | .ok u => .ok { w with userInfo := some u }
  | .error e => .error e

/-- What the world answers during one paint turn: the `j`-th token handed out
by `tokenManager.getToken`, the world during the `j`-th call of `paint`, and
`Date.now()` when the charges are consumed. -/
structure TurnWorld where
  token : Nat → String
  paintEnv : Nat → PaintEnv
  now : Int

/-- The state of a paint turn: whether it has returned or raised
(`finished`), the number of paint attempts made, the client, the charge
cache, the events, and the result (the painted total or the raised error). -/
structure TurnResult where
  finished : Bool
  attempts : Nat
  client : WPlacer
  cache : ChargeCache
  events : List Event
  result : Except PaintError Nat

/-- The `j`-th attempt of a paint turn on client `w`: the token is stored,
then `paint(this.currentPixelSkip, colorFilter)` runs. -/
def paintAttempt (world : TurnWorld) (currentPixelSkip : Nat) (colorFilter : Option Int)
    (j : Nat) (w : WPlacer) : PaintRun :=
  paint { w with token := some (world.token j) } (world.paintEnv j) currentPixelSkip colorFilter

/-- The loop `while (!done && this.running)` of `_performPaintTurn`, from the
`j`-th attempt on; `running` is the value of `this.running`, which nothing in
the loop changes. The first argument bounds the number of iterations: when it
runs out the loop is still going (`finished = false`). -/
def paintTurnLoop (running : Bool) (world : TurnWorld) (currentPixelSkip : Nat)
    (colorFilter : Option Int) (cache : ChargeCache) :
    Nat → Nat → WPlacer → List Event → TurnResult
  | 0, j, w, events => ⟨false, j, w, cache, events, .ok 0⟩
  | fuel + 1, j, w, events =>
    if running = false then
      -- the loop ends with `done = false` and `paintedTotal = 0`
      ⟨true, j, w, cache, events, .ok 0⟩
    else
      let run := paintAttempt world currentPixelSkip colorFilter j w
      let events' := events ++ [Event.getToken, Event.paint run.requests] ++
        (if run.sleptMs = 0 then [] else [Event.sleep run.sleptMs])
      match run.result with
      | .ok painted =>
        -- `done = true`; charges are consumed when something was painted
        let cache' := match run.client.userInfo with
          | some u => if u.id ≠ 0 ∧ painted > 0 then cache.consume u.id painted world.now else cache
          | none => cache
        ⟨true, j + 1, run.client, cache', events', .ok painted⟩
      | .error (.suspension d) => ⟨true, j + 1, run.client, cache, events', .error (.suspension d)⟩
      | .error .refreshToken =>
        paintTurnLoop running world currentPixelSkip colorFilter cache fuel (j + 1) run.client
          (events' ++ [Event.invalidateToken, Event.sleep 1000])
      | .error e => ⟨true, j + 1, run.client, cache, events', .error e⟩

/-- `_performPaintTurn(wplacer, colorFilter)`, run for at most `fuel`
iterations of its loop. -/
def _performPaintTurn (tm : TemplateManager) (world : TurnWorld) (cache : ChargeCache)
    (w : WPlacer) (colorFilter : Option Int) (fuel : Nat) : TurnResult :=
  paintTurnLoop tm.running world tm.currentPixelSkip colorFilter cache fuel 0 w []

/-- The client the `j`-th attempt of a paint turn works on: the client the
turn was given, passed through the earlier attempts. -/
def attemptClient (world : TurnWorld) (currentPixelSkip : Nat) (colorFilter : Option Int)
    (w : WPlacer) : Nat → WPlacer
  | 0 => w
  | j + 1 =>
    (paintAttempt world currentPixelSkip colorFilter j
      (attemptClient world currentPixelSkip colorFilter w j)).client

/-- A server that rejects the token of every paint request (`403`, error
`refresh`). -/
def refreshEnv : PaintEnv :=
  { fetch := fun _ _ => .notOk
    random := fun _ => 0
    post := fun _ _ _ _ => ⟨403, none, some "refresh", false, none⟩ }

/-- A world in which every paint attempt is answered with the refresh-token
rejection. -/
def refreshWorld : TurnWorld :=
  { token := fun _ => "token"
    paintEnv := fun _ => refreshEnv
    now := 0 }

/-- A world in which the first `k` paint attempts are answered with the
refresh-token rejection and the later ones are painted in full. -/
def refreshThenPaintWorld (k : Nat) : TurnWorld :=
  { token := fun _ => "token"
    paintEnv := fun j => if j < k then refreshEnv else allPaintedEnv
    now := 0 }

/-- A running template manager for the ten-pixel scenario, with the given
users in its rotation. -/
def scenarioManager (userIds : List Nat) (antiGriefMode : Bool) : TemplateManager :=
  { name := "scenario"
    template := ⟨10, 1, List.replicate 10 [1]⟩
    coords := ⟨0, 0, 0, 0⟩
    canBuyCharges := false
    canBuyMaxCharges := false
    antiGriefMode := antiGriefMode
    eraseMode := false
    outlineMode := false
    skipPaintedPixels := false
    userIds := some userIds
    running := true
    status := "Started."
    masterId := userIds.head?
    totalPixels := 10
    pixelsRemaining := 10
    currentPixelSkip := 1
    initialRetryDelay := 30000
    maxRetryDelay := 300000
    currentRetryDelay := 30000
    userQueue := userIds }

/-- The constructor of `TemplateManager`: the rotation queue is a copy of the
user ids, the pixel counters count the cells different from `0`. -/
def TemplateManager.new (name : String) (templateData : Template) (coords : Coords)
    (canBuyCharges canBuyMaxCharges antiGriefMode eraseMode outlineMode
      skipPaintedPixels : Bool) (userIds : List Nat) : TemplateManager :=
  { name := name
    template := templateData
    coords := coords
    canBuyCharges := canBuyCharges
    canBuyMaxCharges := canBuyMaxCharges
    antiGriefMode := antiGriefMode
    eraseMode := eraseMode
    outlineMode := outlineMode
    skipPaintedPixels := skipPaintedPixels
    userIds := some userIds
    running := false
    status := "Waiting to be started."
    masterId := userIds.head?
    totalPixels := (templateData.data.flatten.filter (fun p => decide (p ≠ 0))).length
    pixelsRemaining := (templateData.data.flatten.filter (fun p => decide (p ≠ 0))).length
    currentPixelSkip := 1
    initialRetryDelay := 30000
    maxRetryDelay := 300000
    currentRetryDelay := 30000
    userQueue := userIds }

/-- What the world answers to the account consulted in one iteration of the
check pass: `Date.now()` at the guard, the outcome of `login`, and the tiles
served to `loadTiles`. -/
structure CheckAnswer where
  now : Int
  login : Except PaintError UserInfo
  fetch : Nat → Nat → TileFetch

/-- The outcome of `_findWorkingUserAndCheckPixels`: the rotation queue it
leaves behind, what it did, and the `{ wplacer, mismatchedPixels }` it returns
(`none` for `null`). -/
structure CheckResult where
  userQueue : List Nat
  events : List Event
  found : Option (WPlacer × List Mismatch)

/-- The loop of `_findWorkingUserAndCheckPixels` from iteration `i` on, with
the given number of iterations left (`userQueue.length - i`; rotating the
queue keeps its length). Each iteration moves the front of the queue to the
back, skips a missing or suspended user, and otherwise logs in, loads the
tiles and computes the mismatches; an error of any of the three is logged and
the loop goes on. -/
def checkLoop (tm : TemplateManager) (users : Users) (settings : Settings)
    (world : Nat → CheckAnswer) : Nat → Nat → List Nat → List Event → CheckResult
  | 0, _, queue, events => ⟨queue, events, none⟩
  | _ + 1, _, [], events => ⟨[], events, none⟩
  | n + 1, i, userId :: rest, events =>
    let queue := rest ++ [userId]
    if skipsUser users userId (world i).now then
      checkLoop tm users settings world n (i + 1) queue events
    else
      match login (tm.newClient settings) (world i).login with
      | .error _ =>
        checkLoop tm users settings world n (i + 1) queue (events ++ [Event.login userId])
      | .ok w1 =>
        match loadTiles w1 (world i).fetch with
        | .error _ =>
          checkLoop tm users settings world n (i + 1) queue
            (events ++ [Event.login userId, Event.loadTiles userId])
        | .ok w2 =>
          match _getMismatchedPixels w2 1 none with
          | none =>
            checkLoop tm users settings world n (i + 1) queue
              (events ++ [Event.login userId, Event.loadTiles userId])
          | some mismatchedPixels =>
            ⟨queue, events ++ [Event.login userId, Event.loadTiles userId],
              some (w2, mismatchedPixels)⟩

/-- `_findWorkingUserAndCheckPixels(users, currentSettings)`. -/
def _findWorkingUserAndCheckPixels (tm : TemplateManager) (users : Users) (settings : Settings)
    (world : Nat → CheckAnswer) : CheckResult :=
  checkLoop tm users settings world tm.userQueue.length 0 tm.userQueue []

/-- Whether the account `userId`, consulted as the `i`-th account of a check
pass, is a working one: it exists and is not suspended, it logs in, its tiles
load and its mismatches are computed. -/
def checkSucceeds (tm : TemplateManager) (users : Users) (settings : Settings)
    (world : Nat → CheckAnswer) (i : Nat) (userId : Nat) : Bool :=
  if skipsUser users userId (world i).now then false
  else
    match login (tm.newClient settings) (world i).login with
    | .error _ => false
    | .ok w1 =>
      match loadTiles w1 (world i).fetch with
      | .error _ => false
      | .ok w2 => (_getMismatchedPixels w2 1 none).isSome

/-- The number of accounts a check pass consults when it takes the accounts
of the list one after the other, the first of them as its `i`-th account: all
of them up to and including the first working one, or all of them when none
works. -/
def consultedCount (tm : TemplateManager) (users : Users) (settings : Settings)
    (world : Nat → CheckAnswer) : Nat → List Nat → Nat
  | _, [] => 0
  | i, userId :: rest =>
    if checkSucceeds tm users settings world i userId then 1
    else 1 + consultedCount tm users settings world (i + 1) rest

/-- What the world answers to the account of one iteration of the paint pass:
`Date.now()` at the guard, the outcome of `login`, the world of its paint
turn, the outcomes of the calls of `loadUserInfo` made by the purchase flows
(calls 0 and 1 by `handleUpgrades`, 2 and 3 by `handleChargePurchases`), and
the outcome of `buyProduct`. -/
structure PassAnswer where
  now : Int
  login : Except PaintError UserInfo
  turn : TurnWorld
  loadUserInfo : Nat → Except PaintError UserInfo
  buyProduct : Nat → Int → Except PaintError Unit

/-- The outcome of a purchase flow: the client, what was done, and the error
the flow raised, if any. -/
structure Flow where
  client : WPlacer
  events : List Event
  error : Option PaintError

/-- The purchase both flows make once the amount is known:
`if (amountToBuy > 0) { try { buyProduct; sleep; loadUserInfo } catch { log } }`.
An error inside the `try` is logged and not raised. -/
def purchase (settings : Settings) (answer : PassAnswer) (productId : Nat) (call : Nat)
    (w : WPlacer) (droplets : Int) : Flow :=
  let affordableDroplets := droplets - settings.dropletReserve
  let amountToBuy := affordableDroplets / 500
  if amountToBuy > 0 then
    match answer.buyProduct productId amountToBuy with
    | .error _ => ⟨w, [Event.loadUserInfo, Event.buyProduct productId amountToBuy], none⟩
    | .ok _ =>
      match login w (answer.loadUserInfo call) with
      | .error _ =>
        ⟨w, [Event.loadUserInfo, Event.buyProduct productId amountToBuy,
          Event.sleep settings.purchaseCooldown, Event.loadUserInfo], none⟩
      | .ok w2 =>
        ⟨w2, [Event.loadUserInfo, Event.buyProduct productId amountToBuy,
          Event.sleep settings.purchaseCooldown, Event.loadUserInfo], none⟩
  else ⟨w, [Event.loadUserInfo], none⟩

/-- `handleUpgrades(wplacer, currentSettings)`: product 70. -/
def handleUpgrades (tm : TemplateManager) (settings : Settings) (answer : PassAnswer)
    (w : WPlacer) : Flow :=
  if tm.canBuyMaxCharges = false then ⟨w, [], none⟩
  else
    match login w (answer.loadUserInfo 0) with
    | .error e => ⟨w, [Event.loadUserInfo], some e⟩
    | .ok w1 =>
      match w1.userInfo with
      | none => ⟨w1, [Event.loadUserInfo], some PaintError.typeError⟩
      | some u => purchase settings answer 70 1 w1 u.droplets

/-- The comparison `charges.count < charges.max`, false when either side is
`undefined`. -/
def chargesBelowMax (charges : Charges) : Bool :=
  match charges.count, charges.max with
  | some count, some max => decide (count < max)
  | _, _ => false

/-- `handleChargePurchases(wplacer, currentSettings)`: product 80, bought only
when the charges are below their maximum and the droplets above the reserve. -/
def handleChargePurchases (tm : TemplateManager) (settings : Settings) (answer : PassAnswer)
    (w : WPlacer) : Flow :=
  if tm.canBuyCharges = false then ⟨w, [], none⟩
  else
    match login w (answer.loadUserInfo 2) with
    | .error e => ⟨w, [Event.loadUserInfo], some e⟩
    | .ok w1 =>
      match w1.userInfo with
      | none => ⟨w1, [Event.loadUserInfo], some PaintError.typeError⟩
      | some u =>
        match u.charges with
        | none => ⟨w1, [Event.loadUserInfo], some PaintError.typeError⟩
        | some charges =>
          if chargesBelowMax charges ∧ u.droplets > settings.dropletReserve then
            purchase settings answer 80 3 w1 u.droplets
          else ⟨w1, [Event.loadUserInfo], none⟩

/-- The state of the paint pass: whether it has come to its end (`false` when
a paint turn is still going), the charge cache and what was done. -/
structure PassResult where
  finished : Bool
  cache : ChargeCache
  events : List Event

/-- The paint pass of `start`,
`for (let i = 0; i < this.userQueue.length && this.running; i++)`, over the
rest of the queue from iteration `i` on. A missing or suspended user is
skipped; otherwise the account logs in, takes its paint turn and runs the two
purchase flows; an error of any of them ends the iteration (it is logged
unless it is a `SuspensionError`), and the pass goes on with the next user. -/
def paintPass (tm : TemplateManager) (users : Users) (settings : Settings)
    (world : Nat → PassAnswer) (fuel : Nat) :
    List Nat → Nat → ChargeCache → List Event → PassResult
  | [], _, cache, events => ⟨true, cache, events⟩
  | userId :: rest, i, cache, events =>
    if tm.running = false then ⟨true, cache, events⟩
    else if skipsUser users userId (world i).now then
      paintPass tm users settings world fuel rest (i + 1) cache events
    else
      match login (tm.newClient settings) (world i).login with
      | .error _ =>
        paintPass tm users settings world fuel rest (i + 1) cache (events ++ [Event.login userId])
      | .ok w1 =>
        let turn := _performPaintTurn tm (world i).turn cache w1 none fuel
        let events1 := events ++ [Event.login userId] ++ turn.events
        if turn.finished = false then ⟨false, turn.cache, events1⟩
        else
          match turn.result with
          | .error _ => paintPass tm users settings world fuel rest (i + 1) turn.cache events1
          | .ok _ =>
            let upgrades := handleUpgrades tm settings (world i) turn.client
            match upgrades.error with
            | some _ =>
              paintPass tm users settings world fuel rest (i + 1) turn.cache
                (events1 ++ upgrades.events)
            | none =>
              let charges := handleChargePurchases tm settings (world i) upgrades.client
              paintPass tm users settings world fuel rest (i + 1) turn.cache
                (events1 ++ upgrades.events ++ charges.events)

/-- What the world answers during one iteration of the run loop. -/
structure CycleWorld where
  check : Nat → CheckAnswer
  pass : Nat → PassAnswer

/-- The outcome of one iteration of the run loop: whether it came to its end
(`false` when a paint turn is still going), whether it left the loop with
`break`, the manager, the charge cache and what was done. -/
structure CycleResult where
  finished : Bool
  exited : Bool
  tm : TemplateManager
  cache : ChargeCache
  events : List Event

/-- One iteration of the loop `while (this.running)` of `start`. -/
def cycle (tm : TemplateManager) (users : Users) (settings : Settings) (world : CycleWorld)
    (cache : ChargeCache) (fuel : Nat) : CycleResult :=
  let tm1 := { tm with status := "Checking for pixels..." }
  let checkResult := _findWorkingUserAndCheckPixels tm1 users settings world.check
  let tm2 := { tm1 with userQueue := checkResult.userQueue }
  match checkResult.found with
  | none => ⟨true, false, tm2, cache, checkResult.events ++ [Event.sleep 30000]⟩
  | some (_, mismatchedPixels) =>
    let tm3 := { tm2 with pixelsRemaining := mismatchedPixels.length }
    if tm3.pixelsRemaining = 0 then
      if tm3.antiGriefMode then
        ⟨true, false, { tm3 with status := "Monitoring for changes." }, cache,
          checkResult.events ++ [Event.sleep settings.antiGriefStandby]⟩
      else
        ⟨true, true, { tm3 with status := "Finished.", running := false }, cache,
          checkResult.events⟩
    else
      let tm4 := { tm3 with currentRetryDelay := tm3.initialRetryDelay }
      let pass := paintPass tm4 users settings world.pass fuel tm4.userQueue 0 cache []
      if pass.finished = false then
        ⟨false, false, tm4, pass.cache, checkResult.events ++ pass.events⟩
      else
        ⟨true, false, tm4, pass.cache,
          checkResult.events ++ pass.events ++
            (if tm4.running = true ∧ settings.accountCooldown > 0 then
              [Event.sleep settings.accountCooldown] else [])⟩

/-- What the world answers during a run of `start`: the world of the `n`-th
iteration of the run loop, and whether a stop request (`running = false`, set
from outside) arrives during the sleep that ends it. -/
structure RunWorld where
  cycle : Nat → CycleWorld
  stopRequested : Nat → Bool

/-- The state of a run: whether `start` has returned, the manager, the charge
cache and what was done. -/
structure RunResult where
  finished : Bool
  tm : TemplateManager
  cache : ChargeCache
  events : List Event

/-- The loop `while (this.running)` of `start` from its `n`-th iteration on,
for at most the given number of iterations, each paint turn running for at
most `fuel` attempts. -/
def startLoop (users : Users) (settings : Settings) (world : RunWorld) (fuel : Nat) :
    Nat → Nat → TemplateManager → ChargeCache → List Event → RunResult
  | 0, _, tm, cache, events => ⟨false, tm, cache, events⟩
  | k + 1, n, tm, cache, events =>
    if tm.running = false then ⟨true, tm, cache, events⟩
    else
      let r := cycle tm users settings (world.cycle n) cache fuel
      if r.finished = false then ⟨false, r.tm, r.cache, events ++ r.events⟩
      else if r.exited then ⟨true, r.tm, r.cache, events ++ r.events⟩
      else
        startLoop users settings world fuel k (n + 1)
          (if world.stopRequested n then { r.tm with running := false } else r.tm)
          r.cache (events ++ r.events)

/-- `start(users, currentSettings, ...)`: the run loop, then the `finally`
block, which turns every status but `Finished.` into `Stopped.`. -/
def start (tm : TemplateManager) (users : Users) (settings : Settings) (world : RunWorld)
    (cache : ChargeCache) (cycles fuel : Nat) : RunResult :=
  let r := startLoop users settings world fuel cycles 0
    { tm with running := true, status := "Started." } cache []
  if r.finished then
    { r with tm := { r.tm with status := if r.tm.status ≠ "Finished." then "Stopped." else r.tm.status } }
  else r

/-- A tile whose pixels all hold colour 1. -/
def paintedTile : Tile :=
  ⟨fun px => if px < 1000 then some (fun py => if py < 1000 then some 1 else none) else none⟩

/-- The users of the scenarios: account 1, not suspended. -/
def scenarioUsers : Users := fun id => if id = 1 then some ⟨"user", "cookies", none⟩ else none

/-- The settings of the scenarios. -/
def scenarioSettings : Settings :=
  { accountCooldown := 0
    purchaseCooldown := 5000
    antiGriefStandby := 600000
    dropletReserve := 0
    drawingDirection := "ttb"
    drawingOrder := "linear" }

/-- A world whose board already shows the template: every login succeeds with
three charges and every tile holds colour 1. -/
def completeWorld : CycleWorld :=
  { check := fun _ => ⟨1000, .ok ⟨1, 0, some ⟨some 3, some 100⟩, 0⟩, fun _ _ => .tile paintedTile⟩
    pass := fun _ => ⟨1000, .ok ⟨1, 0, some ⟨some 3, some 100⟩, 0⟩, refreshWorld,
      fun _ => .ok ⟨1, 0, some ⟨some 3, some 100⟩, 0⟩, fun _ _ => .ok ()⟩ }

/-- A server whose board is blank and that answers every paint request with a
suspension of 60000 ms (`451`, `suspension` set). -/
def suspendingEnv : PaintEnv :=
  { fetch := fun _ _ => .tile blankTile
    random := fun _ => 0
    post := fun _ _ _ _ => ⟨451, none, none, true, some 60000⟩ }

/-- A world, at time 1000, in which the paint turn of every account is
answered with the suspension of 60000 ms. -/
def suspendingWorld : CycleWorld :=
  { check := fun _ => ⟨1000, .ok ⟨1, 0, some ⟨some 3, some 100⟩, 0⟩, fun _ _ => .tile blankTile⟩
    pass := fun _ => ⟨1000, .ok ⟨1, 0, some ⟨some 3, some 100⟩, 0⟩,
      ⟨fun _ => "token", fun _ => suspendingEnv, 1000⟩,
      fun _ => .ok ⟨1, 0, some ⟨some 3, some 100⟩, 0⟩, fun _ _ => .ok ()⟩ }

/-! ## The template collection (`services/template-service.js`, `api/routes/users.js`) -/

/-- The `templates` object: the managers by template id, in insertion order. -/
abbrev Templates := List (Nat × TemplateManager)

/-- The assignment `templates[id] = manager`. -/
def Templates.set (templates : Templates) (id : Nat) (manager : TemplateManager) : Templates :=
  if (templates.lookup id).isSome then
    templates.map (fun p => if p.1 = id then (id, manager) else p)
  else templates ++ [(id, manager)]

/-- The body of a create or edit request (`template` is `none` when the
request carries no image, `userIds` is `none` when it carries no
`userIds`). -/
structure TemplateData where
  templateName : String
  template : Option Template
  coords : Coords
  userIds : Option (List Nat)
  canBuyCharges : Bool
  canBuyMaxCharges : Bool
  antiGriefMode : Bool
  eraseMode : Bool
  outlineMode : Bool
  skipPaintedPixels : Bool

/-- `createTemplate(templateData)`, with `templateId` the id drawn from the
clock; `none` when it throws (missing data, or the name is taken). -/
def createTemplate (templates : Templates) (templateId : Nat) (d : TemplateData) :
    Option Templates :=
  match d.template, d.userIds with
  | none, _ => none
  | some _, none => none
  | some template, some userIds =>
    if d.templateName = "" ∨ userIds.length = 0 then none
    else if templates.any (fun p => decide (p.2.name = d.templateName)) then none
    else
      some (Templates.set templates templateId
        (TemplateManager.new d.templateName template d.coords d.canBuyCharges d.canBuyMaxCharges
          d.antiGriefMode d.eraseMode d.outlineMode d.skipPaintedPixels userIds))

/-- The first three assignments of `updateTemplate` and of the route
`PUT /edit/:id`:
`manager.name = templateName; manager.coords = coords; manager.userIds = userIds`.
They come before the spread `[...userIds]`. -/
def assignUserIds (manager : TemplateManager) (d : TemplateData) : TemplateManager :=
  { manager with
    name := d.templateName
    coords := d.coords
    userIds := d.userIds }

/-- `updateTemplate(id, updateData)` (the same assignments as the route
`PUT /edit/:id`); `none` when it throws: the template is not found, or the
body has no `userIds` and the spread `[...userIds]` throws a TypeError. The
TypeError comes after the first three assignments, see
`Templates.afterUpdate`. -/
def updateTemplate (templates : Templates) (id : Nat) (d : TemplateData) : Option Templates :=
  match templates.lookup id with
  | none => none
  | some manager =>
    match d.userIds with
    | none => none
    | some userIds =>
      let manager1 :=
        { assignUserIds manager d with
          userQueue := userIds
          canBuyCharges := d.canBuyCharges
          canBuyMaxCharges := d.canBuyMaxCharges
          antiGriefMode := d.antiGriefMode
          eraseMode := d.eraseMode
          outlineMode := d.outlineMode
          skipPaintedPixels := d.skipPaintedPixels }
      let manager2 :=
        match d.template with
        | none => manager1
        | some template =>
          { manager1 with
            template := template
            totalPixels := (template.data.flatten.filter (fun p => decide (p > 0))).length }
      some (Templates.set templates id { manager2 with masterId := userIds.head? })

/-- The collection that the call `updateTemplate(id, updateData)` leaves
behind, whether it returns or throws. A call that throws for a missing
template changes nothing; a call that throws at the spread `[...userIds]` has
made the first three assignments on the manager, which is an object of the
collection. -/
def Templates.afterUpdate (templates : Templates) (id : Nat) (d : TemplateData) : Templates :=
  match updateTemplate templates id d with
  | some updated => updated
  | none =>
    match templates.lookup id with
    | none => templates
    | some manager => Templates.set templates id (assignUserIds manager d)

/-- The outcome of the body of the deletion loop for one manager: the manager
as the body leaves it, and whether the body threw a TypeError. -/
structure Removal where
  manager : TemplateManager
  thrown : Bool

/-- The end of the body of the deletion loop: a running template left without
users is stopped. -/
def stopIfEmpty (manager : TemplateManager) (remaining : List Nat) : TemplateManager :=
  if remaining.length = 0 ∧ manager.running = true then { manager with running := false }
  else manager

/-- The body of the loop of `DELETE /users/:id` for one manager, with `users`
the users left after `delete users[userId]`. The user is filtered out of
`userIds` and of `userQueue`; when that removed it from `userIds`, a master
that was the user is replaced by the first remaining user, and a running
template left without users is stopped (user ids are keys of `users`, so a
first remaining user is truthy). The body throws a TypeError at
`manager.userIds.length` when `userIds` is `undefined`, before it has changed
anything, and at `users[manager.masterId].name` when the new master is not a
known user, after it has filtered both lists. -/
def removeUserFrom (users : Users) (userId : Nat) (manager : TemplateManager) : Removal :=
  match manager.userIds with
  | none => ⟨manager, true⟩
  | some userIds =>
    let before := userIds.length
    let filtered := userIds.filter (fun id => decide (id ≠ userId))
    let manager1 :=
      { manager with
        userIds := some filtered
        userQueue := manager.userQueue.filter (fun id => decide (id ≠ userId)) }
    if filtered.length < before then
      if manager1.masterId = some userId then
        let manager2 := { manager1 with masterId := filtered.head? }
        match filtered.head? with
        | none => ⟨stopIfEmpty manager2 filtered, false⟩
        | some masterId =>
          match users masterId with
          | none => ⟨manager2, true⟩
          | some _ => ⟨stopIfEmpty manager2 filtered, false⟩
      else ⟨stopIfEmpty manager1 filtered, false⟩
    else ⟨manager1, false⟩

/-- The loop `for (const templateId in templates)` of `DELETE /users/:id`,
over the managers in the order it visits them. A TypeError in the body ends
the loop: the managers visited after it are left as they are. -/
def removeUserLoop (users : Users) (userId : Nat) : Templates → Templates
  | [] => []
  | (id, manager) :: rest =>
    if (removeUserFrom users userId manager).thrown then
      (id, (removeUserFrom users userId manager).manager) :: rest
    else
      (id, (removeUserFrom users userId manager).manager) :: removeUserLoop users userId rest

/-- The route `DELETE /users/:id`; `none` when it answers `BAD_REQ` (unknown
user), otherwise the users and the collection it leaves behind. -/
def deleteUser (users : Users) (templates : Templates) (userId : Nat) :
    Option (Users × Templates) :=
  match users userId with
  | none => none
  | some _ =>
    some (fun id => if id = userId then none else users id,
      removeUserLoop (fun id => if id = userId then none else users id) userId templates)

/-- The state of the server that the template requests work on. -/
structure Server where
  users : Users
  templates : Templates
  cache : ChargeCache

/-- What changes the managers: the create, edit and delete-user requests, and
an iteration of the run loop of a template. -/
inductive Request where
  | create (templateId : Nat) (data : TemplateData)
  | edit (id : Nat) (data : TemplateData)
  | deleteUser (userId : Nat)
  | cycle (id : Nat) (settings : Settings) (world : CycleWorld) (fuel : Nat)

/-- Whether the body of the request has a `userIds` array, for an edit
request; the other requests pass. -/
def Request.carriesUserIds : Request → Bool
  | .edit _ data => data.userIds.isSome
  | _ => true

/-- The effect of one request: the state it leaves behind. A create or
delete-user request that is refused changes nothing; an edit request leaves
what `updateTemplate` has assigned, also when it throws. -/
def Server.step (s : Server) : Request → Server
  | .create templateId data =>
    match createTemplate s.templates templateId data with
    | none => s
    | some templates => { s with templates := templates }
  | .edit id data => { s with templates := (Templates.afterUpdate s.templates id data) }
  | .deleteUser userId =>
    match deleteUser s.users s.templates userId with
    | none => s
    | some (users, templates) => { s with users := users, templates := templates }
  | .cycle id settings world fuel =>
    match s.templates.lookup id with
    | none => s
    | some manager =>
      let r := cycle manager s.users settings world s.cache fuel
      { s with templates := (Templates.set s.templates id r.tm), cache := r.cache }

/-- The state after a sequence of requests. -/
def Server.run (s : Server) (requests : List Request) : Server :=
  requests.foldl Server.step s

/-- The users of the rotation scenario: accounts 1, 2 and 3. -/
def threeUsers : Users :=
  fun id => if 1 ≤ id ∧ id ≤ 3 then some ⟨"user", "cookies", none⟩ else none

/-- The requests of the rotation scenario: a template with accounts 1, 2, 3 is
created under id 7, its run loop makes one iteration on a board that already
shows the image (account 1 is consulted), then user 2 is deleted. -/
def rotationRequests : List Request :=
  [ .create 7 ⟨"scenario", some ⟨10, 1, List.replicate 10 [1]⟩, ⟨0, 0, 0, 0⟩, some [1, 2, 3],
      false, false, false, false, false, false⟩,
    .cycle 7 scenarioSettings completeWorld 5,
    .deleteUser 2 ]

/-- The body of the edit request of the stale-queue scenario: a name and
coordinates, no `userIds`, no image. -/
def staleQueueBody : TemplateData :=
  ⟨"renamed", none, ⟨0, 0, 5, 5⟩, none, false, false, false, false, false, false⟩

/-- The requests of the stale-queue scenario: a template with accounts 1, 2, 3
is created under id 7, then an edit request for it arrives whose body has no
`userIds`. -/
def staleQueueRequests : List Request :=
  [ .create 7 ⟨"scenario", some ⟨10, 1, List.replicate 10 [1]⟩, ⟨0, 0, 0, 0⟩, some [1, 2, 3],
      false, false, false, false, false, false⟩,
    .edit 7 staleQueueBody ]

/-! ## Template queue (`services/queue-processor.js`) -/

/-- The state of a `QueueProcessor`: the managers of its template service,
the queue of template ids, and the set `activeTemplateUsers` (its members, in
insertion order). -/
structure QueueProcessor where
  templates : Templates
  templateQueue : List Nat
  activeTemplateUsers : List Nat

/-- `activeTemplateUsers.add(id)`. -/
def setAdd (s : List Nat) (id : Nat) : List Nat := if id ∈ s then s else s ++ [id]

/-- `activeTemplateUsers.delete(id)`. -/
def setDelete (s : List Nat) (id : Nat) : List Nat := s.filter (fun x => decide (x ≠ id))

/-- `markUsersActive(userIds)`: `userIds.forEach(id => this.activeTemplateUsers.add(id))`. -/
def markUsersActive (s : List Nat) (userIds : List Nat) : List Nat := userIds.foldl setAdd s

/-- `markUsersInactive(userIds)`:
`userIds.forEach(id => this.activeTemplateUsers.delete(id))`. -/
def markUsersInactive (s : List Nat) (userIds : List Nat) : List Nat := userIds.foldl setDelete s

/-- `manager.userIds.some(id => this.activeTemplateUsers.has(id))`. -/
def usersBusy (s : List Nat) (userIds : List Nat) : Bool := userIds.any (fun id => decide (id ∈ s))

/-- What the call `manager.start(...)` does before it first waits: the
template is running and its run loop has begun the first check. -/
def TemplateManager.started (manager : TemplateManager) : TemplateManager :=
  { manager with running := true, status := "Checking for pixels..." }

/-- `addToQueue(templateId)`. -/
def QueueProcessor.addToQueue (q : QueueProcessor) (templateId : Nat) : QueueProcessor :=
  if templateId ∈ q.templateQueue then q
  else
    let q1 := { q with templateQueue := q.templateQueue ++ [templateId] }
    match q.templates.lookup templateId with
    | none => q1
    | some template =>
      { q1 with templates := (Templates.set q.templates templateId { template with status := "Queued" }) }

/-- `removeFromQueue(templateId)`: the first occurrence is spliced out. -/
def QueueProcessor.removeFromQueue (q : QueueProcessor) (templateId : Nat) : QueueProcessor :=
  { q with templateQueue := q.templateQueue.erase templateId }

/-- The loop of `processQueue` over the part of the queue not yet visited;
`kept` are the visited entries that stay queued (in order). An entry whose
template is gone is dropped; the first entry whose users are all free is
taken out, its users are marked active, the template is started and the loop
ends. At an entry whose `userIds` is `undefined` the call
`manager.userIds.some(...)` throws a TypeError, which ends the loop with the
queue as it is then. -/
def processLoop (templates : Templates) (activeTemplateUsers : List Nat) :
    List Nat → List Nat → QueueProcessor
  | [], kept => ⟨templates, kept, activeTemplateUsers⟩
  | templateId :: rest, kept =>
    match templates.lookup templateId with
    | none => processLoop templates activeTemplateUsers rest kept
    | some manager =>
      match manager.userIds with
      | none => ⟨templates, kept ++ templateId :: rest, activeTemplateUsers⟩
      | some userIds =>
        if usersBusy activeTemplateUsers userIds then
          processLoop templates activeTemplateUsers rest (kept ++ [templateId])
        else
          ⟨Templates.set templates templateId manager.started, kept ++ rest,
            markUsersActive activeTemplateUsers userIds⟩

/-- `processQueue()`: the state it leaves behind. -/
def QueueProcessor.processQueue (q : QueueProcessor) : QueueProcessor :=
  processLoop q.templates q.activeTemplateUsers q.templateQueue []

/-- `startTemplate(templateId)`; `none` when it throws before it has changed
anything: the template is not found, or the template is not running and its
`userIds` is `undefined` (TypeError at `manager.userIds.some(...)`). -/
def QueueProcessor.startTemplate (q : QueueProcessor) (templateId : Nat) : Option QueueProcessor :=
  match q.templates.lookup templateId with
  | none => none
  | some manager =>
    if manager.running then some q
    else
      match manager.userIds with
      | none => none
      | some userIds =>
        if usersBusy q.activeTemplateUsers userIds then
          some (q.addToQueue templateId)
        else
          some { q with
            activeTemplateUsers := markUsersActive q.activeTemplateUsers userIds
            templates := (Templates.set q.templates templateId manager.started) }

/-- `stopTemplate(templateId)`; `none` when it throws before it has changed
anything (template not found), otherwise the state it leaves behind. With
`userIds` `undefined` that is the state after `removeFromQueue`, where
`markUsersInactive(manager.userIds)` throws a TypeError. -/
def QueueProcessor.stopTemplate (q : QueueProcessor) (templateId : Nat) : Option QueueProcessor :=
  match q.templates.lookup templateId with
  | none => none
  | some manager =>
    let q1 := if manager.running then
        { q with templates := (Templates.set q.templates templateId { manager with running := false }) }
      else q
    let q2 := q1.removeFromQueue templateId
    match manager.userIds with
    | none => some q2
    | some userIds =>
      let q3 := { q2 with activeTemplateUsers := markUsersInactive q2.activeTemplateUsers userIds }
      some q3.processQueue

/-- A call on the queue processor. -/
inductive QueueCall where
  | startTemplate (templateId : Nat)
  | stopTemplate (templateId : Nat)
  | processQueue
deriving DecidableEq, Repr

/-- The effect of a call: the state it leaves behind (a call that throws
before it has changed anything leaves the state as it is). -/
def QueueProcessor.call (q : QueueProcessor) : QueueCall → QueueProcessor
  | .startTemplate templateId => (q.startTemplate templateId).getD q
  | .stopTemplate templateId => (q.stopTemplate templateId).getD q
  | .processQueue => q.processQueue

/-- The ids of the running templates. -/
def QueueProcessor.runningIds (q : QueueProcessor) : List Nat :=
  (q.templates.filter (fun p => p.2.running)).map (fun p => p.1)

/-- A queue processor with two stopped templates, 1 and 2, that both use
account 1 only. -/
def sharedAccountProcessor : QueueProcessor :=
  { templates :=
      [(1, TemplateManager.new "first" ⟨10, 1, List.replicate 10 [1]⟩ ⟨0, 0, 0, 0⟩
          false false false false false false [1]),
       (2, TemplateManager.new "second" ⟨10, 1, List.replicate 10 [1]⟩ ⟨0, 0, 0, 0⟩
          false false false false false false [1])]
    templateQueue := []
    activeTemplateUsers := [] }

/-! ## Token broker (`core/TokenManager.js`, the same in `core/token-manager.js`) -/

/-- The constant `MS.TWO_MIN`. -/
def MS.TWO_MIN : Int := 120000

/-- An entry of the token queue: `{ token, receivedAt }`. -/
structure QueuedToken where
  token : String
  receivedAt : Int
deriving DecidableEq, Repr

/-- The state of a `TokenManager`. The promises `getToken` creates are
numbered in the order of their creation: `tokenPromise` is the pending
promise (`none` for `null`), `resolvePromise` the promise its resolver
belongs to, `created` the number of promises created so far, and `settled`
the promises that have been resolved, with the value they were resolved
with. -/
structure TokenManager where
  tokenQueue : List QueuedToken
  tokenPromise : Option Nat
  resolvePromise : Option Nat
  isTokenNeeded : Bool
  created : Nat
  settled : List (Nat × String)
deriving DecidableEq, Repr

/-- The field `TOKEN_EXPIRATION_MS`. -/
def TokenManager.TOKEN_EXPIRATION_MS : Int := MS.TWO_MIN

/-- The state the constructor leaves. -/
def TokenManager.init : TokenManager := ⟨[], none, none, false, 0, []⟩

/-- The filter of `_purgeExpiredTokens`:
`now - t.receivedAt < this.TOKEN_EXPIRATION_MS`. -/
def notExpired (now : Int) (t : QueuedToken) : Bool :=
  decide (now - t.receivedAt < TokenManager.TOKEN_EXPIRATION_MS)

/-- `_purgeExpiredTokens()` at time `now`. -/
def TokenManager._purgeExpiredTokens (tm : TokenManager) (now : Int) : TokenManager :=
  { tm with tokenQueue := tm.tokenQueue.filter (notExpired now) }

/-- What `getToken` returns: `Promise.resolve(token)`, or one of the promises
the broker created. -/
inductive TokenPromise where
  | resolved (token : String)
  | created (promise : Nat)
deriving DecidableEq, Repr

/-- `getToken(templateName)` at time `now`: the state afterwards and the
returned promise. -/
def TokenManager.getToken (tm : TokenManager) (now : Int) : TokenManager × TokenPromise :=
  let tm1 := tm._purgeExpiredTokens now
  match tm1.tokenQueue with
  | t :: rest => ({ tm1 with tokenQueue := rest }, .resolved t.token)
  | [] =>
    match tm1.tokenPromise with
    | some p => (tm1, .created p)
    | none =>
      ({ tm1 with
          isTokenNeeded := true
          tokenPromise := some tm1.created
          resolvePromise := some tm1.created
          created := tm1.created + 1 },
        .created tm1.created)

/-- Calling the resolver of promise `p` with value `v`: a promise that is
already resolved keeps its value. -/
def resolvePromiseWith (settled : List (Nat × String)) (p : Nat) (v : String) :
    List (Nat × String) :=
  if (settled.lookup p).isSome then settled else settled ++ [(p, v)]

/-- `setToken(t)` at time `now`. -/
def TokenManager.setToken (tm : TokenManager) (t : String) (now : Int) : TokenManager :=
  let newToken : QueuedToken := ⟨t, now⟩
  match tm.resolvePromise with
  | some p =>
    { tm with
      settled := resolvePromiseWith tm.settled p newToken.token
      tokenPromise := none
      resolvePromise := none
      isTokenNeeded := false }
  | none => { tm with tokenQueue := tm.tokenQueue ++ [newToken] }

/-- `invalidateToken()`: `this.tokenQueue.shift()`. -/
def TokenManager.invalidateToken (tm : TokenManager) : TokenManager :=
  { tm with tokenQueue := tm.tokenQueue.tail }

/-- The token a caller holding the promise has received (`none` while the
promise is pending). -/
def TokenManager.received (tm : TokenManager) : TokenPromise → Option String
  | .resolved token => some token
  | .created p => tm.settled.lookup p

/-- The waiting state is in order: every resolved promise has been created,
the resolver belongs to the pending promise, `isTokenNeeded` is set exactly
when a promise is pending, and the pending promise has been created and is
not resolved. -/
def TokenManager.Valid (tm : TokenManager) : Prop :=
  (∀ e ∈ tm.settled, e.1 < tm.created) ∧ tm.resolvePromise = tm.tokenPromise ∧
    tm.isTokenNeeded = tm.tokenPromise.isSome ∧
    ∀ p ∈ tm.tokenPromise, p < tm.created ∧ tm.settled.lookup p = none

instance (tm : TokenManager) : Decidable tm.Valid := by
  unfold TokenManager.Valid
  infer_instance

/-- A sequence of `getToken` calls at the given times: the state afterwards
and the promises returned, in the order of the calls. -/
def TokenManager.getTokens (tm : TokenManager) : List Int → TokenManager × List TokenPromise
  | [] => (tm, [])
  | now :: rest =>
    (((tm.getToken now).1.getTokens rest).1,
      (tm.getToken now).2 :: ((tm.getToken now).1.getTokens rest).2)

/-- A broker holding an expired token and two live ones. -/
def threeTokenBroker : TokenManager :=
  { TokenManager.init with
    tokenQueue := [⟨"old", 0⟩, ⟨"first", 100000⟩, ⟨"second", 110000⟩] }

/-- A mismatch entry of tile (0, 0) for the image cell `(x, y)`. -/
def pixelAt (x y : Nat) (color : Int) (isEdge : Bool) : Mismatch :=
  { tx := 0, ty := 0, px := x, py := y, color := color, isEdge := isEdge, localX := x, localY := y }

/-- A client in outline mode for a 3×3 image of colour 1 on a blank
board. -/
def outlineClient : WPlacer :=
  { template := ⟨3, 3, List.replicate 3 [1, 1, 1]⟩
    coords := ⟨0, 0, 0, 0⟩
    globalSettings := ⟨"ttb", "linear"⟩
    templateSettings := ⟨false, true, false⟩
    userInfo := some ⟨1, 0, some ⟨some 3, some 100⟩, 0⟩
    tiles := [((0, 0), blankTile)]
    token := some "token" }

/-- The mismatch list of the outline scenario: the nine cells of the image. -/
def outlineMismatches : List Mismatch := (_getMismatchedPixels outlineClient 1 none).getD []

/-- The four 4-connected neighbour positions of the image cell `(x, y)`, in
the order of the `neighbors` array: left, right, above, below. -/
def fourNeighbours (x y : Nat) : List (Int × Int) :=
  [((x : Int) - 1, (y : Int)), ((x : Int) + 1, (y : Int)),
   ((x : Int), (y : Int) - 1), ((x : Int), (y : Int) + 1)]

/-- The position `(i, j)` lies outside the image. -/
def Template.Outside (t : Template) (i j : Int) : Prop :=
  i < 0 ∨ (t.width : Int) ≤ i ∨ j < 0 ∨ (t.height : Int) ≤ j

instance (t : Template) (i j : Int) : Decidable (t.Outside i j) := by
  unfold Template.Outside; infer_instance

/-- A sequence of `consume(id, n, now)` calls, given as the pairs `(n, now)`
in the order of the calls. -/
def ChargeCache.consumeAll (c : ChargeCache) (id : Nat) : List (Int × Int) → ChargeCache
  | [] => c
  | call :: rest => (c.consume id call.1 call.2).consumeAll id rest

/-- The account of the charge scenarios: id 1 with 3 of 100 charges. -/
def chargeUser : UserInfo := ⟨1, 0, some ⟨some 3, some 100⟩, 0⟩

/-! ## Settings (`config/settings.js`, `api/routes/settings.js`) -/

/-- The settings object `currentSettings`, with the keys of
`DEFAULT_SETTINGS`. -/
structure ServerSettings where
  accountCooldown : Int
  purchaseCooldown : Int
  keepAliveCooldown : Int
  dropletReserve : Int
  antiGriefStandby : Int
  drawingDirection : String
  drawingOrder : String
  chargeThreshold : ℚ
  pixelSkip : Int
  proxyEnabled : Bool
  proxyRotationMode : String
  logProxyUsage : Bool
  openBrowserOnStart : Bool
deriving DecidableEq

/-- The body of a settings update: the keys it carries (`none` for a key that
is absent). -/
structure SettingsBody where
  accountCooldown : Option Int
  purchaseCooldown : Option Int
  keepAliveCooldown : Option Int
  dropletReserve : Option Int
  antiGriefStandby : Option Int
  drawingDirection : Option String
  drawingOrder : Option String
  chargeThreshold : Option ℚ
  pixelSkip : Option Int
  proxyEnabled : Option Bool
  proxyRotationMode : Option String
  logProxyUsage : Option Bool
  openBrowserOnStart : Option Bool

/-- `DEFAULT_SETTINGS`. -/
def DEFAULT_SETTINGS : ServerSettings :=
  { accountCooldown := 20000
    purchaseCooldown := 5000
    keepAliveCooldown := 3600000
    dropletReserve := 0
    antiGriefStandby := 600000
    drawingDirection := "ttb"
    drawingOrder := "linear"
    chargeThreshold := 1 / 2
    pixelSkip := 1
    proxyEnabled := false
    proxyRotationMode := "sequential"
    logProxyUsage := false
    openBrowserOnStart := true }

/-- `updateSettings(newSettings)`: `{ ...currentSettings, ...newSettings }`. -/
def updateSettings (currentSettings : ServerSettings) (newSettings : SettingsBody) :
    ServerSettings :=
  { accountCooldown := newSettings.accountCooldown.getD currentSettings.accountCooldown
    purchaseCooldown := newSettings.purchaseCooldown.getD currentSettings.purchaseCooldown
    keepAliveCooldown := newSettings.keepAliveCooldown.getD currentSettings.keepAliveCooldown
    dropletReserve := newSettings.dropletReserve.getD currentSettings.dropletReserve
    antiGriefStandby := newSettings.antiGriefStandby.getD currentSettings.antiGriefStandby
    drawingDirection := newSettings.drawingDirection.getD currentSettings.drawingDirection
    drawingOrder := newSettings.drawingOrder.getD currentSettings.drawingOrder
    chargeThreshold := newSettings.chargeThreshold.getD currentSettings.chargeThreshold
    pixelSkip := newSettings.pixelSkip.getD currentSettings.pixelSkip
    proxyEnabled := newSettings.proxyEnabled.getD currentSettings.proxyEnabled
    proxyRotationMode := newSettings.proxyRotationMode.getD currentSettings.proxyRotationMode
    logProxyUsage := newSettings.logProxyUsage.getD currentSettings.logProxyUsage
    openBrowserOnStart := newSettings.openBrowserOnStart.getD currentSettings.openBrowserOnStart }

/-- The handler of `PUT /settings`: the settings afterwards, and the ids of
the templates whose `interruptSleep()` it calls, in the order of the calls. -/
def putSettings (currentSettings : ServerSettings) (templates : Templates)
    (body : SettingsBody) : ServerSettings × List Nat :=
  let prev := currentSettings
  let newSettings := updateSettings currentSettings body
  if prev.chargeThreshold ≠ newSettings.chargeThreshold then
    (newSettings, (templates.filter (fun p => p.2.running)).map (fun p => p.1))
  else (newSettings, [])

/-- The empty settings body. -/
def SettingsBody.empty : SettingsBody :=
  ⟨none, none, none, none, none, none, none, none, none, none, none, none, none⟩

/-- A template collection with one running template, of id 7. -/
def runningTemplates : Templates := [(7, scenarioManager [1] true)]

/-- An update of the two cooldown values. -/
def cooldownBody : SettingsBody :=
  { SettingsBody.empty with accountCooldown := some 5000, antiGriefStandby := some 1000 }

/-- An update of `chargeThreshold`. -/
def thresholdBody : SettingsBody := { SettingsBody.empty with chargeThreshold := some 1 }

/-- A server with a blank board that paints every pixel it is sent. -/
def blankBoardEnv : PaintEnv :=
  { fetch := fun _ _ => .tile blankTile
    random := fun _ => 0
    post := fun _ _ _ body => ⟨200, some (body.colors.length : Int), none, false, none⟩ }

/-- The world of a paint pass at time 1000 in which every account logs in
with 3 of 100 charges and every pixel sent is painted. -/
def threeChargePass : Nat → PassAnswer :=
  fun _ => ⟨1000, .ok ⟨1, 0, some ⟨some 3, some 100⟩, 0⟩,
    ⟨fun _ => "token", fun _ => blankBoardEnv, 1000⟩,
    fun _ => .ok ⟨1, 0, some ⟨some 0, some 100⟩, 0⟩, fun _ _ => .ok ()⟩

/-- The number of pixels of the paint requests of an event. -/
def Event.pixelCount : Event → Nat
  | .paint requests => (requests.flatMap PaintRequest.pixels).length
  | _ => 0

/-- A client whose 3×3 image of colour 1 is anchored at pixel (998, 999) of
tile (5, 7), so that it lies across four tiles of a blank board. -/
def boundaryClient : WPlacer :=
  { template := ⟨3, 3, List.replicate 3 [1, 1, 1]⟩
    coords := ⟨5, 7, 998, 999⟩
    globalSettings := ⟨"ttb", "linear"⟩
    templateSettings := ⟨false, false, false⟩
    userInfo := some ⟨1, 0, some ⟨some 3, some 100⟩, 0⟩
    tiles := [((5, 7), blankTile), ((5, 8), blankTile), ((6, 7), blankTile), ((6, 8), blankTile)]
    token := some "token" }

/-- The mismatch list of the boundary scenario. -/
def boundaryMismatches : List Mismatch := (_getMismatchedPixels boundaryClient 1 none).getD []

/-- A broker holding tokens of age 120001, 120000 and 119999 ms at time
120001. -/
def agedTokenBroker : TokenManager :=
  { TokenManager.init with
    tokenQueue := [⟨"older", 0⟩, ⟨"boundary", 1⟩, ⟨"younger", 2⟩] }

/-- An image with one column holding a colour, the clear sentinel and an
unset cell. -/
def sentinelImage : Template := ⟨1, 3, [[1, -1, 0]]⟩

/-- A create or edit request that carries the image with the clear
sentinel. -/
def sentinelData : TemplateData :=
  ⟨"sentinel", some sentinelImage, ⟨0, 0, 0, 0⟩, some [1], false, false, false, false, false,
    false⟩

/-- A call on the token broker. -/
inductive TokenCall where
  | getToken (now : Int)
  | setToken (t : String) (now : Int)
  | invalidateToken
deriving DecidableEq, Repr

/-- The state after a call on the broker. -/
def TokenManager.call (tm : TokenManager) : TokenCall → TokenManager
  | .getToken now => (tm.getToken now).1
  | .setToken t now => tm.setToken t now
  | .invalidateToken => tm.invalidateToken

/-- The state the broker reaches from its initial state by a sequence of
calls. -/
def TokenManager.run (calls : List TokenCall) : TokenManager :=
  calls.foldl TokenManager.call TokenManager.init

/-- The world of a paint pass in which the account holds 1250 droplets at
every reading and every purchase succeeds. -/
def richAccountPass : PassAnswer :=
  ⟨1000, .ok ⟨1, 0, some ⟨some 3, some 100⟩, 1250⟩, refreshWorld,
    fun _ => .ok ⟨1, 0, some ⟨some 3, some 100⟩, 1250⟩, fun _ _ => .ok ()⟩

/-- A manager that may buy charges and upgrades. -/
def buyingManager : TemplateManager :=
  { scenarioManager [1] false with canBuyCharges := true, canBuyMaxCharges := true }

/-- Settings with a droplet reserve of 200. -/
def reserveSettings : Settings := { scenarioSettings with dropletReserve := 200 }

/-! ## Theorems -/

/-! ### Mismatch resolver -/

theorem foldlM_append_some {α β : Type} (f : α → Option (List β)) (g : α → List β)
    (l : List α) (init : List β) (h : ∀ a ∈ l, f a = some (g a)) :
    l.foldlM (fun acc a => (f a).map (acc ++ ·)) init = some (init ++ l.flatMap g) := by
  induction l generalizing init with
  | nil => simp
  | cons a l ih =>
    have ha : f a = some (g a) := h a (List.mem_cons_self _ _)
    have hl : ∀ b ∈ l, f b = some (g b) := fun b hb => h b (List.mem_cons_of_mem _ hb)
    simp [List.foldlM_cons, ha, ih _ hl, List.append_assoc]

theorem foldlM_rows_some {α β : Type} (F : α → List β → Option (List β)) (g : α → List β)
    (l : List α) (init : List β) (h : ∀ a ∈ l, ∀ acc, F a acc = some (acc ++ g a)) :
    l.foldlM (fun acc a => F a acc) init = some (init ++ l.flatMap g) := by
  induction l generalizing init with
  | nil => simp
  | cons a l ih =>
    have ha := h a (List.mem_cons_self _ _) init
    have hl : ∀ b ∈ l, ∀ acc, F b acc = some (acc ++ g b) :=
      fun b hb => h b (List.mem_cons_of_mem _ hb)
    simp [List.foldlM_cons, ha, ih _ hl, List.append_assoc]

theorem flatMap_range_single {β : Type} (k : Nat → List β) (n i : Nat) (hi : i < n)
    (h : ∀ j, j < n → j ≠ i → k j = []) : (List.range n).flatMap k = k i := by
  induction n with
  | zero => omega
  | succ n ih =>
    rw [List.range_succ, List.flatMap_append]
    by_cases hin : i = n
    · subst hin
      have : (List.range i).flatMap k = [] := by
        rw [List.flatMap_eq_nil_iff]
        intro j hj
        have hj' := List.mem_range.mp hj
        exact h j (by omega) (by omega)
      simp [this]
    · have hn : k n = [] := h n (by omega) (fun e => hin e.symm)
      rw [ih (by omega) (fun j hj hne => h j (by omega) hne)]
      simp [hn]

theorem flatMap_range_nil {β : Type} (k : Nat → List β) (n : Nat)
    (h : ∀ j, j < n → k j = []) : (List.range n).flatMap k = [] := by
  rw [List.flatMap_eq_nil_iff]
  intro j hj
  exact h j (List.mem_range.mp hj)

theorem cellOpt_of_rect (t : Template) (hrect : t.Rect) (x y : Nat)
    (hx : x < t.width) (hy : y < t.height) :
    ∃ column cell, t.data[x]? = some column ∧ column[y]? = some cell ∧
      cellOpt t x y = some cell ∧ cell ∈ column ∧ column ∈ t.data := by
  obtain ⟨hlen, hcols⟩ := hrect
  have hx' : x < t.data.length := by omega
  have hcol : t.data[x] ∈ t.data := List.getElem_mem hx'
  have hy' : y < (t.data[x]).length := by rw [hcols _ hcol]; exact hy
  refine ⟨t.data[x], (t.data[x])[y], List.getElem?_eq_getElem hx',
    List.getElem?_eq_getElem hy', ?_, List.getElem_mem hy', hcol⟩
  simp [cellOpt, List.getElem?_eq_getElem hx', List.getElem?_eq_getElem hy']

theorem hasColor_of_le (u : UserInfo) (c : Int) (hc : c ≤ 63) :
    hasColor (some u) c =
      some (decide (c < 32 ∨ u.extraColorsBitmap.testBit (c - 32).toNat = true)) := by
  unfold hasColor
  by_cases h : c < 32
  · simp [h]
  · have hlt : (c - 32).toNat < 32 := by omega
    simp only [h, if_false, Nat.mod_eq_of_lt hlt, Nat.testBit_mod_two_pow, false_or]
    simp [hlt]

theorem cellMismatch_spec (w : WPlacer) (u : UserInfo) (s : Nat) (filter : Option Int)
    (hs : 1 ≤ s) (hu : w.userInfo = some u) (hrect : w.template.Rect)
    (hpal : w.template.PaletteBounded) (x y : Nat)
    (hx : x < w.template.width) (hy : y < w.template.height) :
    ∃ cell r, cellOpt w.template x y = some cell ∧
      cellMismatch w s filter x y = some r ∧
      (∀ e ∈ r, e.localX = x ∧ e.localY = y) ∧
      r.map (fun e => e.color) =
        if (x + y) % s = 0 ∧ (filter = none ∨ filter = some cell) then
          match (w.tileAt (targetTile w.coords.startX w.coords.startPx x)
              (targetTile w.coords.startY w.coords.startPy y)).bind
              (fun tile => tile.data (localPixel w.coords.startPx x)) with
          | none => []
          | some column =>
            (ruleColor w.templateSettings u.extraColorsBitmap cell
              (column (localPixel w.coords.startPy y))).toList
        else [] := by
  obtain ⟨column, cell, hcolumn, hcell, hopt, hmem, hcolmem⟩ :=
    cellOpt_of_rect w.template hrect x y hx hy
  have hc63 : cell ≤ 63 := hpal column hcolmem cell hmem
  have hs0 : s ≠ 0 := by omega
  have hhas := hasColor_of_le u cell hc63
  refine ⟨cell, ?_⟩
  by_cases hskip : (x + y) % s = 0
  swap
  · refine ⟨[], hopt, ?_, by simp, ?_⟩
    · simp [cellMismatch, hskip]
    · simp [hskip]
  by_cases hf : filter = none ∨ filter = some cell
  swap
  · have hf' : filter ≠ none ∧ some cell ≠ filter :=
      ⟨fun h => hf (Or.inl h), fun h => hf (Or.inr h.symm)⟩
    refine ⟨[], hopt, ?_, by simp, ?_⟩
    · simp [cellMismatch, hskip, hs0, hcolumn, hcell, hf']
    · simp [hf]
  have hf' : ¬ (filter ≠ none ∧ some cell ≠ filter) := by
    rcases hf with h | h <;> simp [h]
  cases hcol : (w.tileAt (targetTile w.coords.startX w.coords.startPx x)
      (targetTile w.coords.startY w.coords.startPy y)).bind
      (fun tile => tile.data (localPixel w.coords.startPx x)) with
  | none =>
    refine ⟨[], hopt, ?_, by simp, ?_⟩
    · simp only [cellMismatch, hskip, hs0, hcolumn, hcell, hf', hcol]
      simp
    · simp
  | some tc =>
    have hbody : cellMismatch w s filter x y =
        (if w.templateSettings.eraseMode = true ∧ cell = 0 ∧
            tc (localPixel w.coords.startPy y) ≠ some 0 then
          some [⟨targetTile w.coords.startX w.coords.startPx x,
            targetTile w.coords.startY w.coords.startPy y,
            localPixel w.coords.startPx x, localPixel w.coords.startPy y, 0, false, x, y⟩]
        else if cell = -1 ∧ tc (localPixel w.coords.startPy y) ≠ some 0 then
          some [⟨targetTile w.coords.startX w.coords.startPx x,
            targetTile w.coords.startY w.coords.startPy y,
            localPixel w.coords.startPx x, localPixel w.coords.startPy y, 0,
            isEdgeAt w.template x y, x, y⟩]
        else if 0 < cell ∧
            (cell < 32 ∨ u.extraColorsBitmap.testBit (cell - 32).toNat = true) ∧
            ((w.templateSettings.skipPaintedPixels = true ∧
                tc (localPixel w.coords.startPy y) = some 0) ∨
              (w.templateSettings.skipPaintedPixels = false ∧
                tc (localPixel w.coords.startPy y) ≠ some cell)) then
          some [⟨targetTile w.coords.startX w.coords.startPx x,
            targetTile w.coords.startY w.coords.startPy y,
            localPixel w.coords.startPx x, localPixel w.coords.startPy y, cell,
            isEdgeAt w.template x y, x, y⟩]
        else some []) := by
      simp only [cellMismatch, hskip, hs0, hcolumn, hcell, hf', hcol, hu, hhas]
      simp only [Option.some.injEq, ne_eq, not_true_eq_false, or_self, if_false]
      by_cases h1 : w.templateSettings.eraseMode = true ∧ cell = 0 ∧
          tc (localPixel w.coords.startPy y) ≠ some 0
      · simp [h1]
      · by_cases h2 : cell = -1 ∧ tc (localPixel w.coords.startPy y) ≠ some 0
        · simp [h1, h2]
        · simp only [h1, h2, if_false]
          by_cases hpos : 0 < cell
          · by_cases hauth : cell < 32 ∨
                u.extraColorsBitmap.testBit (cell - 32).toNat = true
            · cases hsk : w.templateSettings.skipPaintedPixels
              · by_cases hne : tc (localPixel w.coords.startPy y) = some cell
                · simp [hpos, hauth, hne]
                · have hne' : ¬ some cell = tc (localPixel w.coords.startPy y) :=
                    fun e => hne e.symm
                  simp [hpos, hauth, hne, hne']
              · by_cases hz : tc (localPixel w.coords.startPy y) = some 0
                · simp [hpos, hauth, hz]
                · simp [hpos, hauth, hz]
            · simp [hpos, hauth]
          · simp [hpos]
    rw [hbody]
    simp only [hskip, hf, and_self, if_true, ruleColor]
    split_ifs
    · exact ⟨_, hopt, rfl, by simp, by simp⟩
    · exact ⟨_, hopt, rfl, by simp, by simp⟩
    · exact ⟨_, hopt, rfl, by simp, by simp⟩
    · exact ⟨_, hopt, rfl, by simp, by simp⟩

theorem getMismatchedPixels_eq_flatMap (w : WPlacer) (u : UserInfo) (s : Nat)
    (filter : Option Int) (hs : 1 ≤ s) (hu : w.userInfo = some u)
    (hrect : w.template.Rect) (hpal : w.template.PaletteBounded) :
    _getMismatchedPixels w s filter =
      some ((List.range w.template.height).flatMap (fun y =>
        (List.range w.template.width).flatMap (fun x =>
          (cellMismatch w s filter x y).getD []))) := by
  unfold _getMismatchedPixels
  rw [foldlM_rows_some (fun y acc => mismatchRow w s filter y acc)
    (fun y => (List.range w.template.width).flatMap (fun x =>
      (cellMismatch w s filter x y).getD []))]
  · simp
  · intro y hy acc
    unfold mismatchRow
    apply foldlM_append_some
    intro x hx
    obtain ⟨_, r, _, hr, _⟩ := cellMismatch_spec w u s filter hs hu hrect hpal x y
      (List.mem_range.mp hx) (List.mem_range.mp hy)
    simp [hr]

/-- C1. For a rectangular image of palette IDs, a logged-in account, a cache
of full tiles, every stride `s ≥ 1` and every optional colour filter,
`_getMismatchedPixels` returns a list in which every entry belongs to an image
cell, and for every image cell `(x, y)` the entries of that cell are: exactly
one, of the colour given by the first applicable rule (erase, clear-sentinel,
authorised real colour), when `(x + y) mod s = 0`, the cell passes the filter
and its remote tile is cached; none otherwise. -/
theorem getMismatchedPixels_entries (w : WPlacer) (u : UserInfo) (s : Nat)
    (filter : Option Int) (hs : 1 ≤ s) (hu : w.userInfo = some u)
    (hrect : w.template.Rect) (hpal : w.template.PaletteBounded)
    (htiles : w.TilesFull) :
    ∃ out, _getMismatchedPixels w s filter = some out ∧
      (∀ e ∈ out, e.localX < w.template.width ∧ e.localY < w.template.height) ∧
      ∀ x y : Nat, x < w.template.width → y < w.template.height →
        ∃ cell, cellOpt w.template x y = some cell ∧
          (out.filter (fun e => e.localX = x ∧ e.localY = y)).map (fun e => e.color) =
            if (x + y) % s = 0 ∧ (filter = none ∨ filter = some cell) then
              match remotePixel w x y with
              | none => []
              | some remote =>
                (ruleColor w.templateSettings u.extraColorsBitmap cell remote).toList
            else [] := by
  refine ⟨_, getMismatchedPixels_eq_flatMap w u s filter hs hu hrect hpal, ?_, ?_⟩
  · intro e he
    simp only [List.mem_flatMap, List.mem_range] at he
    obtain ⟨y, hy, x, hx, hmem⟩ := he
    obtain ⟨_, r, _, hr, hloc, _⟩ := cellMismatch_spec w u s filter hs hu hrect hpal x y hx hy
    rw [hr] at hmem
    obtain ⟨h1, h2⟩ := hloc e (by simpa using hmem)
    omega
  · intro x y hx hy
    obtain ⟨cell, r, hcell, hr, hloc, hcolor⟩ :=
      cellMismatch_spec w u s filter hs hu hrect hpal x y hx hy
    refine ⟨cell, hcell, ?_⟩
    have hfilter : List.filter (fun e => decide (e.localX = x ∧ e.localY = y))
        ((List.range w.template.height).flatMap (fun y' =>
          (List.range w.template.width).flatMap (fun x' =>
            (cellMismatch w s filter x' y').getD []))) = r := by
      rw [List.filter_flatMap, flatMap_range_single _ _ y hy, List.filter_flatMap,
        flatMap_range_single _ _ x hx]
      · rw [hr]
        simp only [Option.getD_some]
        rw [List.filter_eq_self]
        intro e he
        simpa using hloc e he
      · intro x' hx' hne
        obtain ⟨_, r', _, hr', hloc', _⟩ :=
          cellMismatch_spec w u s filter hs hu hrect hpal x' y hx' hy
        rw [hr', List.filter_eq_nil_iff]
        intro e he
        have := hloc' e (by simpa using he)
        simp only [decide_eq_true_eq, not_and]
        intro h; omega
      · intro y' hy' hne
        rw [List.filter_flatMap]
        apply flatMap_range_nil
        intro x' hx'
        obtain ⟨_, r', _, hr', hloc', _⟩ :=
          cellMismatch_spec w u s filter hs hu hrect hpal x' y' hx' hy'
        rw [hr', List.filter_eq_nil_iff]
        intro e he
        have := hloc' e (by simpa using he)
        simp only [decide_eq_true_eq, not_and]
        intro _ h; omega
    rw [hfilter, hcolor]
    by_cases hc : (x + y) % s = 0 ∧ (filter = none ∨ filter = some cell)
    · simp only [hc, and_self, if_true, remotePixel]
      cases htile : w.tileAt (targetTile w.coords.startX w.coords.startPx x)
          (targetTile w.coords.startY w.coords.startPy y) with
      | none => simp
      | some tile =>
        have hfull := htiles _ _ tile htile (localPixel w.coords.startPx x)
          (Nat.mod_lt _ (by decide))
        obtain ⟨column, hcolumn⟩ := Option.isSome_iff_exists.mp hfull
        simp [hcolumn]
    · simp [hc]

theorem scenarioClient_tilesFull : scenarioClient.TilesFull := by
  intro tx ty tile h px hpx
  have : tile = blankTile := by
    simp only [scenarioClient, WPlacer.tileAt, List.lookup] at h
    split at h
    · exact (Option.some.inj h).symm
    · exact absurd h (by simp)
  subst this
  simp [blankTile, hpx]

/-- C1, witness: the image `[[1,0],[0,2]]` on a blank tile with both modes
off yields exactly colour 1 at local `(0,0)` and colour 2 at local `(1,1)`. -/
theorem getMismatchedPixels_entries_witness :
    _getMismatchedPixels scenarioClient 1 none =
        some [⟨0, 0, 0, 0, 1, true, 0, 0⟩, ⟨0, 0, 1, 1, 2, true, 1, 1⟩] ∧
      ∃ out, _getMismatchedPixels scenarioClient 1 none = some out ∧
        (∀ e ∈ out, e.localX < 2 ∧ e.localY < 2) ∧
        ∀ x y : Nat, x < 2 → y < 2 →
          ∃ cell, cellOpt scenarioClient.template x y = some cell ∧
            (out.filter (fun e => e.localX = x ∧ e.localY = y)).map (fun e => e.color) =
              if (x + y) % 1 = 0 ∧ ((none : Option Int) = none ∨ none = some cell) then
                match remotePixel scenarioClient x y with
                | none => []
                | some remote => (ruleColor ⟨false, false, false⟩ 0 cell remote).toList
              else [] :=
  ⟨by decide,
   getMismatchedPixels_entries scenarioClient ⟨1, 0, none, 0⟩ 1 none (by decide) rfl
     (by decide) (by decide) scenarioClient_tilesFull⟩

/-! ### Paint scheduler: truncation to the charge budget -/

theorem bodyPixels_append (colors : List Int) (coords : List Nat) (c : Int) (px py : Nat)
    (h : coords.length = 2 * colors.length) :
    bodyPixels (colors ++ [c]) (coords ++ [px, py]) =
      bodyPixels colors coords ++ [(px, py, c)] := by
  induction colors generalizing coords with
  | nil =>
    have : coords = [] := List.length_eq_zero.mp (by simpa using h)
    subst this
    simp [bodyPixels]
  | cons c0 colors ih =>
    match coords, h with
    | a :: b :: coords, h =>
      have h' : coords.length = 2 * colors.length := by
        simp only [List.length_cons] at h; omega
      simp [bodyPixels, ih coords h']

theorem bodyPixels_length (colors : List Int) (coords : List Nat)
    (h : coords.length = 2 * colors.length) :
    (bodyPixels colors coords).length = colors.length := by
  induction colors generalizing coords with
  | nil => simp [bodyPixels]
  | cons c0 colors ih =>
    match coords, h with
    | a :: b :: coords, h =>
      have h' : coords.length = 2 * colors.length := by
        simp only [List.length_cons] at h; omega
      simp [bodyPixels, ih coords h']

theorem pushGroup_good (acc : List TileGroup) (p : Mismatch)
    (h : ∀ g ∈ acc, g.Good) : ∀ g ∈ pushGroup acc p, g.Good := by
  induction acc with
  | nil =>
    intro g hg
    simp only [pushGroup, List.mem_singleton] at hg
    subst hg
    simp [TileGroup.Good]
  | cons g0 rest ih =>
    intro g hg
    have h0 := h g0 (List.mem_cons_self _ _)
    have hrest : ∀ g ∈ rest, g.Good := fun g hg => h g (List.mem_cons_of_mem _ hg)
    simp only [pushGroup] at hg
    split_ifs at hg with hkey
    · rcases List.mem_cons.mp hg with rfl | hg'
      · refine ⟨by simp, ?_⟩
        simp only [List.length_append, List.length_cons, List.length_nil]
        have := h0.2
        omega
      · exact hrest g hg'
    · rcases List.mem_cons.mp hg with rfl | hg'
      · exact h0
      · exact ih hrest g hg'

theorem pushGroup_pixels (acc : List TileGroup) (p : Mismatch)
    (h : ∀ g ∈ acc, g.Good) :
    ((pushGroup acc p).flatMap TileGroup.pixels).Perm
      (acc.flatMap TileGroup.pixels ++ [p.pixel]) := by
  induction acc with
  | nil => simp [pushGroup, TileGroup.pixels, bodyPixels, Mismatch.pixel]
  | cons g0 rest ih =>
    have h0 := h g0 (List.mem_cons_self _ _)
    have hrest : ∀ g ∈ rest, g.Good := fun g hg => h g (List.mem_cons_of_mem _ hg)
    simp only [pushGroup]
    split_ifs with hkey
    · obtain ⟨hx, hy⟩ := hkey
      simp only [List.flatMap_cons, TileGroup.pixels, bodyPixels_append _ _ _ _ _ h0.2,
        List.map_append, List.map_cons, List.map_nil, List.append_assoc]
      apply List.Perm.append_left
      rw [hx, hy]
      exact (@List.perm_append_comm _ [p.pixel] _).trans (by rfl)
    · simp only [List.flatMap_cons, List.append_assoc]
      exact List.Perm.append_left _ (ih hrest)

theorem foldl_pushGroup_good (todo : List Mismatch) (acc : List TileGroup)
    (h : ∀ g ∈ acc, g.Good) : ∀ g ∈ todo.foldl pushGroup acc, g.Good := by
  induction todo generalizing acc with
  | nil => simpa using h
  | cons p todo ih => exact ih _ (pushGroup_good acc p h)

theorem foldl_pushGroup_pixels (todo : List Mismatch) (acc : List TileGroup)
    (h : ∀ g ∈ acc, g.Good) :
    ((todo.foldl pushGroup acc).flatMap TileGroup.pixels).Perm
      (acc.flatMap TileGroup.pixels ++ todo.map Mismatch.pixel) := by
  induction todo generalizing acc with
  | nil => simp
  | cons p todo ih =>
    simp only [List.foldl_cons, List.map_cons]
    refine (ih _ (pushGroup_good acc p h)).trans ?_
    have := (pushGroup_pixels acc p h).append_right (todo.map Mismatch.pixel)
    simpa [List.append_assoc] using this

theorem byTile_good (todo : List Mismatch) : ∀ g ∈ byTile todo, g.Good :=
  foldl_pushGroup_good todo [] (by simp)

theorem byTile_pixels (todo : List Mismatch) :
    ((byTile todo).flatMap TileGroup.pixels).Perm (todo.map Mismatch.pixel) := by
  simpa using foldl_pushGroup_pixels todo [] (by simp)

theorem submitGroups_all_painted (post : Nat → Nat → Nat → PaintBody → PaintResponse)
    (token : String)
    (hsucc : ∀ i tx ty body, (post i tx ty body).painted = some (body.colors.length : Int))
    (groups : List TileGroup) (hgood : ∀ g ∈ groups, g.Good) (w : WPlacer)
    (requests : List PaintRequest) (slept total : Nat) :
    (submitGroups post token groups w requests slept total).result =
        .ok (total + (groups.map (fun g => g.colors.length)).sum) ∧
      (submitGroups post token groups w requests slept total).requests =
        requests ++ groups.map (fun g => ⟨g.tx, g.ty, ⟨g.colors, g.coords, token⟩⟩) ∧
      (submitGroups post token groups w requests slept total).sleptMs = slept := by
  induction groups generalizing w requests slept total with
  | nil => simp [submitGroups]
  | cons g rest ih =>
    have hg := hgood g (List.mem_cons_self _ _)
    have hrest : ∀ g ∈ rest, g.Good := fun g hg => hgood g (List.mem_cons_of_mem _ hg)
    have hlen : g.colors.length ≠ 0 := fun h => hg.1 (List.length_eq_zero.mp h)
    have hne0 : ¬ ((g.colors.length : Int) = 0) := by exact_mod_cast hlen
    have hexec : _executePaint w (post requests.length) g.tx g.ty ⟨g.colors, g.coords, token⟩ =
        ⟨{ w with tiles := (modifyTile w.tiles (g.tx, g.ty)
            (fun tile => tile.paintAll g.colors g.coords)) }, true, 0, .ok g.colors.length⟩ := by
      simp [_executePaint, hlen, hsucc, hne0]
    unfold submitGroups
    simp only [hexec, if_true]
    obtain ⟨h1, h2, h3⟩ := ih hrest _ (requests ++ [⟨g.tx, g.ty, ⟨g.colors, g.coords, token⟩⟩])
      (slept + 0) (total + g.colors.length)
    refine ⟨?_, ?_, ?_⟩
    · rw [h1]; simp [Nat.add_assoc]
    · rw [h2]; simp
    · rw [h3]; simp

theorem sum_colors_length (groups : List TileGroup) (hgood : ∀ g ∈ groups, g.Good) :
    (groups.map (fun g => g.colors.length)).sum = (groups.flatMap TileGroup.pixels).length := by
  induction groups with
  | nil => simp
  | cons g rest ih =>
    have hg := hgood g (List.mem_cons_self _ _)
    have hrest : ∀ g ∈ rest, g.Good := fun g hg => hgood g (List.mem_cons_of_mem _ hg)
    simp [ih hrest, TileGroup.pixels, bodyPixels_length _ _ hg.2]

theorem orderedMismatches_nil (w : WPlacer) (random : Nat → ℚ) :
    orderedMismatches w random [] = [] := by
  simp [orderedMismatches, outlineStep, directionStep, shuffleLoop, colorOrderStep, objectKeys]

theorem slice0_natCast {α : Type} (l : List α) (k : Nat) : slice0 l (k : Int) = l.take k := by
  simp [slice0]

theorem paint_eq_paintLoaded (w w1 : WPlacer) (env : PaintEnv) (currentSkip : Nat)
    (colorFilter : Option Int) (hload : clientAfterLoad w env.fetch = .ok w1) :
    paint w env currentSkip colorFilter = paintLoaded w1 env currentSkip colorFilter := by
  unfold clientAfterLoad at hload
  unfold paint
  split_ifs at hload ⊢ with h
  · rw [hload]
  · cases hload; rfl

theorem requests_pixels_of_groups (groups : List TileGroup) (token : String) :
    (groups.map (fun g => (⟨g.tx, g.ty, ⟨g.colors, g.coords, token⟩⟩ : PaintRequest))).flatMap
      PaintRequest.pixels = groups.flatMap TileGroup.pixels := by
  induction groups with
  | nil => rfl
  | cons g rest ih =>
    simp only [List.map_cons, List.flatMap_cons, ih]
    rfl

/-- C2. When the tiles are there, the token is set and every paint request is
answered as fully painted, `paint` on an account whose
`Math.floor(charges.count)` is `k ≥ 0` returns `min k n`, where `n` is the
length of the mismatch list after the outline, direction and colour-order
steps, and the pixels of all its tile requests together are exactly the first
`min k n` pixels of that list; so it submits at most `k` pixels, and none
when `k = 0`. -/
theorem paint_submits_budget (w w1 : WPlacer) (env : PaintEnv) (currentSkip : Nat)
    (colorFilter : Option Int) (token : String) (u : UserInfo) (mismatched : List Mismatch)
    (k : Nat)
    (hload : clientAfterLoad w env.fetch = .ok w1)
    (htoken : w1.token = some token) (hne : token ≠ "")
    (hu : w1.userInfo = some u)
    (hmis : _getMismatchedPixels w1 currentSkip colorFilter = some mismatched)
    (hk : chargesNow w1.userInfo = (k : Int))
    (hsucc : ∀ i tx ty body,
      (env.post i tx ty body).painted = some (body.colors.length : Int)) :
    (paint w env currentSkip colorFilter).result =
        .ok (min k (orderedMismatches w1 env.random mismatched).length) ∧
      ((paint w env currentSkip colorFilter).requests.flatMap PaintRequest.pixels).Perm
        (((orderedMismatches w1 env.random mismatched).take k).map Mismatch.pixel) ∧
      ((paint w env currentSkip colorFilter).requests.flatMap PaintRequest.pixels).length ≤ k ∧
      (k = 0 → (paint w env currentSkip colorFilter).requests = []) := by
  rw [paint_eq_paintLoaded w w1 env currentSkip colorFilter hload]
  unfold paintLoaded
  simp only [htoken, hne, if_false, hmis]
  by_cases hempty : mismatched.length = 0
  · have : mismatched = [] := List.length_eq_zero.mp hempty
    subst this
    simp [orderedMismatches_nil]
  · simp only [hempty, if_false, hu]
    rw [← hu, hk, slice0_natCast]
    obtain ⟨h1, h2, _⟩ := submitGroups_all_painted env.post token hsucc
      (byTile ((orderedMismatches w1 env.random mismatched).take k))
      (byTile_good _) w1 [] 0 0
    have hperm := byTile_pixels ((orderedMismatches w1 env.random mismatched).take k)
    have hlen := hperm.length_eq
    rw [List.length_map, List.length_take] at hlen
    rw [h1, h2, sum_colors_length _ (byTile_good _), hlen]
    simp only [List.nil_append, requests_pixels_of_groups, Nat.zero_add]
    refine ⟨trivial, hperm, ?_, ?_⟩
    · rw [hlen]; exact Nat.min_le_left _ _
    · intro hk0
      subst hk0
      simp [byTile]

theorem tenPixelClient_mismatches :
    _getMismatchedPixels (tenPixelClient 3) 1 none =
      some ((List.range 10).map (fun x => ⟨0, 0, x, 0, 1, true, x, 0⟩)) := by
  decide

theorem orderedMismatches_length_plain (w : WPlacer) (random : Nat → ℚ)
    (l : List Mismatch) (ho : w.templateSettings.outlineMode = false)
    (hd : w.globalSettings.drawingDirection ≠ "random")
    (hc : w.globalSettings.drawingOrder ≠ "color") :
    (orderedMismatches w random l).length = l.length := by
  simp only [orderedMismatches, outlineStep, directionStep, colorOrderStep, ho, hd, hc,
    if_false, List.length_insertionSort, Bool.false_eq_true]

/-- C2, witness: an account with `charges.count = 3` and ten pending pixels
submits exactly three pixels, the first three of the ordered list. -/
theorem paint_submits_budget_witness :
    (paint (tenPixelClient 3) allPaintedEnv 1 none).result = .ok 3 ∧
      ((paint (tenPixelClient 3) allPaintedEnv 1 none).requests.flatMap
          PaintRequest.pixels).Perm
        (((orderedMismatches (tenPixelClient 3) allPaintedEnv.random
          ((List.range 10).map (fun x => ⟨0, 0, x, 0, 1, true, x, 0⟩))).take 3).map
            Mismatch.pixel) ∧
      ((paint (tenPixelClient 3) allPaintedEnv 1 none).requests.flatMap
          PaintRequest.pixels).length ≤ 3 := by
  have h := paint_submits_budget (tenPixelClient 3) (tenPixelClient 3) allPaintedEnv 1 none
    "token" ⟨1, 0, some ⟨some 3, some 100⟩, 0⟩ _ 3 rfl rfl (by decide) rfl
    tenPixelClient_mismatches (by simp [chargesNow, tenPixelClient])
    (fun _ _ _ _ => rfl)
  have hlen : (orderedMismatches (tenPixelClient 3) allPaintedEnv.random
      ((List.range 10).map (fun x => ⟨0, 0, x, 0, 1, true, x, 0⟩))).length = 10 := by
    rw [orderedMismatches_length_plain _ _ _ rfl (by decide) (by decide)]
    simp
  rw [hlen] at h
  exact ⟨h.1, h.2.1, h.2.2.1⟩

/-! ### Share-code codec: decoding undoes encoding -/

theorem varintWriteLoop_append (fuel n : Nat) (out : List Nat) :
    varintWriteLoop fuel n out = out ++ varintWriteLoop fuel n [] := by
  induction fuel generalizing n out with
  | zero => simp [varintWriteLoop]
  | succ fuel ih =>
    simp only [varintWriteLoop]
    split_ifs
    · rw [ih, ih _ ([] ++ _)]; simp
    · simp

theorem varintWrite_append (n : Nat) (out : List Nat) :
    varintWrite n out = out ++ varintWrite n [] :=
  varintWriteLoop_append n n out

theorem low_byte_facts : ∀ r, r < 128 →
    (r ||| 128) &&& 127 = r ∧ (r ||| 128) &&& 128 ≠ 0 ∧ r ||| 128 < 256 ∧
      r &&& 127 = r ∧ r &&& 128 = 0 := by
  decide

theorem and_127 (n : Nat) : n &&& 127 = n % 128 :=
  Nat.and_pow_two_sub_one_eq_mod n 7

theorem or_shift_eq_add (acc r shift : Nat) (hacc : acc < 2 ^ shift) (hs : shift < 32)
    (hlt : acc + r * 2 ^ shift < 2 ^ 32) :
    acc ||| ((r <<< (shift % 32)) % 2 ^ 32) = acc + r * 2 ^ shift := by
  have hpiece : r * 2 ^ shift < 2 ^ 32 := by omega
  rw [Nat.mod_eq_of_lt hs, Nat.shiftLeft_eq, Nat.mod_eq_of_lt hpiece, Nat.lor_comm,
    Nat.mul_comm r, ← Nat.mul_add_lt_is_or hacc, Nat.add_comm]

theorem getElem?_append_cons_length (pre : List Nat) (b : Nat) (rest : List Nat) :
    (pre ++ b :: rest)[pre.length]? = some b := by
  rw [List.getElem?_append_right (Nat.le_refl _)]
  simp

theorem varintReadLoop_step (u8 : List Nat) (fuel i n shift b : Nat) (hb : u8[i]? = some b) :
    varintReadLoop u8 (fuel + 1) i n shift =
      if b &&& 0x80 ≠ 0 then
        varintReadLoop u8 fuel (i + 1) (n ||| (((b &&& 0x7f) <<< (shift % 32)) % 2 ^ 32))
          (shift + 7)
      else (n ||| (((b &&& 0x7f) <<< (shift % 32)) % 2 ^ 32), i + 1) := by
  simp only [varintReadLoop, hb, Option.getD_some]

theorem varintReadLoop_write (fuelW : Nat) :
    ∀ (n : Nat), n ≤ fuelW → ∀ (pre post : List Nat) (acc shift fuelR : Nat),
      acc < 2 ^ shift → acc + n * 2 ^ shift < 2 ^ 32 →
      (varintWriteLoop fuelW n []).length ≤ fuelR →
      varintReadLoop (pre ++ (varintWriteLoop fuelW n [] ++ post)) fuelR pre.length acc shift =
        (acc + n * 2 ^ shift, pre.length + (varintWriteLoop fuelW n []).length) := by
  induction fuelW with
  | zero =>
    intro n hn pre post acc shift fuelR hacc hlt hfuel
    have hn0 : n = 0 := by omega
    subst hn0
    simp only [varintWriteLoop, List.nil_append, List.length_singleton] at hfuel ⊢
    obtain ⟨f, rfl⟩ : ∃ f, fuelR = f + 1 := ⟨fuelR - 1, by omega⟩
    rw [List.singleton_append,
      varintReadLoop_step _ f _ acc shift 0 (getElem?_append_cons_length pre 0 post)]
    simp
  | succ fuelW ih =>
    intro n hn pre post acc shift fuelR hacc hlt hfuel
    simp only [varintWriteLoop] at hfuel ⊢
    by_cases hbig : n ≥ 0x80
    · simp only [hbig, if_true] at hfuel ⊢
      rw [varintWriteLoop_append] at hfuel ⊢
      simp only [List.nil_append, List.length_append, List.length_singleton] at hfuel ⊢
      obtain ⟨f, rfl⟩ : ∃ f, fuelR = f + 1 := ⟨fuelR - 1, by omega⟩
      have hn32 : n < 2 ^ 32 := by
        have hmul : n ≤ n * 2 ^ shift := Nat.le_mul_of_pos_right _ (Nat.two_pow_pos shift)
        omega
      have hs : shift < 32 := by
        by_contra hge
        have h32 : 2 ^ 32 ≤ 2 ^ shift := Nat.pow_le_pow_right (by decide) (by omega)
        have hmul : 2 ^ shift ≤ n * 2 ^ shift := Nat.le_mul_of_pos_left _ (by omega)
        omega
      have hr : n % 128 < 128 := Nat.mod_lt _ (by decide)
      obtain ⟨hb1, hb2, _, _, _⟩ := low_byte_facts (n % 128) hr
      have hshift : (n % 2 ^ 32) >>> 7 = n / 128 := by
        rw [Nat.mod_eq_of_lt hn32, Nat.shiftRight_eq_div_pow]
      have hsplit : n = 128 * (n / 128) + n % 128 := (Nat.div_add_mod n 128).symm
      have hpow : 2 ^ (shift + 7) = 2 ^ shift * 128 := by rw [Nat.pow_add]
      have hstep : acc + n % 128 * 2 ^ shift + n / 128 * 2 ^ (shift + 7) =
          acc + n * 2 ^ shift := by
        rw [hpow]
        conv_rhs => rw [hsplit]
        ring
      have hlt1 : acc + n % 128 * 2 ^ shift < 2 ^ 32 := by
        have hle : n % 128 * 2 ^ shift ≤ n * 2 ^ shift :=
          Nat.mul_le_mul_right _ (Nat.mod_le _ _)
        omega
      rw [hshift] at hfuel ⊢
      rw [and_127]
      rw [List.append_assoc, List.singleton_append,
        varintReadLoop_step _ f _ acc shift _ (getElem?_append_cons_length pre _ _)]
      simp only [hb1, hb2, ne_eq, not_false_eq_true, if_true,
        or_shift_eq_add acc (n % 128) shift hacc hs hlt1]
      have hih := ih (n / 128) (by omega) (pre ++ [n % 128 ||| 128]) post
        (acc + n % 128 * 2 ^ shift) (shift + 7) f
        (by
          rw [hpow]
          have hle : n % 128 * 2 ^ shift ≤ 127 * 2 ^ shift :=
            Nat.mul_le_mul_right _ (by omega)
          omega)
        (by rw [hstep]; exact hlt)
        (by omega)
      rw [List.append_assoc, List.singleton_append, List.length_append,
        List.length_singleton] at hih
      rw [hih, hstep]
      simp only [Prod.mk.injEq, true_and]
      omega
    · simp only [hbig, if_false, List.nil_append, List.length_singleton] at hfuel ⊢
      obtain ⟨f, rfl⟩ : ∃ f, fuelR = f + 1 := ⟨fuelR - 1, by omega⟩
      have hn128 : n < 128 := by omega
      obtain ⟨_, _, _, hb4, hb5⟩ := low_byte_facts n hn128
      rw [List.singleton_append,
        varintReadLoop_step _ f _ acc shift n (getElem?_append_cons_length pre n post)]
      simp only [hb4, hb5, ne_eq, not_true_eq_false, if_false]
      by_cases hn0 : n = 0
      · subst hn0; simp
      · have hs : shift < 32 := by
          by_contra hge
          have h32 : 2 ^ 32 ≤ 2 ^ shift := Nat.pow_le_pow_right (by decide) (by omega)
          have hmul : 2 ^ shift ≤ n * 2 ^ shift := Nat.le_mul_of_pos_left _ (by omega)
          omega
        rw [or_shift_eq_add acc n shift hacc hs hlt]

theorem varintRead_write (n : Nat) (hn : n < 2 ^ 32) (pre post : List Nat) :
    varintRead (pre ++ (varintWrite n [] ++ post)) pre.length =
      (n, pre.length + (varintWrite n []).length) := by
  unfold varintRead varintWrite
  have h0 : (0 : Nat) < 2 ^ 0 := by decide
  have h1 : 0 + n * 2 ^ 0 < 2 ^ 32 := by omega
  have h2 : (varintWriteLoop n n []).length ≤
      (pre ++ (varintWriteLoop n n [] ++ post)).length - pre.length + 1 := by
    simp only [List.length_append]; omega
  rw [varintReadLoop_write n n (Nat.le_refl _) pre post 0 0 _ h0 h1 h2]
  simp

theorem rleLoop_expand (rest : List Cell) (p : Cell) (c : Nat) (o : List (Cell × Nat)) :
    expandRuns (rleLoop rest p c o) = expandRuns o ++ List.replicate c p ++ rest := by
  induction rest generalizing p c o with
  | nil => simp [rleLoop, expandRuns]
  | cons v rest ih =>
    simp only [rleLoop]
    split_ifs with h
    · subst h
      rw [ih, List.replicate_succ', List.append_assoc, List.append_assoc, List.append_assoc]
      rfl
    · rw [ih]
      simp [expandRuns]

theorem rleEncode_expand (a : List Cell) : expandRuns (rleEncode a) = a := by
  cases a with
  | nil => rfl
  | cons p rest =>
    simp only [rleEncode]
    rw [rleLoop_expand]
    simp [expandRuns]

theorem rleLoop_length (rest : List Cell) (p : Cell) (c : Nat) (o : List (Cell × Nat)) :
    (rleLoop rest p c o).length ≤ o.length + 1 + rest.length := by
  induction rest generalizing p c o with
  | nil => simp [rleLoop]
  | cons v rest ih =>
    simp only [rleLoop]
    split_ifs with h
    · have := ih p (c + 1) o
      simp only [List.length_cons]; omega
    · have := ih v 1 (o ++ [(p, c)])
      simp only [List.length_append, List.length_singleton, List.length_cons,
        List.length_nil] at this ⊢
      omega

theorem rleEncode_length (a : List Cell) : (rleEncode a).length ≤ a.length := by
  cases a with
  | nil => simp [rleEncode]
  | cons p rest =>
    have := rleLoop_length rest p 1 []
    simp only [rleEncode, List.length_cons, List.length_nil] at this ⊢
    omega

theorem count_le_expand (runs : List (Cell × Nat)) :
    ∀ r ∈ runs, r.2 ≤ (expandRuns runs).length := by
  induction runs with
  | nil => simp
  | cons r0 runs ih =>
    intro r hr
    simp only [expandRuns, List.flatMap_cons, List.length_append, List.length_replicate]
    rcases List.mem_cons.mp hr with rfl | h
    · omega
    · have := ih r h
      simp only [expandRuns] at this
      omega

theorem writeRuns_eq (runs : List (Cell × Nat)) (bytes : List Nat) :
    writeRuns runs bytes = bytes ++ encodeRuns runs := by
  induction runs generalizing bytes with
  | nil => simp [writeRuns, encodeRuns]
  | cons r runs ih =>
    obtain ⟨val, cnt⟩ := r
    simp only [writeRuns]
    rw [ih, varintWrite_append]
    simp [encodeRuns]

theorem readRuns_encode (runs : List (Cell × Nat)) (hcnt : ∀ r ∈ runs, r.2 < 2 ^ 32)
    (pre post : List Nat) (flat : List Cell) :
    readRuns (pre ++ (encodeRuns runs ++ post)) runs.length pre.length flat =
      flat ++ runs.flatMap (fun r => List.replicate r.2 (byteCell (runByte r.1))) := by
  induction runs generalizing pre flat with
  | nil => simp [readRuns]
  | cons r runs ih =>
    obtain ⟨val, cnt⟩ := r
    have hc : cnt < 2 ^ 32 := hcnt (val, cnt) (List.mem_cons_self _ _)
    have hrest : ∀ r ∈ runs, r.2 < 2 ^ 32 := fun r hr => hcnt r (List.mem_cons_of_mem _ hr)
    have hlist : pre ++ (encodeRuns ((val, cnt) :: runs) ++ post) =
        (pre ++ [runByte val]) ++ (varintWrite cnt [] ++ (encodeRuns runs ++ post)) := by
      simp [encodeRuns]
    have hget : (pre ++ (encodeRuns ((val, cnt) :: runs) ++ post))[pre.length]? =
        some (runByte val) := by
      have : pre ++ (encodeRuns ((val, cnt) :: runs) ++ post) =
          pre ++ runByte val :: (varintWrite cnt [] ++ (encodeRuns runs ++ post)) := by
        simp [encodeRuns]
      rw [this, getElem?_append_cons_length]
    have hread : varintRead (pre ++ (encodeRuns ((val, cnt) :: runs) ++ post))
        (pre.length + 1) = (cnt, pre.length + 1 + (varintWrite cnt []).length) := by
      rw [hlist]
      have := varintRead_write cnt hc (pre ++ [runByte val]) (encodeRuns runs ++ post)
      simpa using this
    simp only [List.length_cons, readRuns, hget, hread, Option.map_some']
    have hlist2 : pre ++ (encodeRuns ((val, cnt) :: runs) ++ post) =
        (pre ++ [runByte val] ++ varintWrite cnt []) ++ (encodeRuns runs ++ post) := by
      simp [encodeRuns]
    have hlen : pre.length + 1 + (varintWrite cnt []).length =
        (pre ++ [runByte val] ++ varintWrite cnt []).length := by
      simp only [List.length_append, List.length_singleton]
    rw [hlist2, hlen, ih hrest]
    simp [byteCell, List.append_assoc]

theorem varintWriteLoop_bytes (fuel : Nat) :
    ∀ n, n ≤ fuel → ∀ b ∈ varintWriteLoop fuel n [], b < 256 := by
  induction fuel with
  | zero =>
    intro n hn b hb
    have : n = 0 := by omega
    subst this
    simp only [varintWriteLoop, List.nil_append, List.mem_singleton] at hb
    omega
  | succ fuel ih =>
    intro n hn b hb
    simp only [varintWriteLoop] at hb
    split_ifs at hb with hbig
    · rw [varintWriteLoop_append] at hb
      have hle : (n % 2 ^ 32) >>> 7 ≤ fuel := by
        rw [Nat.shiftRight_eq_div_pow]
        have h1 : n % 2 ^ 32 ≤ n := Nat.mod_le _ _
        have h2 : n % 2 ^ 32 / 2 ^ 7 ≤ n / 2 ^ 7 := Nat.div_le_div_right h1
        have h3 : n / 2 ^ 7 < n := Nat.div_lt_self (by omega) (by decide)
        omega
      rcases List.mem_append.mp hb with h | h
      · simp only [List.nil_append, List.mem_singleton] at h
        subst h
        rw [and_127]
        exact (low_byte_facts (n % 128) (Nat.mod_lt _ (by decide))).2.2.1
      · exact ih _ hle b h
    · simp only [List.nil_append, List.mem_singleton] at hb
      omega

theorem varintWrite_bytes (n : Nat) : ∀ b ∈ varintWrite n [], b < 256 :=
  varintWriteLoop_bytes n n (Nat.le_refl _)

theorem runByte_lt (v : Cell) : runByte v < 256 := by
  unfold runByte
  cases v with
  | none => decide
  | some n =>
    simp only
    split_ifs
    · decide
    · omega

theorem encodeRuns_bytes (runs : List (Cell × Nat)) : ∀ b ∈ encodeRuns runs, b < 256 := by
  intro b hb
  simp only [encodeRuns, List.mem_flatMap, List.mem_cons] at hb
  obtain ⟨r, _, h | h⟩ := hb
  · rw [h]; exact runByte_lt _
  · exact varintWrite_bytes _ b h

theorem map_mod_256 (l : List Nat) (h : ∀ b ∈ l, b < 256) : l.map (fun b => b % 256) = l := by
  induction l with
  | nil => rfl
  | cons a l ih =>
    have ha : a < 256 := h a (List.mem_cons_self _ _)
    simp only [List.map_cons, Nat.mod_eq_of_lt ha,
      ih (fun b hb => h b (List.mem_cons_of_mem _ hb))]

/-- The bytes of a share code, from the magic number to the last run. -/
theorem shareBytesOf_eq (w h : Nat) (flat : List Cell) :
    shareBytesOf w h flat =
      [0x57, 0x54, 0x01] ++ (varintWrite w [] ++ (varintWrite h [] ++
        (varintWrite (rleEncode flat).length [] ++ encodeRuns (rleEncode flat)))) := by
  unfold shareBytesOf
  simp only
  rw [writeRuns_eq, varintWrite_append (rleEncode flat).length, varintWrite_append h,
    varintWrite_append w]
  rw [map_mod_256]
  · simp only [List.append_assoc]
  · intro b hb
    simp only [List.mem_append, List.mem_cons, List.mem_singleton, List.not_mem_nil,
      or_false] at hb
    rcases hb with (((h1 | h2) | h3) | h4) | h5
    · rcases h1 with h | h | h <;> omega
    · exact varintWrite_bytes _ b h2
    · exact varintWrite_bytes _ b h3
    · exact varintWrite_bytes _ b h4
    · exact encodeRuns_bytes _ b h5

theorem grid_length {α : Type} (g : Nat → Nat → α) (w h : Nat) :
    ((List.range h).flatMap (fun y => (List.range w).map (fun x => g x y))).length = h * w := by
  induction h with
  | zero => simp
  | succ h ih =>
    rw [List.range_succ, List.flatMap_append, List.length_append, ih]
    simp [Nat.succ_mul]

theorem grid_getElem? {α : Type} (g : Nat → Nat → α) (w h x y : Nat) (hx : x < w) (hy : y < h) :
    ((List.range h).flatMap (fun y => (List.range w).map (fun x => g x y)))[y * w + x]? =
      some (g x y) := by
  induction h with
  | zero => omega
  | succ h ih =>
    rw [List.range_succ, List.flatMap_append]
    by_cases hyh : y < h
    · have hlt : y * w + x < h * w := by
        have : (y + 1) * w ≤ h * w := Nat.mul_le_mul_right w hyh
        rw [Nat.succ_mul] at this
        omega
      rw [List.getElem?_append_left (by rw [grid_length]; exact hlt)]
      exact ih hyh
    · have hyeq : y = h := by omega
      subst hyeq
      rw [List.getElem?_append_right (by rw [grid_length]; omega), grid_length]
      simp [hx]

theorem mem_expandRuns_of_pos (runs : List (Cell × Nat)) :
    ∀ r ∈ runs, 0 < r.2 → r.1 ∈ expandRuns runs := by
  intro r hr hpos
  simp only [expandRuns, List.mem_flatMap]
  exact ⟨r, hr, by simp [List.mem_replicate]; omega⟩

theorem decodeRuns_eq_expand (runs : List (Cell × Nat))
    (hstable : ∀ v ∈ expandRuns runs, byteCell (runByte v) = v) :
    runs.flatMap (fun r => List.replicate r.2 (byteCell (runByte r.1))) = expandRuns runs := by
  unfold expandRuns
  induction runs with
  | nil => rfl
  | cons r runs ih =>
    have hr : List.replicate r.2 (byteCell (runByte r.1)) = List.replicate r.2 r.1 := by
      by_cases h0 : r.2 = 0
      · rw [h0]; rfl
      · rw [hstable r.1 (mem_expandRuns_of_pos _ r (List.mem_cons_self _ _) (by omega))]
    have hrest : ∀ v ∈ expandRuns runs, byteCell (runByte v) = v := by
      intro v hv
      apply hstable
      simp only [expandRuns, List.flatMap_cons, List.mem_append] at hv ⊢
      exact Or.inr hv
    simp only [List.flatMap_cons, hr]
    rw [ih hrest]

theorem parseShareBytesCore_shareBytesOf (w h : Nat) (flat : List Cell)
    (hw : w < 2 ^ 32) (hh : h < 2 ^ 32) (hlen : flat.length = w * h)
    (hsize : w * h < 2 ^ 32) (hstable : ∀ v ∈ flat, byteCell (runByte v) = v) :
    parseShareBytesCore (shareBytesOf w h flat) = some ⟨w, h, reshape_XMajor flat w h⟩ := by
  have hexp := rleEncode_expand flat
  have hrc : (rleEncode flat).length < 2 ^ 32 := by
    have := rleEncode_length flat
    omega
  have hcnt : ∀ r ∈ rleEncode flat, r.2 < 2 ^ 32 := by
    intro r hr
    have := count_le_expand (rleEncode flat) r hr
    rw [hexp] at this
    omega
  rw [shareBytesOf_eq]
  generalize hW : varintWrite w [] = W
  generalize hH : varintWrite h [] = H
  generalize hR : varintWrite (rleEncode flat).length [] = R
  generalize hE : encodeRuns (rleEncode flat) = E
  have h1 : varintRead ([0x57, 0x54, 0x01] ++ (W ++ (H ++ (R ++ E)))) 3 = (w, 3 + W.length) := by
    have := varintRead_write w hw [0x57, 0x54, 0x01] (H ++ (R ++ E))
    rw [hW] at this
    exact this
  have h2 : varintRead ([0x57, 0x54, 0x01] ++ (W ++ (H ++ (R ++ E)))) (3 + W.length) =
      (h, 3 + W.length + H.length) := by
    have := varintRead_write h hh ([0x57, 0x54, 0x01] ++ W) (R ++ E)
    have e1 : ([0x57, 0x54, 0x01] ++ W).length = 3 + W.length := by
      simp only [List.length_append, List.length_cons, List.length_nil]
    rw [hH, e1, List.append_assoc] at this
    exact this
  have h3 : varintRead ([0x57, 0x54, 0x01] ++ (W ++ (H ++ (R ++ E))))
      (3 + W.length + H.length) = ((rleEncode flat).length, 3 + W.length + H.length + R.length) := by
    have := varintRead_write (rleEncode flat).length hrc ([0x57, 0x54, 0x01] ++ W ++ H) E
    have e1 : ([0x57, 0x54, 0x01] ++ W ++ H).length = 3 + W.length + H.length := by
      simp only [List.length_append, List.length_cons, List.length_nil]
    rw [hR, e1, List.append_assoc, List.append_assoc] at this
    exact this
  have h4 : readRuns ([0x57, 0x54, 0x01] ++ (W ++ (H ++ (R ++ E)))) (rleEncode flat).length
      (3 + W.length + H.length + R.length) [] = flat := by
    have := readRuns_encode (rleEncode flat) hcnt ([0x57, 0x54, 0x01] ++ W ++ H ++ R) [] []
    rw [hE] at this
    have e1 : ([0x57, 0x54, 0x01] ++ W ++ H ++ R).length =
        3 + W.length + H.length + R.length := by
      simp only [List.length_append, List.length_cons, List.length_nil]
    rw [decodeRuns_eq_expand _ (by rw [hexp]; exact hstable), hexp, e1, List.append_nil,
      List.nil_append, List.append_assoc, List.append_assoc, List.append_assoc] at this
    exact this
  unfold parseShareBytesCore
  have hmagic : ¬ (([0x57, 0x54, 0x01] ++ (W ++ (H ++ (R ++ E)))).length < 3 ∨
      ([0x57, 0x54, 0x01] ++ (W ++ (H ++ (R ++ E))))[0]? ≠ some 0x57 ∨
      ([0x57, 0x54, 0x01] ++ (W ++ (H ++ (R ++ E))))[1]? ≠ some 0x54 ∨
      ([0x57, 0x54, 0x01] ++ (W ++ (H ++ (R ++ E))))[2]? ≠ some 0x01) := by
    simp
  rw [if_neg hmagic]
  simp only [h1, h2, h3, h4, hlen, ne_eq, not_true_eq_false, if_false]

theorem cellAt_map_some (m : List (List Int)) (w h : Nat) (hcols : m.length = w)
    (hrows : ∀ col ∈ m, col.length = h) (x y : Nat) (hx : x < w) (hy : y < h) :
    ∃ col c, col ∈ m ∧ c ∈ col ∧ m[x]? = some col ∧ col[y]? = some c ∧
      cellAt (m.map (fun col => col.map some)) x y = some c := by
  have hx' : x < m.length := by omega
  have hcol : m[x] ∈ m := List.getElem_mem hx'
  have hy' : y < (m[x]).length := by rw [hrows _ hcol]; exact hy
  refine ⟨m[x], (m[x])[y], hcol, List.getElem_mem hy', List.getElem?_eq_getElem hx',
    List.getElem?_eq_getElem hy', ?_⟩
  simp [cellAt, List.getElem?_eq_getElem hx', List.getElem?_eq_getElem hy']

theorem grid_eq_of_rect (m : List (List Int)) (w h : Nat) (hcols : m.length = w)
    (hrows : ∀ col ∈ m, col.length = h) :
    (List.range w).map (fun x => (List.range h).map
      (fun y => cellAt (m.map (fun col => col.map some)) x y)) =
      m.map (fun col => col.map some) := by
  apply List.ext_getElem
  · simp [hcols]
  · intro x h1 h2
    have hx : x < m.length := by simpa using h2
    have hlen : (m[x]).length = h := hrows _ (List.getElem_mem hx)
    simp only [List.getElem_map, List.getElem_range]
    apply List.ext_getElem
    · simp [hlen]
    · intro y h3 h4
      have hy : y < (m[x]).length := by simpa using h4
      simp [cellAt, List.getElem?_eq_getElem hx, List.getElem?_eq_getElem hy]

theorem reshape_grid (g : Nat → Nat → Cell) (w h : Nat) :
    reshape_XMajor ((List.range h).flatMap (fun y => (List.range w).map (fun x => g x y))) w h =
      (List.range w).map (fun x => (List.range h).map (fun y => g x y)) := by
  unfold reshape_XMajor
  apply List.map_congr_left
  intro x hx
  apply List.map_congr_left
  intro y hy
  rw [grid_getElem? g w h x y (List.mem_range.mp hx) (List.mem_range.mp hy)]
  rfl

theorem flatten_rect (m : List (List Int)) (w h : Nat) (hw : 1 ≤ w) (hcols : m.length = w)
    (hrows : ∀ col ∈ m, col.length = h) (hsize : w * h < 2 ^ 32) :
    flatten2D_XMajor (m.map (fun col => col.map some)) =
      some ((List.range h).flatMap (fun y => (List.range w).map
        (fun x => cellAt (m.map (fun col => col.map some)) x y))) := by
  have h0 : 0 < m.length := by omega
  have hfirst : (m[0]).length = h := hrows _ (List.getElem_mem h0)
  unfold flatten2D_XMajor
  simp only [List.length_map, hcols, List.getElem?_map, List.getElem?_eq_getElem h0,
    Option.map_some', List.length_map, hfirst, Option.getD_some]
  rw [if_neg (by omega)]

theorem ensureXMajor_rect (m : List (List Int)) (w h : Nat) (hw : 1 ≤ w)
    (hcols : m.length = w) (hrows : ∀ col ∈ m, col.length = h) :
    ensureXMajor m w h = some (m.map (fun col => col.map some)) := by
  have h0 : 0 < m.length := by omega
  have hfirst : (m[0]).length = h := hrows _ (List.getElem_mem h0)
  unfold ensureXMajor
  simp [List.getElem?_eq_getElem h0, hcols, hfirst]

theorem valid_stable (c : Int) (hc : c = -1 ∨ (0 ≤ c ∧ c ≤ 63)) :
    byteCell (runByte (some c)) = some c ∧ isValidColorId (some c) = true ∧
      normPix (some c) = some c := by
  rcases hc with rfl | ⟨h0, h63⟩
  · decide
  · have hne : c ≠ -1 := by omega
    have hmod : c % 256 = c := Int.emod_eq_of_lt h0 (by omega)
    have hnat : ((c.toNat : Nat) : Int) = c := Int.toNat_of_nonneg h0
    have h255 : c.toNat ≠ 255 := by omega
    refine ⟨?_, ?_, ?_⟩
    · simp [byteCell, runByte, hne, hmod, h255, hnat]
    · simp only [isValidColorId, decide_eq_true_eq]; omega
    · simp only [normPix, hne, if_false]
      rw [if_neg (by omega)]

theorem allOrThrow_normPix_valid (col : List Int)
    (hvalid : ∀ c ∈ col, c = -1 ∨ (0 ≤ c ∧ c ≤ 63)) :
    allOrThrow ((col.map some).map normPix) = some col := by
  induction col with
  | nil => rfl
  | cons c col ih =>
    have hc := (valid_stable c (hvalid c (List.mem_cons_self _ _))).2.2
    have hrest := ih (fun c hc => hvalid c (List.mem_cons_of_mem _ hc))
    simp only [List.map_cons, hc, allOrThrow, hrest, Option.map_some']

theorem allOrThrow_columns_valid (m : List (List Int))
    (hvalid : ∀ col ∈ m, ∀ c ∈ col, c = -1 ∨ (0 ≤ c ∧ c ≤ 63)) :
    allOrThrow ((m.map (fun col => col.map some)).map
      (fun col => allOrThrow (col.map normPix))) = some m := by
  induction m with
  | nil => rfl
  | cons col m ih =>
    have hc := allOrThrow_normPix_valid col (hvalid col (List.mem_cons_self _ _))
    have hrest := ih (fun col hcol => hvalid col (List.mem_cons_of_mem _ hcol))
    simp only [List.map_cons, hc, allOrThrow, hrest, Option.map_some']

theorem sanitize_valid (m : List (List Int))
    (hvalid : ∀ col ∈ m, ∀ c ∈ col, c = -1 ∨ (0 ≤ c ∧ c ≤ 63)) :
    sanitizePalette2D (m.map (fun col => col.map some)) = m.map (fun col => col.map some) := by
  unfold sanitizePalette2D
  rw [List.map_map]
  apply List.map_congr_left
  intro col hcol
  simp only [Function.comp, List.map_map]
  apply List.map_congr_left
  intro c hc
  simp [(valid_stable c (hvalid col hcol c hc)).2.1]

theorem shareBytesOf_lt (w h : Nat) (flat : List Cell) : ∀ b ∈ shareBytesOf w h flat, b < 256 := by
  intro b hb
  simp only [shareBytesOf, List.mem_map] at hb
  obtain ⟨a, _, rfl⟩ := hb
  exact Nat.mod_lt _ (by decide)

theorem parse_of_rect (m : List (List Int)) (w h : Nat) (hw : 1 ≤ w) (hh : 1 ≤ h)
    (hsize : w * h < 2 ^ 32) (hcols : m.length = w) (hrows : ∀ col ∈ m, col.length = h)
    (hvalid : ∀ col ∈ m, ∀ c ∈ col, c = -1 ∨ (0 ≤ c ∧ c ≤ 63)) :
    parseShareBytesCore (shareBytesOf w h ((List.range h).flatMap (fun y => (List.range w).map
        (fun x => cellAt (m.map (fun col => col.map some)) x y)))) =
      some ⟨w, h, m.map (fun col => col.map some)⟩ := by
  have hw32 : w < 2 ^ 32 := by
    have : w ≤ w * h := Nat.le_mul_of_pos_right _ (by omega)
    omega
  have hh32 : h < 2 ^ 32 := by
    have : h ≤ w * h := Nat.le_mul_of_pos_left _ (by omega)
    omega
  rw [parseShareBytesCore_shareBytesOf w h _ hw32 hh32
    (by rw [grid_length, Nat.mul_comm]) hsize]
  · rw [reshape_grid, grid_eq_of_rect m w h hcols hrows]
  · intro v hv
    simp only [List.mem_flatMap, List.mem_map, List.mem_range] at hv
    obtain ⟨y, hy, x, hx, rfl⟩ := hv
    obtain ⟨col, c, hcol, hc, _, _, hcell⟩ := cellAt_map_some m w h hcols hrows x y hx hy
    rw [hcell]
    exact (valid_stable c (hvalid col hcol c hc)).1

/-- C3. For every width `w ≥ 1`, height `h ≥ 1` (with `w * h` below the
JavaScript array-length bound `2^32`) and every x-major matrix `m` of `w`
columns by `h` cells whose cells are all valid palette IDs (`-1`, `0`,
`1..63`), `templateFromShareCode(shareCodeFromTemplate({width, height, data}))`
returns width `w`, height `h` and a matrix equal to `m` cell for cell, in
`templateCodec.js` and in `codec.js`, given that `Base64URL.dec` undoes
`Base64URL.enc` on byte arrays. -/
theorem share_code_round_trip {κ : Type} (b64 : Base64URL κ)
    (hb64 : ∀ bytes : List Nat, (∀ b ∈ bytes, b < 256) → b64.dec (b64.enc bytes) = bytes)
    (w h : Nat) (m : List (List Int)) (hw : 1 ≤ w) (hh : 1 ≤ h) (hsize : w * h < 2 ^ 32)
    (hcols : m.length = w) (hrows : ∀ col ∈ m, col.length = h)
    (hvalid : ∀ col ∈ m, ∀ c ∈ col, c = -1 ∨ (0 ≤ c ∧ c ≤ 63)) :
    (∃ code, TemplateCodec.shareCodeFromTemplate b64 ⟨w, h, m⟩ = some code ∧
        TemplateCodec.templateFromShareCode b64 code =
          some ⟨w, h, m.map (fun col => col.map some)⟩) ∧
      (∃ code, Codec.shareCodeFromTemplate b64 ⟨w, h, m⟩ = some code ∧
        Codec.templateFromShareCode b64 code =
          some ⟨w, h, m.map (fun col => col.map some)⟩) := by
  have hw32 : w < 2 ^ 32 := by
    have : w ≤ w * h := Nat.le_mul_of_pos_right _ (by omega)
    omega
  have hh32 : h < 2 ^ 32 := by
    have : h ≤ w * h := Nat.le_mul_of_pos_left _ (by omega)
    omega
  have hparse := parse_of_rect m w h hw hh hsize hcols hrows hvalid
  have hens := ensureXMajor_rect m w h hw hcols hrows
  have hflat := flatten_rect m w h hw hcols hrows hsize
  have hnz : ¬ (w % 2 ^ 32 = 0 ∨ h % 2 ^ 32 = 0) := by
    rw [Nat.mod_eq_of_lt hw32, Nat.mod_eq_of_lt hh32]; omega
  generalize (List.range h).flatMap (fun y => (List.range w).map
    (fun x => cellAt (m.map (fun col => col.map some)) x y)) = flat at hparse hflat
  constructor
  · refine ⟨b64.enc (shareBytesOf w h flat), ?_, ?_⟩
    · simp only [TemplateCodec.shareCodeFromTemplate, TemplateCodec.buildShareBytes]
      rw [if_neg hnz, Nat.mod_eq_of_lt hw32, Nat.mod_eq_of_lt hh32, hens]
      simp only [Option.bind_eq_bind, Option.some_bind, allOrThrow_columns_valid m hvalid,
        hflat, Option.map_some', Option.pure_def]
    · simp only [TemplateCodec.templateFromShareCode, TemplateCodec.parseShareBytes]
      rw [hb64 _ (shareBytesOf_lt _ _ _), map_mod_256 _ (shareBytesOf_lt _ _ _), hparse]
      simp only [Option.map_some', sanitize_valid m hvalid]
  · refine ⟨b64.enc (shareBytesOf w h flat), ?_, ?_⟩
    · simp only [Codec.shareCodeFromTemplate, Codec.buildShareBytes]
      rw [if_neg hnz, Nat.mod_eq_of_lt hw32, Nat.mod_eq_of_lt hh32, hens]
      simp only [Option.bind_eq_bind, Option.some_bind, hflat, Option.map_some',
        Option.pure_def]
    · simp only [Codec.templateFromShareCode, Codec.parseShareBytes]
      rw [hb64 _ (shareBytesOf_lt _ _ _), map_mod_256 _ (shareBytesOf_lt _ _ _), hparse]

/-- C3, witness: the 2 x 3 matrix `[[1,1,0],[0,-1,63]]` survives the round
trip. -/
theorem share_code_round_trip_witness :
    (∃ code, TemplateCodec.shareCodeFromTemplate plainBase64 ⟨2, 3, [[1, 1, 0], [0, -1, 63]]⟩ =
          some code ∧
        TemplateCodec.templateFromShareCode plainBase64 code =
          some ⟨2, 3, [[some 1, some 1, some 0], [some 0, some (-1), some 63]]⟩) ∧
      (∃ code, Codec.shareCodeFromTemplate plainBase64 ⟨2, 3, [[1, 1, 0], [0, -1, 63]]⟩ =
          some code ∧
        Codec.templateFromShareCode plainBase64 code =
          some ⟨2, 3, [[some 1, some 1, some 0], [some 0, some (-1), some 63]]⟩) :=
  share_code_round_trip plainBase64 (fun _ _ => rfl) 2 3 [[1, 1, 0], [0, -1, 63]]
    (by decide) (by decide) (by decide) rfl (by decide) (by decide)

/-! ### Charge predictor -/

theorem predict_set (c : ChargeCache) (id : Nat) (u : ChargeEntry) (now : Int) :
    (c.set id u).predict id now =
      some ⟨min u.max (u.base + max 0 ((now - u.lastSync) / 30000)), u.max, 30000⟩ := by
  simp [ChargeCache.predict, ChargeCache.set, ChargeCache.REGEN_MS]

theorem markFromUserInfo_eq_set (c : ChargeCache) (userInfo : UserInfo) (charges : Charges)
    (t0 : Int) (hid : userInfo.id ≠ 0) (hcharges : userInfo.charges = some charges) :
    c.markFromUserInfo (some userInfo) t0 =
      c.set userInfo.id ⟨⌊(charges.count.getD 0 : ℚ)⌋, ⌊(charges.max.getD 0 : ℚ)⌋, t0⟩ := by
  simp [ChargeCache.markFromUserInfo, hid, hcharges]

/-- C4. After `markFromUserInfo` at time `t0` recorded the count `base` and
the cap `max` of an account, `predict(id, t0 + n * 30000 + r)` with
`0 ≤ r < 30000` returns `count = min(max, base + n)` and `max`; the predicted
count is non-decreasing in `now` and never exceeds `max`; for an account that
was never synced `predict` returns `null`. -/
theorem predict_after_sync (c : ChargeCache) (userInfo : UserInfo) (charges : Charges)
    (t0 : Int) (n : Nat) (r : Int)
    (hid : userInfo.id ≠ 0) (hcharges : userInfo.charges = some charges)
    (hr0 : 0 ≤ r) (hr : r < 30000) :
    ((c.markFromUserInfo (some userInfo) t0).predict userInfo.id (t0 + n * 30000 + r) =
        some ⟨min ⌊(charges.max.getD 0 : ℚ)⌋ (⌊(charges.count.getD 0 : ℚ)⌋ + n),
          ⌊(charges.max.getD 0 : ℚ)⌋, 30000⟩) ∧
      (∀ now₁ now₂ : Int, now₁ ≤ now₂ →
        ∃ p₁ p₂, (c.markFromUserInfo (some userInfo) t0).predict userInfo.id now₁ = some p₁ ∧
          (c.markFromUserInfo (some userInfo) t0).predict userInfo.id now₂ = some p₂ ∧
          p₁.count ≤ p₂.count ∧ p₂.count ≤ ⌊(charges.max.getD 0 : ℚ)⌋) ∧
      (∀ (c' : ChargeCache) (id : Nat) (now : Int), c'._m id = none → c'.predict id now = none) := by
  rw [markFromUserInfo_eq_set c userInfo charges t0 hid hcharges]
  refine ⟨?_, ?_, ?_⟩
  · rw [predict_set]
    have hg : (t0 + (n : Int) * 30000 + r - t0) / 30000 = n := by omega
    simp only [hg]
    have : max (0 : Int) (n : Int) = n := max_eq_right (by omega)
    rw [this]
  · intro now₁ now₂ hle
    refine ⟨_, _, predict_set _ _ _ _, predict_set _ _ _ _, ?_, ?_⟩
    · simp only
      have hdiv : (now₁ - t0) / 30000 ≤ (now₂ - t0) / 30000 := by omega
      have hmax : max 0 ((now₁ - t0) / 30000) ≤ max 0 ((now₂ - t0) / 30000) :=
        max_le_max (le_refl _) hdiv
      exact min_le_min (le_refl _) (by omega)
    · exact min_le_left _ _
  · intro c' id now hnone
    simp [ChargeCache.predict, hnone]

/-- C4, witness: an account synced at time 1000 with count 3 and cap 10 is
predicted at `1000 + 2 * 30000 + 500` to hold `min 10 (3 + 2) = 5`. -/
theorem predict_after_sync_witness :
    (ChargeCache.empty.markFromUserInfo (some ⟨7, 0, some ⟨some 3, some 10⟩, 0⟩) 1000).predict 7
        (1000 + (2 : Nat) * 30000 + 500) = some ⟨5, 10, 30000⟩ := by
  have h := (predict_after_sync ChargeCache.empty ⟨7, 0, some ⟨some 3, some 10⟩, 0⟩
    ⟨some 3, some 10⟩ 1000 2 500 (by decide) rfl (by decide) (by decide)).1
  simpa using h

theorem consume_eq_set (c : ChargeCache) (id : Nat) (u : ChargeEntry) (n now : Int)
    (hu : c._m id = some u) :
    c.consume id n now =
      c.set id ⟨max 0 (min u.max (u.base + max 0 ((now - u.lastSync) / 30000)) - n), u.max,
        now - (now - u.lastSync).tmod 30000⟩ := by
  simp [ChargeCache.consume, hu, ChargeCache.REGEN_MS]

theorem set_get (c : ChargeCache) (id : Nat) (u : ChargeEntry) :
    (c.set id u)._m id = some u := by
  simp [ChargeCache.set]

/-- C5. For a synced account with `max ≥ 0`, every `n ≥ 0` and every `now` not
earlier than the stored `lastSync`: with `avail` the count `predict(id, now)`
gives before the call, `predict(id, now)` right after `consume(id, n, now)`
gives `max(0, avail - n)`; the stored count is not negative, and no later
prediction is. -/
theorem consume_then_predict (c : ChargeCache) (id : Nat) (u : ChargeEntry) (n now : Int)
    (hu : c._m id = some u) (hmax : 0 ≤ u.max) (hn : 0 ≤ n) (hnow : u.lastSync ≤ now) :
    ∃ before after stored,
      c.predict id now = some before ∧
      (c.consume id n now).predict id now = some after ∧
      (c.consume id n now)._m id = some stored ∧
      after.count = max 0 (before.count - n) ∧
      0 ≤ stored.base ∧
      ∀ t : Int, ∃ p, (c.consume id n now).predict id t = some p ∧ 0 ≤ p.count := by
  have hbefore : c.predict id now =
      some ⟨min u.max (u.base + max 0 ((now - u.lastSync) / 30000)), u.max, 30000⟩ := by
    simp [ChargeCache.predict, hu, ChargeCache.REGEN_MS]
  rw [consume_eq_set c id u n now hu]
  refine ⟨_, _, _, hbefore, predict_set _ _ _ _, set_get _ _ _, ?_, ?_, ?_⟩
  · simp only
    have hd : 0 ≤ now - u.lastSync := by omega
    rw [Int.tmod_eq_emod hd (by decide)]
    have hg : (now - (now - (now - u.lastSync) % 30000)) / 30000 = 0 := by omega
    rw [hg]
    have havail : min u.max (u.base + max 0 ((now - u.lastSync) / 30000)) ≤ u.max :=
      min_le_left _ _
    simp only [max_self, add_zero]
    apply min_eq_right
    apply max_le hmax
    omega
  · exact le_max_left _ _
  · intro t
    refine ⟨_, predict_set _ _ _ _, ?_⟩
    simp only
    apply le_min hmax
    have h1 : (0 : Int) ≤ max 0 (min u.max (u.base + max 0 ((now - u.lastSync) / 30000)) - n) :=
      le_max_left _ _
    have h2 : (0 : Int) ≤
        max 0 ((t - (now - (now - u.lastSync).tmod 30000)) / 30000) := le_max_left _ _
    omega

/-- C5, witness: an account holding `min 10 (4 + 1) = 5` charges at time
31000 holds `max 0 (5 - 3) = 2` right after consuming 3. -/
theorem consume_then_predict_witness :
    ∃ before after stored,
      (ChargeCache.empty.set 7 ⟨4, 10, 0⟩).predict 7 31000 = some before ∧
      ((ChargeCache.empty.set 7 ⟨4, 10, 0⟩).consume 7 3 31000).predict 7 31000 = some after ∧
      ((ChargeCache.empty.set 7 ⟨4, 10, 0⟩).consume 7 3 31000)._m 7 = some stored ∧
      after.count = max 0 (before.count - 3) ∧
      0 ≤ stored.base ∧
      ∀ t : Int, ∃ p,
        ((ChargeCache.empty.set 7 ⟨4, 10, 0⟩).consume 7 3 31000).predict 7 t = some p ∧
          0 ≤ p.count :=
  consume_then_predict (ChargeCache.empty.set 7 ⟨4, 10, 0⟩) 7 ⟨4, 10, 0⟩ 3 31000
    (set_get _ _ _) (by decide) (by decide) (by decide)

/-! ### Classification of failed paint requests -/

/-- C6, counterexample. A one-pixel batch answered with status `502` (a
server-error status, no error string) makes `_executePaint` raise the
unexpected-response error without any backoff, where the specified
classification returns `0` painted after 40 s; and a batch answered with
status `403` and error `Unauthorized` raises the refresh-token error, where
the specified classification raises the unexpected-response error. -/
theorem executePaint_classification_counterexample :
    ((_executePaint scenarioClient (fun _ _ _ => ⟨502, none, none, false, none⟩) 0 0
          ⟨[1], [0, 0], "t"⟩).result = .error .unexpected ∧
        (_executePaint scenarioClient (fun _ _ _ => ⟨502, none, none, false, none⟩) 0 0
          ⟨[1], [0, 0], "t"⟩).sleptMs = 0 ∧
        classifyAsSpecified ⟨502, none, none, false, none⟩ = (40000, .ok 0)) ∧
      ((_executePaint scenarioClient
          (fun _ _ _ => ⟨403, none, some "Unauthorized", false, none⟩) 0 0
          ⟨[1], [0, 0], "t"⟩).result = .error .refreshToken ∧
        classifyAsSpecified ⟨403, none, some "Unauthorized", false, none⟩ =
          (0, .error .unexpected)) := by
  exact ⟨⟨rfl, rfl, rfl⟩, rfl, rfl⟩

/-- C6, amended. For a non-empty paint batch whose response is not a full
success, `_executePaint` posts the request, leaves the client unchanged and
its outcome is a function of the response with this precedence: `401` with
error `Unauthorized` raises `NetworkError`; `403` with error `refresh` or
`Unauthorized` raises the refresh-token error; `451` with a suspension flag
raises `SuspensionError` with the response's `durationMs` (`0` when absent);
status `500` raises nothing and returns `0` painted after the 40 s backoff;
`429` or an error string containing `Error 1015` raises `NetworkError`; every
other response, the other `5xx` statuses included, raises the
unexpected-response error. Only the `500` case sleeps. -/
theorem executePaint_failure_classification (w : WPlacer)
    (post : Nat → Nat → PaintBody → PaintResponse) (tx ty : Nat) (body : PaintBody)
    (hne : body.colors ≠ [])
    (hfail : (post tx ty body).painted ≠ some (body.colors.length : Int)) :
    (_executePaint w post tx ty body).posted = true ∧
      (_executePaint w post tx ty body).client.tiles = w.tiles ∧
      ((_executePaint w post tx ty body).sleptMs, (_executePaint w post tx ty body).result) =
        (if (post tx ty body).status = 401 ∧ (post tx ty body).error = some "Unauthorized" then
          (0, .error .network)
        else if (post tx ty body).status = 403 ∧
            ((post tx ty body).error = some "refresh" ∨
              (post tx ty body).error = some "Unauthorized") then
          (0, .error .refreshToken)
        else if (post tx ty body).status = 451 ∧ (post tx ty body).suspension = true then
          (0, .error (.suspension ((post tx ty body).durationMs.getD 0)))
        else if (post tx ty body).status = 500 then (40000, .ok 0)
        else if (post tx ty body).status = 429 ∨
            (∃ e, (post tx ty body).error = some e ∧ "Error 1015".data <:+: e.data) then
          (0, .error .network)
        else (0, .error .unexpected)) := by
  have hlen : body.colors.length ≠ 0 := fun h => hne (List.length_eq_zero.mp h)
  have h1015 : errorIncludes1015 (post tx ty body).error = true ↔
      ∃ e, (post tx ty body).error = some e ∧ "Error 1015".data <:+: e.data := by
    cases herr : (post tx ty body).error with
    | none => simp [errorIncludes1015]
    | some e =>
      simp only [errorIncludes1015, includesError1015, Bool.and_eq_true, decide_eq_true_eq,
        Option.some.injEq, exists_eq_left', ne_eq]
      constructor
      · exact fun h => h.2
      · intro h
        refine ⟨?_, h⟩
        intro he
        subst he
        revert h
        decide
  simp only [_executePaint, hlen, if_false, hfail, and_false, classifyFailure,
    HTTP_STATUS.UNAUTH, HTTP_STATUS.FORBIDDEN, HTTP_STATUS.UNAVAILABLE_LEGAL,
    HTTP_STATUS.SRV_ERR, HTTP_STATUS.TOO_MANY, MS.FORTY_SEC, h1015, true_and]

/-- C6, witness: a one-pixel batch answered with status `500` returns `0`
painted after 40000 ms. -/
theorem executePaint_failure_classification_witness :
    (_executePaint scenarioClient (fun _ _ _ => ⟨500, none, none, false, none⟩) 0 0
        ⟨[1], [0, 0], "t"⟩).sleptMs = 40000 ∧
      (_executePaint scenarioClient (fun _ _ _ => ⟨500, none, none, false, none⟩) 0 0
        ⟨[1], [0, 0], "t"⟩).result = .ok 0 := by
  have h := (executePaint_failure_classification scenarioClient
    (fun _ _ _ => ⟨500, none, none, false, none⟩) 0 0 ⟨[1], [0, 0], "t"⟩ (by decide)
    (by decide)).2.2
  simp only [Nat.reduceEqDiff, false_and, if_false, if_true] at h
  exact ⟨congrArg Prod.fst h, congrArg Prod.snd h⟩

/-! ### The tile cache after a successful paint request -/

theorem cellMismatch_eq_decision (w : WPlacer) (s : Nat) (f : Option Int) (x y : Nat) :
    cellMismatch w s f x y = cellDecision w s f x y (remoteRead w x y) := by
  unfold cellMismatch cellDecision remoteRead Tile.read
  cases hT : w.tileAt (targetTile w.coords.startX w.coords.startPx x)
      (targetTile w.coords.startY w.coords.startPy y) with
  | none => simp [hT]
  | some tile =>
    cases hC : tile.data (localPixel w.coords.startPx x) with
    | none => simp [hT, hC]
    | some column => simp [hT, hC]

theorem cellDecision_shape (w : WPlacer) (s : Nat) (f : Option Int) (x y : Nat)
    (remote : Option (Option Int)) (r : List Mismatch)
    (h : cellDecision w s f x y remote = some r) :
    r = [] ∨ ∃ e, r = [e] ∧ remote ≠ none ∧
      e.tx = targetTile w.coords.startX w.coords.startPx x ∧
      e.ty = targetTile w.coords.startY w.coords.startPy y ∧
      e.px = localPixel w.coords.startPx x ∧ e.py = localPixel w.coords.startPy y ∧
      e.localX = x ∧ e.localY = y ∧
      cellDecision w s f x y (some (some e.color)) = some [] := by
  unfold cellDecision at h ⊢
  by_cases hskip : s = 0 ∨ (x + y) % s ≠ 0
  · simp only [hskip, if_true, Option.some.injEq] at h
    exact Or.inl h.symm
  simp only [hskip, if_false] at h ⊢
  cases hcol : w.template.data[x]? with
  | none => simp [hcol] at h
  | some column =>
  simp only [hcol] at h ⊢
  by_cases hf : f ≠ none ∧ column[y]? ≠ f
  · rw [if_pos hf] at h
    simp only [Option.some.injEq] at h
    exact Or.inl h.symm
  rw [if_neg hf] at h
  simp only [if_neg hf]
  cases remote with
  | none =>
    simp only [Option.some.injEq] at h
    exact Or.inl h.symm
  | some canvas =>
  cases hc : column[y]? with
  | none =>
    simp only [hc, reduceCtorEq, false_and, and_false, if_false, Option.some.injEq] at h
    exact Or.inl h.symm
  | some c =>
  simp only [hc, Option.some.injEq] at h ⊢
  by_cases hz : c = 0
  · subst hz
    simp only [true_and, Int.reduceNeg, reduceCtorEq, false_and, if_false, lt_self_iff_false,
      (by decide : ¬ ((0 : Int) = -1))] at h ⊢
    split_ifs at h
    all_goals
      simp only [Option.some.injEq] at h
      subst h
      first
        | exact Or.inl rfl
        | exact Or.inr ⟨_, rfl, by simp, rfl, rfl, rfl, rfl, rfl, rfl, by simp⟩
  by_cases hm : c = -1
  · subst hm
    simp only [Int.reduceNeg, true_and, and_false, if_false, Int.reduceNeg,
      (by decide : ¬ ((-1 : Int) = 0)), (by decide : ¬ ((0 : Int) < -1))] at h ⊢
    split_ifs at h
    all_goals
      simp only [Option.some.injEq] at h
      subst h
      first
        | exact Or.inl rfl
        | exact Or.inr ⟨_, rfl, by simp, rfl, rfl, rfl, rfl, rfl, rfl, by simp⟩
  simp only [hz, hm, false_and, and_false, if_false] at h ⊢
  by_cases hpos : 0 < c
  · simp only [hpos, if_true] at h ⊢
    cases hhas : hasColor w.userInfo c with
    | none => simp [hhas] at h
    | some b =>
      cases b with
      | false =>
        simp only [hhas, Option.some.injEq] at h
        exact Or.inl h.symm
      | true =>
        simp only [hhas] at h ⊢
        split_ifs at h
        all_goals
          simp only [Option.some.injEq] at h
          subst h
          first
            | exact Or.inl rfl
            | exact Or.inr ⟨_, rfl, by simp, rfl, rfl, rfl, rfl, rfl, rfl, by simp [hz]⟩
  · simp only [hpos, if_false, Option.some.injEq] at h
    exact Or.inl h.symm

theorem read_set (t : Tile) (px py : Nat) (c : Int) (x y : Nat) :
    (t.set px py c).read x y =
      if x = px ∧ y = py then (t.data px).map (fun _ => some c) else t.read x y := by
  unfold Tile.set Tile.read
  cases hcol : t.data px with
  | none =>
    by_cases hx : x = px
    · subst hx; simp [hcol]
    · simp [hx]
  | some column =>
    by_cases hx : x = px
    · subst hx
      by_cases hy : y = py
      · simp [hy]
      · simp [hy, hcol]
    · simp [hx]

theorem set_column_isSome (t : Tile) (px py : Nat) (c : Int) (x : Nat) :
    ((t.set px py c).data x).isSome = (t.data x).isSome := by
  unfold Tile.set
  cases hcol : t.data px with
  | none => rfl
  | some column =>
    by_cases hx : x = px
    · subst hx; simp [hcol]
    · simp [hx]

theorem paintAll_cons (t : Tile) (c : Int) (colors : List Int) (px py : Nat)
    (coords : List Nat) :
    t.paintAll (c :: colors) (px :: py :: coords) = (t.set px py c).paintAll colors coords := by
  have hidx : ∀ i : Nat, (px :: py :: coords)[(i + 1) * 2]? = coords[i * 2]? ∧
      (px :: py :: coords)[(i + 1) * 2 + 1]? = coords[i * 2 + 1]? := by
    intro i
    have e : (i + 1) * 2 = i * 2 + 1 + 1 := by omega
    rw [e]
    simp only [List.getElem?_cons_succ, and_self]
  unfold Tile.paintAll
  rw [List.length_cons, List.range_succ_eq_map, List.foldl_cons, List.foldl_map]
  simp only [Nat.zero_mul, List.getElem?_cons_zero, Nat.zero_add, List.getElem?_cons_succ,
    Nat.succ_eq_add_one, (hidx _).1, (hidx _).2]

theorem paintAll_entries (t : Tile) (S : List Mismatch) :
    t.paintAll (S.map (fun e => e.color)) (S.flatMap (fun e => [e.px, e.py])) =
      S.foldl (fun tile e => tile.set e.px e.py e.color) t := by
  induction S generalizing t with
  | nil => rfl
  | cons e S ih =>
    simp only [List.map_cons, List.flatMap_cons, List.cons_append, List.nil_append,
      List.foldl_cons]
    rw [paintAll_cons, ih]

theorem set_data_map_const (t : Tile) (px py : Nat) (c : Int) (x : Nat) (v : Option Int) :
    ((t.set px py c).data x).map (fun _ => v) = (t.data x).map (fun _ => v) := by
  unfold Tile.set
  cases hcol : t.data px with
  | none => rfl
  | some column =>
    by_cases hx : x = px
    · subst hx; simp [hcol]
    · simp [hx]

theorem read_foldl_other (S : List Mismatch) (t : Tile) (x y : Nat)
    (h : ∀ e ∈ S, ¬ (e.px = x ∧ e.py = y)) :
    (S.foldl (fun tile e => tile.set e.px e.py e.color) t).read x y = t.read x y := by
  induction S generalizing t with
  | nil => rfl
  | cons e S ih =>
    rw [List.foldl_cons, ih _ (fun e' he' => h e' (List.mem_cons_of_mem _ he')), read_set]
    have := h e (List.mem_cons_self _ _)
    rw [if_neg (fun hh => this ⟨hh.1.symm, hh.2.symm⟩)]

theorem read_foldl_mem (S : List Mismatch) (t : Tile) (x y : Nat) (c : Int)
    (hex : ∃ e ∈ S, e.px = x ∧ e.py = y)
    (hfun : ∀ e ∈ S, e.px = x → e.py = y → e.color = c) :
    (S.foldl (fun tile e => tile.set e.px e.py e.color) t).read x y =
      (t.data x).map (fun _ => some c) := by
  induction S generalizing t with
  | nil => obtain ⟨e, he, _⟩ := hex; exact absurd he (List.not_mem_nil _)
  | cons e0 S ih =>
    rw [List.foldl_cons]
    by_cases hS : ∃ e ∈ S, e.px = x ∧ e.py = y
    · rw [ih _ hS (fun e he => hfun e (List.mem_cons_of_mem _ he)), set_data_map_const]
    · have hnone : ∀ e ∈ S, ¬ (e.px = x ∧ e.py = y) := fun e he hh => hS ⟨e, he, hh⟩
      obtain ⟨e, he, hpx, hpy⟩ := hex
      have he0 : e = e0 := by
        rcases List.mem_cons.mp he with h | h
        · exact h
        · exact absurd ⟨hpx, hpy⟩ (hnone e h)
      subst he0
      rw [read_foldl_other S _ x y hnone, read_set, if_pos ⟨hpx.symm, hpy.symm⟩,
        hfun e (List.mem_cons_self _ _) hpx hpy, hpx]

theorem lookup_modifyTile (tiles : List ((Nat × Nat) × Tile)) (key k : Nat × Nat)
    (f : Tile → Tile) :
    (modifyTile tiles key f).lookup k =
      if k = key then (tiles.lookup key).map f else tiles.lookup k := by
  induction tiles with
  | nil => simp [modifyTile]
  | cons kt rest ih =>
    obtain ⟨k0, t0⟩ := kt
    simp only [modifyTile]
    by_cases h0 : k0 = key
    · subst h0
      by_cases hk : k = k0
      · subst hk; simp [List.lookup]
      · have hb : (k == k0) = false := by simpa using hk
        simp [List.lookup, hk, hb]
    · simp only [h0, if_false, List.lookup]
      by_cases hk : k = k0
      · subst hk
        have : ¬ k = key := h0
        simp [this]
      · have hb : (k == k0) = false := by simpa using hk
        have hb' : (key == k0) = false := by simpa using (fun e : key = k0 => h0 e.symm)
        simp only [hb, hb', ih]

theorem foldlM_append_inv {α β : Type} (f : α → Option (List β)) (l : List α)
    (init out : List β)
    (h : l.foldlM (fun acc a => (f a).map (acc ++ ·)) init = some out) :
    ∀ a ∈ l, f a = some ((f a).getD []) := by
  induction l generalizing init with
  | nil => intro a ha; exact absurd ha (List.not_mem_nil _)
  | cons a0 l ih =>
    intro a ha
    rw [List.foldlM_cons] at h
    cases hf : f a0 with
    | none => simp [hf] at h
    | some r =>
      simp only [hf, Option.map_some', Option.bind_eq_bind, Option.some_bind] at h
      rcases List.mem_cons.mp ha with rfl | h'
      · simp [hf]
      · exact ih _ h a h'

theorem foldlM_rows_inv {α β : Type} (F : α → List β → Option (List β)) (l : List α)
    (init out : List β) (h : l.foldlM (fun acc a => F a acc) init = some out) :
    ∀ a ∈ l, ∃ acc r, F a acc = some r := by
  induction l generalizing init with
  | nil => intro a ha; exact absurd ha (List.not_mem_nil _)
  | cons a0 l ih =>
    intro a ha
    rw [List.foldlM_cons] at h
    cases hf : F a0 init with
    | none => simp [hf] at h
    | some r =>
      simp only [hf, Option.bind_eq_bind, Option.some_bind] at h
      rcases List.mem_cons.mp ha with rfl | h'
      · exact ⟨init, r, hf⟩
      · exact ih _ h a h'

theorem getMismatchedPixels_cells (w : WPlacer) (s : Nat) (f : Option Int) (L : List Mismatch)
    (h : _getMismatchedPixels w s f = some L) :
    (∀ y, y < w.template.height → ∀ x, x < w.template.width →
        cellMismatch w s f x y = some ((cellMismatch w s f x y).getD [])) ∧
      L = (List.range w.template.height).flatMap (fun y =>
        (List.range w.template.width).flatMap (fun x => (cellMismatch w s f x y).getD [])) := by
  have hcells : ∀ y, y < w.template.height → ∀ x, x < w.template.width →
      cellMismatch w s f x y = some ((cellMismatch w s f x y).getD []) := by
    intro y hy x hx
    obtain ⟨acc, r, hrow⟩ := foldlM_rows_inv (fun y acc => mismatchRow w s f y acc) _ _ _ h y
      (List.mem_range.mpr hy)
    exact foldlM_append_inv (fun x => cellMismatch w s f x y) _ _ _ hrow x
      (List.mem_range.mpr hx)
  refine ⟨hcells, ?_⟩
  have hall : _getMismatchedPixels w s f = some ((List.range w.template.height).flatMap (fun y =>
      (List.range w.template.width).flatMap (fun x => (cellMismatch w s f x y).getD []))) := by
    unfold _getMismatchedPixels
    rw [foldlM_rows_some (fun y acc => mismatchRow w s f y acc)
      (fun y => (List.range w.template.width).flatMap (fun x =>
        (cellMismatch w s f x y).getD []))]
    · simp
    · intro y hy acc
      unfold mismatchRow
      apply foldlM_append_some
      intro x hx
      exact hcells y (List.mem_range.mp hy) x (List.mem_range.mp hx)
  rw [h] at hall
  exact Option.some.inj hall

theorem executePaint_success_client (w : WPlacer)
    (post : Nat → Nat → PaintBody → PaintResponse) (tx ty : Nat) (S : List Mismatch)
    (token : String) (hne : S ≠ [])
    (hok : (post tx ty (entriesBody S token)).painted = some (S.length : Int)) :
    _executePaint w post tx ty (entriesBody S token) =
      ⟨paintedClient w tx ty S, true, 0, .ok S.length⟩ := by
  have hlen : S.length ≠ 0 := fun h => hne (List.length_eq_zero.mp h)
  have hne0 : ¬ ((S.length : Int) = 0) := by exact_mod_cast hlen
  have hfun : (fun tile : Tile => tile.paintAll (entriesBody S token).colors
      (entriesBody S token).coords) =
      (fun tile => S.foldl (fun tile e => tile.set e.px e.py e.color) tile) := by
    funext tile
    exact paintAll_entries tile S
  unfold _executePaint
  simp only [entriesBody, List.length_map, hlen, if_false] at hok ⊢
  simp only [hok, ne_eq, reduceCtorEq, not_false_eq_true, Option.some.injEq, hne0, and_self,
    if_true]
  simp only [entriesBody] at hfun
  rw [hfun]
  rfl

theorem tileAt_paintedClient (w : WPlacer) (tx ty : Nat) (S : List Mismatch) (tx' ty' : Nat) :
    (paintedClient w tx ty S).tileAt tx' ty' =
      if (tx', ty') = (tx, ty) then
        (w.tileAt tx ty).map (fun tile => S.foldl (fun tile e => tile.set e.px e.py e.color) tile)
      else w.tileAt tx' ty' := by
  unfold paintedClient WPlacer.tileAt
  exact lookup_modifyTile _ _ _ _

theorem remote_coords_inj (start startP x x' : Nat)
    (ht : targetTile start startP x = targetTile start startP x')
    (hl : localPixel startP x = localPixel startP x') : x = x' := by
  unfold targetTile at ht
  unfold localPixel at hl
  omega

theorem cellMismatch_paintedClient (w : WPlacer) (s : Nat) (f : Option Int) (tx ty : Nat)
    (S : List Mismatch)
    (hS : ∀ e ∈ S, e.tx = tx ∧ e.ty = ty ∧
      ∃ x y, cellMismatch w s f x y = some [e])
    (x y : Nat) (r : List Mismatch) (hr : cellMismatch w s f x y = some r) :
    cellMismatch (paintedClient w tx ty S) s f x y = some (r.filter (fun e => e ∉ S)) := by
  rw [cellMismatch_eq_decision] at hr ⊢
  have hdec : ∀ remote, cellDecision (paintedClient w tx ty S) s f x y remote =
      cellDecision w s f x y remote := fun _ => rfl
  rw [hdec]
  -- every entry of `S` sits where its cell says
  have hSpos : ∀ e ∈ S, ∃ x' y', cellDecision w s f x' y' (remoteRead w x' y') = some [e] ∧
      e.tx = targetTile w.coords.startX w.coords.startPx x' ∧
      e.ty = targetTile w.coords.startY w.coords.startPy y' ∧
      e.px = localPixel w.coords.startPx x' ∧ e.py = localPixel w.coords.startPy y' := by
    intro e he
    obtain ⟨_, _, x', y', hcell⟩ := hS e he
    rw [cellMismatch_eq_decision] at hcell
    rcases cellDecision_shape w s f x' y' _ _ hcell with h | ⟨e', he', _, h1, h2, h3, h4, _⟩
    · exact absurd h (by simp)
    · have : e = e' := by simpa using he'
      subst this
      exact ⟨x', y', hcell, h1, h2, h3, h4⟩
  -- an entry of `S` painted over this cell is the entry of this cell
  have hsame : ∀ e ∈ S, targetTile w.coords.startX w.coords.startPx x = tx →
      targetTile w.coords.startY w.coords.startPy y = ty →
      e.px = localPixel w.coords.startPx x → e.py = localPixel w.coords.startPy y →
      r = [e] := by
    intro e he htx hty hpx hpy
    obtain ⟨x', y', hcell, h1, h2, h3, h4⟩ := hSpos e he
    obtain ⟨he1, he2, _⟩ := hS e he
    have hx : x' = x := remote_coords_inj _ _ _ _ (by rw [← h1, he1, htx]) (by rw [← h3, hpx])
    have hy : y' = y := remote_coords_inj _ _ _ _ (by rw [← h2, he2, hty]) (by rw [← h4, hpy])
    subst hx hy
    rw [hcell] at hr
    exact (Option.some.inj hr).symm
  unfold remoteRead at hr ⊢
  have hcoords : (paintedClient w tx ty S).coords = w.coords := rfl
  rw [hcoords, tileAt_paintedClient]
  by_cases hkey : (targetTile w.coords.startX w.coords.startPx x,
      targetTile w.coords.startY w.coords.startPy y) = (tx, ty)
  · have htx : targetTile w.coords.startX w.coords.startPx x = tx := (Prod.mk.inj hkey).1
    have hty : targetTile w.coords.startY w.coords.startPy y = ty := (Prod.mk.inj hkey).2
    rw [if_pos hkey]
    rw [htx, hty] at hr
    cases htile : w.tileAt tx ty with
    | none =>
      rw [htile] at hr
      simp only [Option.map_none', Option.none_bind] at hr ⊢
      rcases cellDecision_shape w s f x y _ _ hr with h | ⟨_, _, hne, _⟩
      · rw [hr, h]; rfl
      · exact absurd rfl hne
    | some tile =>
      rw [htile] at hr
      simp only [Option.map_some', Option.some_bind] at hr ⊢
      by_cases hex : ∃ e ∈ S, e.px = localPixel w.coords.startPx x ∧
          e.py = localPixel w.coords.startPy y
      · obtain ⟨e, he, hpx, hpy⟩ := hex
        have hre : r = [e] := hsame e he htx hty hpx hpy
        subst hre
        have hfun : ∀ e' ∈ S, e'.px = localPixel w.coords.startPx x →
            e'.py = localPixel w.coords.startPy y → e'.color = e.color := by
          intro e' he' hpx' hpy'
          have := hsame e' he' htx hty hpx' hpy'
          have : e = e' := by simpa using this
          rw [this]
        rw [read_foldl_mem S tile _ _ e.color ⟨e, he, hpx, hpy⟩ hfun]
        rcases cellDecision_shape w s f x y _ _ hr with h | ⟨e', he', hne, _, _, _, _, _, _, hclear⟩
        · exact absurd h (by simp)
        · have hee : e = e' := by simpa using he'
          subst hee
          have hsome : (tile.data (localPixel w.coords.startPx x)).isSome := by
            unfold Tile.read at hne
            cases hd : tile.data (localPixel w.coords.startPx x) with
            | none => rw [hd] at hne; exact absurd rfl hne
            | some _ => rfl
          obtain ⟨col, hcol⟩ := Option.isSome_iff_exists.mp hsome
          rw [hcol, Option.map_some', hclear]
          simp [he]
      · have hnone : ∀ e ∈ S, ¬ (e.px = localPixel w.coords.startPx x ∧
            e.py = localPixel w.coords.startPy y) := fun e he hh => hex ⟨e, he, hh⟩
        rw [read_foldl_other S tile _ _ hnone, hr]
        congr 1
        symm
        rw [List.filter_eq_self]
        intro e he
        simp only [decide_eq_true_eq]
        intro heS
        rcases cellDecision_shape w s f x y _ _ hr with h | ⟨e', he', _, _, _, h3, h4, _⟩
        · rw [h] at he; exact absurd he (List.not_mem_nil _)
        · rw [he'] at he
          have : e = e' := by simpa using he
          subst this
          exact hnone e heS ⟨h3, h4⟩
  · rw [if_neg hkey, hr]
    congr 1
    symm
    rw [List.filter_eq_self]
    intro e he
    simp only [decide_eq_true_eq]
    intro heS
    rcases cellDecision_shape w s f x y _ _ hr with h | ⟨e', he', _, h1, h2, _⟩
    · rw [h] at he; exact absurd he (List.not_mem_nil _)
    · rw [he'] at he
      have : e = e' := by simpa using he
      subst this
      obtain ⟨he1, he2, _⟩ := hS e heS
      exact hkey (by rw [← h1, ← h2, he1, he2])

theorem mem_getMismatchedPixels_cell (w : WPlacer) (s : Nat) (f : Option Int)
    (L : List Mismatch) (hL : _getMismatchedPixels w s f = some L) (e : Mismatch) (he : e ∈ L) :
    ∃ x y, cellMismatch w s f x y = some [e] := by
  obtain ⟨hcells, hflat⟩ := getMismatchedPixels_cells w s f L hL
  rw [hflat] at he
  simp only [List.mem_flatMap, List.mem_range] at he
  obtain ⟨y, hy, x, hx, hmem⟩ := he
  have hcell := hcells y hy x hx
  refine ⟨x, y, ?_⟩
  generalize (cellMismatch w s f x y).getD [] = r at hmem hcell
  have hdec := hcell
  rw [cellMismatch_eq_decision] at hdec
  rcases cellDecision_shape w s f x y _ _ hdec with h | ⟨e', he', _⟩
  · rw [h] at hmem; exact absurd hmem (List.not_mem_nil _)
  · rw [he'] at hmem
    have : e = e' := by simpa using hmem
    subst this
    rw [hcell, he']

/-- C7. When the paint request for the entries `S` of tile `(tx, ty)` of a
mismatch list (stride 1, no filter) is answered as fully painted,
`_executePaint` leaves every other cached tile unchanged, sets the cached
cell of every submitted pixel to the submitted colour and leaves every other
cell of that tile unchanged; and `_getMismatchedPixels` recomputed right
afterwards returns the original list with exactly the entries of `S`
removed. -/
theorem executePaint_success_updates_cache (w : WPlacer)
    (post : Nat → Nat → PaintBody → PaintResponse) (tx ty : Nat) (S L : List Mismatch)
    (token : String)
    (hL : _getMismatchedPixels w 1 none = some L)
    (hS : ∀ e ∈ S, e ∈ L ∧ e.tx = tx ∧ e.ty = ty) (hne : S ≠ [])
    (hok : (post tx ty (entriesBody S token)).painted = some (S.length : Int)) :
    (_executePaint w post tx ty (entriesBody S token)).result = .ok S.length ∧
      (∀ tx' ty', (tx', ty') ≠ (tx, ty) →
        (_executePaint w post tx ty (entriesBody S token)).client.tileAt tx' ty' =
          w.tileAt tx' ty') ∧
      (∀ tile, w.tileAt tx ty = some tile →
        ∃ tile', (_executePaint w post tx ty (entriesBody S token)).client.tileAt tx ty =
            some tile' ∧
          (∀ e ∈ S, tile'.read e.px e.py = some (some e.color)) ∧
          (∀ px py, (∀ e ∈ S, ¬ (e.px = px ∧ e.py = py)) →
            tile'.read px py = tile.read px py)) ∧
      _getMismatchedPixels (_executePaint w post tx ty (entriesBody S token)).client 1 none =
        some (L.filter (fun e => e ∉ S)) := by
  rw [executePaint_success_client w post tx ty S token hne hok]
  have hS' : ∀ e ∈ S, e.tx = tx ∧ e.ty = ty ∧ ∃ x y, cellMismatch w 1 none x y = some [e] :=
    fun e he => ⟨(hS e he).2.1, (hS e he).2.2,
      mem_getMismatchedPixels_cell w 1 none L hL e (hS e he).1⟩
  refine ⟨rfl, ?_, ?_, ?_⟩
  · intro tx' ty' hkey
    simp only [tileAt_paintedClient, if_neg hkey]
  · intro tile htile
    refine ⟨S.foldl (fun tile e => tile.set e.px e.py e.color) tile,
      by simp only [tileAt_paintedClient, if_true, htile, Option.map_some'], ?_, ?_⟩
    · intro e he
      obtain ⟨htx, hty, x, y, hcell⟩ := hS' e he
      have hdec := hcell
      rw [cellMismatch_eq_decision] at hdec
      rcases cellDecision_shape w 1 none x y _ _ hdec with h | ⟨e', he', hne', h1, h2, h3, h4, _⟩
      · exact absurd h (by simp)
      · have hee : e = e' := by simpa using he'
        subst hee
        have hfun : ∀ e' ∈ S, e'.px = e.px → e'.py = e.py → e'.color = e.color := by
          intro e' he' hpx hpy
          obtain ⟨htx', hty', x', y', hcell'⟩ := hS' e' he'
          have hdec' := hcell'
          rw [cellMismatch_eq_decision] at hdec'
          rcases cellDecision_shape w 1 none x' y' _ _ hdec' with
            h | ⟨e'', he'', _, g1, g2, g3, g4, _⟩
          · exact absurd h (by simp)
          · have hee' : e' = e'' := by simpa using he''
            subst hee'
            have hx : x' = x := remote_coords_inj _ _ _ _
              (by rw [← g1, ← h1, htx, htx']) (by rw [← g3, ← h3, hpx])
            have hy : y' = y := remote_coords_inj _ _ _ _
              (by rw [← g2, ← h2, hty, hty']) (by rw [← g4, ← h4, hpy])
            subst hx hy
            rw [hcell] at hcell'
            have : e = e' := by simpa using hcell'
            rw [this]
        rw [read_foldl_mem S tile e.px e.py e.color ⟨e, he, rfl, rfl⟩ hfun]
        unfold remoteRead at hne'
        rw [← h1, ← h2, htx, hty, htile, ← h3, ← h4] at hne'
        simp only [Option.some_bind, Tile.read] at hne'
        cases hd : tile.data e.px with
        | none => rw [hd] at hne'; exact absurd rfl hne'
        | some _ => rfl
    · intro px py hnone
      exact read_foldl_other S tile px py hnone
  · have htemplate : (paintedClient w tx ty S).template = w.template := rfl
    obtain ⟨hcells, hflat⟩ := getMismatchedPixels_cells w 1 none L hL
    unfold _getMismatchedPixels
    rw [htemplate, foldlM_rows_some
      (fun y acc => mismatchRow (paintedClient w tx ty S) 1 none y acc)
      (fun y => (List.range w.template.width).flatMap (fun x =>
        ((cellMismatch w 1 none x y).getD []).filter (fun e => e ∉ S)))]
    · rw [hflat, List.nil_append, List.filter_flatMap]
      simp only [List.filter_flatMap]
    · intro y hy acc
      unfold mismatchRow
      rw [htemplate]
      apply foldlM_append_some
      intro x hx
      exact cellMismatch_paintedClient w 1 none tx ty S hS' x y _
        (hcells y (List.mem_range.mp hy) x (List.mem_range.mp hx))

/-- C7, witness: in the scenario of the 2 x 2 image over a blank tile, after
the entry of colour 1 at `(0,0)` is painted, the recomputed list holds only
the entry of colour 2 at `(1,1)`. -/
theorem executePaint_success_updates_cache_witness :
    _getMismatchedPixels
        (_executePaint scenarioClient
          (fun _ _ body => ⟨200, some (body.colors.length : Int), none, false, none⟩) 0 0
          (entriesBody [⟨0, 0, 0, 0, 1, true, 0, 0⟩] "t")).client 1 none =
      some [⟨0, 0, 1, 1, 2, true, 1, 1⟩] :=
  (executePaint_success_updates_cache scenarioClient
    (fun _ _ body => ⟨200, some (body.colors.length : Int), none, false, none⟩) 0 0
    [⟨0, 0, 0, 0, 1, true, 0, 0⟩]
    [⟨0, 0, 0, 0, 1, true, 0, 0⟩, ⟨0, 0, 1, 1, 2, true, 1, 1⟩] "t"
    (by decide) (by decide) (by decide) rfl).2.2.2

/-! ### Paint turn: retries after a rejected token -/

theorem paintTurnLoop_refresh (world : TurnWorld) (skip : Nat) (cf : Option Int)
    (cache : ChargeCache) (w : WPlacer) (k : Nat)
    (hrefresh : ∀ j, j < k →
      (paintAttempt world skip cf j (attemptClient world skip cf w j)).result =
        .error .refreshToken) :
    ∀ (fuel j : Nat) (events : List Event), j + fuel ≤ k →
      (paintTurnLoop true world skip cf cache fuel j (attemptClient world skip cf w j)
          events).finished = false ∧
        (paintTurnLoop true world skip cf cache fuel j (attemptClient world skip cf w j)
          events).attempts = j + fuel := by
  intro fuel
  induction fuel with
  | zero => intro j events _; exact ⟨rfl, rfl⟩
  | succ fuel ih =>
    intro j events hle
    have hj : j < k := by omega
    have hstep := hrefresh j hj
    unfold paintTurnLoop
    simp only [Bool.true_eq_false, if_false, hstep]
    have := ih (j + 1) (events ++ [Event.getToken, Event.paint
      (paintAttempt world skip cf j (attemptClient world skip cf w j)).requests] ++
      (if (paintAttempt world skip cf j (attemptClient world skip cf w j)).sleptMs = 0 then []
        else [Event.sleep (paintAttempt world skip cf j
          (attemptClient world skip cf w j)).sleptMs]) ++
      [Event.invalidateToken, Event.sleep 1000]) (by omega)
    simp only [attemptClient] at this
    refine ⟨this.1, ?_⟩
    rw [this.2]
    omega

theorem paintTurnLoop_settles (world : TurnWorld) (skip : Nat) (cf : Option Int)
    (cache : ChargeCache) (w : WPlacer) (k : Nat)
    (hrefresh : ∀ j, j < k →
      (paintAttempt world skip cf j (attemptClient world skip cf w j)).result =
        .error .refreshToken)
    (hother : (paintAttempt world skip cf k (attemptClient world skip cf w k)).result ≠
      .error .refreshToken) :
    ∀ (fuel j : Nat) (events : List Event), j ≤ k → k < j + fuel →
      (paintTurnLoop true world skip cf cache fuel j (attemptClient world skip cf w j)
          events).finished = true ∧
        (paintTurnLoop true world skip cf cache fuel j (attemptClient world skip cf w j)
          events).attempts = k + 1 ∧
        (paintTurnLoop true world skip cf cache fuel j (attemptClient world skip cf w j)
          events).result =
          (paintAttempt world skip cf k (attemptClient world skip cf w k)).result := by
  intro fuel
  induction fuel with
  | zero => intro j events h1 h2; omega
  | succ fuel ih =>
    intro j events hjk hlt
    by_cases hj : j < k
    · have hstep := hrefresh j hj
      unfold paintTurnLoop
      simp only [Bool.true_eq_false, if_false, hstep]
      have := ih (j + 1) (events ++ [Event.getToken, Event.paint
        (paintAttempt world skip cf j (attemptClient world skip cf w j)).requests] ++
        (if (paintAttempt world skip cf j (attemptClient world skip cf w j)).sleptMs = 0 then []
          else [Event.sleep (paintAttempt world skip cf j
            (attemptClient world skip cf w j)).sleptMs]) ++
        [Event.invalidateToken, Event.sleep 1000]) (by omega) (by omega)
      simp only [attemptClient] at this
      exact this
    · have hjeq : j = k := by omega
      subst hjeq
      unfold paintTurnLoop
      simp only [Bool.true_eq_false, if_false]
      cases hres : (paintAttempt world skip cf j (attemptClient world skip cf w j)).result with
      | ok painted => exact ⟨rfl, rfl, rfl⟩
      | error e =>
        cases e with
        | refreshToken => exact absurd hres hother
        | suspension d => exact ⟨rfl, rfl, rfl⟩
        | network => exact ⟨rfl, rfl, rfl⟩
        | unexpected => exact ⟨rfl, rfl, rfl⟩
        | tokenMissing => exact ⟨rfl, rfl, rfl⟩
        | typeError => exact ⟨rfl, rfl, rfl⟩
        | fetchFailed => exact ⟨rfl, rfl, rfl⟩
        | generic => exact ⟨rfl, rfl, rfl⟩

theorem refreshWorld_attempt (j : Nat) :
    paintAttempt refreshWorld 1 none j (tenPixelClient 3) =
      ⟨tenPixelClient 3, [⟨0, 0, ⟨[1, 1, 1], [0, 0, 1, 0, 2, 0], "token"⟩⟩], 0,
        .error .refreshToken⟩ := by
  show paint (tenPixelClient 3) refreshEnv 1 none = _
  rfl

theorem refreshWorld_client (j : Nat) :
    attemptClient refreshWorld 1 none (tenPixelClient 3) j = tenPixelClient 3 := by
  induction j with
  | zero => rfl
  | succ j ih => rw [attemptClient, ih, refreshWorld_attempt]

/-- C10, counterexample. No fixed number bounds the paint attempts of one
paint turn: in the ten-pixel scenario with every attempt answered by the
refresh-token rejection and `running` staying true, the turn has made `fuel`
attempts after `fuel` iterations of its loop, for every `fuel`, and has
neither returned nor raised. -/
theorem performPaintTurn_retries_unbounded :
    ¬ ∃ N : Nat, ∀ (world : TurnWorld) (fuel : Nat),
      (_performPaintTurn (scenarioManager [1] false) world ChargeCache.empty
        (tenPixelClient 3) none fuel).attempts ≤ N := by
  rintro ⟨N, hN⟩
  have h := hN refreshWorld (N + 1)
  have hloop := paintTurnLoop_refresh refreshWorld 1 none ChargeCache.empty (tenPixelClient 3)
    (N + 1) (fun j _ => by rw [refreshWorld_client, refreshWorld_attempt]) (N + 1) 0 []
    (by omega)
  simp only [attemptClient] at hloop
  have : (_performPaintTurn (scenarioManager [1] false) refreshWorld ChargeCache.empty
      (tenPixelClient 3) none (N + 1)).attempts = 0 + (N + 1) := hloop.2
  omega

/-- C10, amended. With `running` staying true, `_performPaintTurn` repeats
the paint attempt after every refresh-token rejection, without a bound: when
the first `k` attempts are answered with that rejection and attempt `k + 1`
is answered otherwise, the turn makes exactly `k + 1` paint attempts and then
returns or raises what that attempt gave; before that, after `fuel ≤ k`
iterations, it has made `fuel` attempts and has not returned. -/
theorem performPaintTurn_attempts (tm : TemplateManager) (world : TurnWorld)
    (cache : ChargeCache) (w : WPlacer) (colorFilter : Option Int) (k : Nat)
    (hrunning : tm.running = true)
    (hrefresh : ∀ j, j < k →
      (paintAttempt world tm.currentPixelSkip colorFilter j
        (attemptClient world tm.currentPixelSkip colorFilter w j)).result =
          .error .refreshToken)
    (hother : (paintAttempt world tm.currentPixelSkip colorFilter k
        (attemptClient world tm.currentPixelSkip colorFilter w k)).result ≠
          .error .refreshToken) :
    (∀ fuel, k < fuel →
        (_performPaintTurn tm world cache w colorFilter fuel).finished = true ∧
        (_performPaintTurn tm world cache w colorFilter fuel).attempts = k + 1 ∧
        (_performPaintTurn tm world cache w colorFilter fuel).result =
          (paintAttempt world tm.currentPixelSkip colorFilter k
            (attemptClient world tm.currentPixelSkip colorFilter w k)).result) ∧
      (∀ fuel, fuel ≤ k →
        (_performPaintTurn tm world cache w colorFilter fuel).finished = false ∧
        (_performPaintTurn tm world cache w colorFilter fuel).attempts = fuel) := by
  unfold _performPaintTurn
  rw [hrunning]
  constructor
  · intro fuel hfuel
    have := paintTurnLoop_settles world tm.currentPixelSkip colorFilter cache w k hrefresh
      hother fuel 0 [] (by omega) (by omega)
    simpa only [attemptClient] using this
  · intro fuel hfuel
    have := paintTurnLoop_refresh world tm.currentPixelSkip colorFilter cache w k hrefresh
      fuel 0 [] (by omega)
    simpa only [attemptClient, Nat.zero_add] using this

theorem refreshThenPaint_attempts :
    (∀ j, j < 2 →
      (paintAttempt (refreshThenPaintWorld 2) 1 none j
        (attemptClient (refreshThenPaintWorld 2) 1 none (tenPixelClient 3) j)).result =
          .error .refreshToken) ∧
      (paintAttempt (refreshThenPaintWorld 2) 1 none 2
        (attemptClient (refreshThenPaintWorld 2) 1 none (tenPixelClient 3) 2)).result =
          .ok 3 := by
  refine ⟨?_, rfl⟩
  intro j hj
  interval_cases j <;> rfl

/-- C10, witness: two rejected tokens, then a painted attempt: three paint
attempts, result 3. -/
theorem performPaintTurn_attempts_witness :
    (_performPaintTurn (scenarioManager [1] false) (refreshThenPaintWorld 2)
        ChargeCache.empty (tenPixelClient 3) none 5).finished = true ∧
      (_performPaintTurn (scenarioManager [1] false) (refreshThenPaintWorld 2)
        ChargeCache.empty (tenPixelClient 3) none 5).attempts = 3 ∧
      (_performPaintTurn (scenarioManager [1] false) (refreshThenPaintWorld 2)
        ChargeCache.empty (tenPixelClient 3) none 5).result = .ok 3 := by
  have h := (performPaintTurn_attempts (scenarioManager [1] false) (refreshThenPaintWorld 2)
    ChargeCache.empty (tenPixelClient 3) none 2 rfl refreshThenPaint_attempts.1
    (by
      intro h
      have h3 := refreshThenPaint_attempts.2
      exact absurd (h3.symm.trans h) (by simp))).1 5 (by decide)
  exact ⟨h.1, h.2.1, h.2.2.trans refreshThenPaint_attempts.2⟩
/-! ### Run loop: the cycle that finds nothing to paint -/

/-- The check pass reads the manager only through the queue it is given and
the client it builds. -/
theorem checkLoop_congr (tm tm' : TemplateManager) (users : Users) (settings : Settings)
    (world : Nat → CheckAnswer) (h : tm.newClient settings = tm'.newClient settings) :
    ∀ (n i : Nat) (queue : List Nat) (events : List Event),
      checkLoop tm users settings world n i queue events =
        checkLoop tm' users settings world n i queue events := by
  intro n
  induction n with
  | zero => intro i queue events; rfl
  | succ n ih =>
    intro i queue events
    cases queue with
    | nil => rfl
    | cons userId rest =>
      simp only [checkLoop, h, ih]

/-- The check pass issues no paint request. -/
theorem checkLoop_no_paint (tm : TemplateManager) (users : Users) (settings : Settings)
    (world : Nat → CheckAnswer) :
    ∀ (n i : Nat) (queue : List Nat) (events : List Event),
      (∀ e ∈ events, e.isPaint = false) →
      ∀ e ∈ (checkLoop tm users settings world n i queue events).events, e.isPaint = false := by
  intro n
  induction n with
  | zero => intro i queue events h; simpa [checkLoop] using h
  | succ n ih =>
    intro i queue events h
    cases queue with
    | nil => simpa [checkLoop] using h
    | cons userId rest =>
      have h1 : ∀ e ∈ events ++ [Event.login userId], e.isPaint = false := by
        intro e he
        rcases List.mem_append.1 he with he | he
        · exact h e he
        · simp only [List.mem_singleton] at he; subst he; rfl
      have h2 : ∀ e ∈ events ++ [Event.login userId, Event.loadTiles userId],
          e.isPaint = false := by
        intro e he
        rcases List.mem_append.1 he with he | he
        · exact h e he
        · simp only [List.mem_cons, List.mem_singleton, List.mem_nil_iff, or_false] at he
          rcases he with he | he <;> subst he <;> rfl
      simp only [checkLoop]
      split
      · exact ih _ _ _ h
      · split
        · exact ih _ _ _ h1
        · split
          · exact ih _ _ _ h2
          · split
            · exact ih _ _ _ h2
            · exact h2

/-- The check pass of a cycle does not depend on the status of the manager. -/
theorem findWorkingUser_status (tm : TemplateManager) (users : Users) (settings : Settings)
    (world : Nat → CheckAnswer) (s : String) :
    _findWorkingUserAndCheckPixels { tm with status := s } users settings world =
      _findWorkingUserAndCheckPixels tm users settings world := by
  unfold _findWorkingUserAndCheckPixels
  exact checkLoop_congr { tm with status := s } tm users settings world rfl _ _ _ _

/-- A cycle keeps the anti-grief flag, and with the flag set it does not end
in the status `Finished.`. -/
theorem cycle_antiGrief (tm : TemplateManager) (users : Users) (settings : Settings)
    (world : CycleWorld) (cache : ChargeCache) (fuel : Nat) :
    (cycle tm users settings world cache fuel).tm.antiGriefMode = tm.antiGriefMode ∧
    (tm.antiGriefMode = true →
      (cycle tm users settings world cache fuel).tm.status ≠ "Finished.") := by
  unfold cycle
  simp only []
  split
  · exact ⟨rfl, fun _ => by simp⟩
  · split
    · rcases Bool.eq_false_or_eq_true tm.antiGriefMode with hg | hg
      · simp [hg]
      · simp [hg]
    · split
      · exact ⟨rfl, fun _ => by simp⟩
      · exact ⟨rfl, fun _ => by simp⟩

/-- With the anti-grief flag set the run loop never reaches `Finished.`. -/
theorem startLoop_antiGrief (users : Users) (settings : Settings) (world : RunWorld)
    (fuel : Nat) :
    ∀ (k n : Nat) (tm : TemplateManager) (cache : ChargeCache) (events : List Event),
      tm.antiGriefMode = true → tm.status ≠ "Finished." →
      (startLoop users settings world fuel k n tm cache events).tm.antiGriefMode = true ∧
      (startLoop users settings world fuel k n tm cache events).tm.status ≠ "Finished." := by
  intro k
  induction k with
  | zero => intro n tm cache events hg hs; exact ⟨hg, hs⟩
  | succ k ih =>
    intro n tm cache events hg hs
    have hc := cycle_antiGrief tm users settings (world.cycle n) cache fuel
    simp only [startLoop]
    split
    · exact ⟨hg, hs⟩
    · split
      · exact ⟨hc.1.trans hg, hc.2 hg⟩
      · split
        · exact ⟨hc.1.trans hg, hc.2 hg⟩
        · apply ih
          · split
            · exact hc.1.trans hg
            · exact hc.1.trans hg
          · split
            · exact hc.2 hg
            · exact hc.2 hg

/-- **C8.** In the run loop of `start`, a cycle whose check finds zero
mismatches issues no paint request. With `antiGriefMode` off the status
becomes `Finished.`, `running` becomes false and the loop exits; with
`antiGriefMode` on the status becomes `Monitoring for changes.`, `running`
stays true, the cycle ends with the standby sleep and the loop goes on with
the next check. With `antiGriefMode` on no run of `start` ends in the status
`Finished.`. -/
theorem cycle_zero_mismatches (tm : TemplateManager) (users : Users) (settings : Settings)
    (world : CycleWorld) (cache : ChargeCache) (fuel : Nat) :
    (∀ w : WPlacer,
      (_findWorkingUserAndCheckPixels tm users settings world.check).found = some (w, []) →
      tm.running = true →
      (cycle tm users settings world cache fuel).finished = true ∧
      (∀ e ∈ (cycle tm users settings world cache fuel).events, e.isPaint = false) ∧
      (tm.antiGriefMode = false →
        (cycle tm users settings world cache fuel).tm.status = "Finished." ∧
        (cycle tm users settings world cache fuel).tm.running = false ∧
        (cycle tm users settings world cache fuel).exited = true ∧
        ∀ (run : RunWorld) (k n : Nat) (events : List Event), run.cycle n = world →
          startLoop users settings run fuel (k + 1) n tm cache events =
            ⟨true, (cycle tm users settings world cache fuel).tm, cache,
              events ++ (cycle tm users settings world cache fuel).events⟩) ∧
      (tm.antiGriefMode = true →
        (cycle tm users settings world cache fuel).tm.status = "Monitoring for changes." ∧
        (cycle tm users settings world cache fuel).tm.running = true ∧
        (cycle tm users settings world cache fuel).exited = false ∧
        (∃ pre, (∀ e ∈ pre, e.isPaint = false) ∧
          (cycle tm users settings world cache fuel).events =
            pre ++ [Event.sleep settings.antiGriefStandby]) ∧
        ∀ (run : RunWorld) (k n : Nat) (events : List Event), run.cycle n = world →
          startLoop users settings run fuel (k + 1) n tm cache events =
            startLoop users settings run fuel k (n + 1)
              (if run.stopRequested n then
                { (cycle tm users settings world cache fuel).tm with running := false }
                else (cycle tm users settings world cache fuel).tm)
              cache (events ++ (cycle tm users settings world cache fuel).events))) ∧
    (tm.antiGriefMode = true →
      ∀ (run : RunWorld) (cycles : Nat),
        (start tm users settings run cache cycles fuel).tm.status ≠ "Finished.") := by
  refine ⟨?_, ?_⟩
  · intro w hfound hrun
    have hpre : ∀ e ∈ (_findWorkingUserAndCheckPixels tm users settings world.check).events,
        e.isPaint = false := by
      unfold _findWorkingUserAndCheckPixels
      exact checkLoop_no_paint tm users settings world.check _ _ _ _ (by simp)
    rcases Bool.eq_false_or_eq_true tm.antiGriefMode with hg | hg
    rotate_left
    · have hcyc : cycle tm users settings world cache fuel =
          ⟨true, true,
            { tm with status := "Finished.", running := false, pixelsRemaining := 0,
                      userQueue := (_findWorkingUserAndCheckPixels tm users settings world.check).userQueue },
            cache, (_findWorkingUserAndCheckPixels tm users settings world.check).events⟩ := by
        unfold cycle
        simp only [findWorkingUser_status, hfound, List.length_nil]
        simp [hg]
      rw [hcyc]
      refine ⟨rfl, hpre, fun _ => ⟨rfl, rfl, rfl, ?_⟩, fun h => by simp [hg] at h⟩
      intro run k n events hw
      simp only [startLoop, hrun, hw, hcyc]
      simp
    · have hcyc : cycle tm users settings world cache fuel =
          ⟨true, false,
            { tm with status := "Monitoring for changes.", pixelsRemaining := 0,
                      userQueue := (_findWorkingUserAndCheckPixels tm users settings world.check).userQueue },
            cache, (_findWorkingUserAndCheckPixels tm users settings world.check).events ++
              [Event.sleep settings.antiGriefStandby]⟩ := by
        unfold cycle
        simp only [findWorkingUser_status, hfound, List.length_nil]
        simp [hg]
      rw [hcyc]
      refine ⟨rfl, ?_, fun h => by simp [hg] at h, fun _ => ⟨rfl, hrun, rfl, ⟨_, hpre, rfl⟩, ?_⟩⟩
      · intro e he
        rcases List.mem_append.1 he with he | he
        · exact hpre e he
        · simp only [List.mem_singleton] at he; subst he; rfl
      · intro run k n events hw
        simp only [startLoop, hrun, hw, hcyc]
        simp
  · intro hg run cycles
    have h := startLoop_antiGrief users settings run fuel cycles 0
      { tm with running := true, status := "Started." } cache [] hg (by simp)
    unfold start
    simp only []
    split
    · simp only [ne_eq, ite_not]
      rw [if_neg h.2]
      decide
    · exact h.2

/-- Witness for C8: on a board that already shows the ten-pixel template the
check of account 1 finds nothing to paint. -/
theorem cycle_zero_mismatches_witness :
    (cycle (scenarioManager [1] false) scenarioUsers scenarioSettings completeWorld
        ChargeCache.empty 5).tm.status = "Finished." ∧
    (cycle (scenarioManager [1] true) scenarioUsers scenarioSettings completeWorld
        ChargeCache.empty 5).tm.status = "Monitoring for changes." ∧
    ∀ (run : RunWorld) (cycles : Nat),
      (start (scenarioManager [1] true) scenarioUsers scenarioSettings run ChargeCache.empty
        cycles 5).tm.status ≠ "Finished." :=
  ⟨(((cycle_zero_mismatches (scenarioManager [1] false) scenarioUsers scenarioSettings
        completeWorld ChargeCache.empty 5).1 _ rfl rfl).2.2.1 rfl).1,
   (((cycle_zero_mismatches (scenarioManager [1] true) scenarioUsers scenarioSettings
        completeWorld ChargeCache.empty 5).1 _ rfl rfl).2.2.2 rfl).1,
   (cycle_zero_mismatches (scenarioManager [1] true) scenarioUsers scenarioSettings
        completeWorld ChargeCache.empty 5).2 rfl⟩

/-! ### Run loop: a suspended account -/

/-- **C9.** The engine does not record a suspension. In the scenario, account
1 is the only account and its paint turn raises a `SuspensionError` of
60000 ms at time 1000. The paint pass ends the turn and the cycle goes on, but
the `users` object is left as it was, so in the next cycle, still at time
1000, neither rotation pass skips account 1: the two cycles log the account in
four times and post two paint requests. -/
theorem suspension_not_recorded :
    (paintPass (scenarioManager [1] false) scenarioUsers scenarioSettings suspendingWorld.pass 5
        [1] 0 ChargeCache.empty []).finished = true ∧
    (_performPaintTurn (scenarioManager [1] false) (suspendingWorld.pass 0).turn ChargeCache.empty
        { (scenarioManager [1] false).newClient scenarioSettings with
          userInfo := some ⟨1, 0, some ⟨some 3, some 100⟩, 0⟩ } none 5).result =
      .error (.suspension 60000) ∧
    skipsUser scenarioUsers 1 1000 = false ∧
    ((startLoop scenarioUsers scenarioSettings ⟨fun _ => suspendingWorld, fun _ => false⟩ 5 2 0
        (scenarioManager [1] false) ChargeCache.empty []).events.filter
          (fun e => decide (e = Event.login 1))).length = 4 ∧
    ((startLoop scenarioUsers scenarioSettings ⟨fun _ => suspendingWorld, fun _ => false⟩ 5 2 0
        (scenarioManager [1] false) ChargeCache.empty []).events.filter Event.isPaint).length = 2 := by
  refine ⟨rfl, rfl, rfl, rfl, rfl⟩

/-! ### The rotation queue is a permutation of the user ids -/

/-- The check pass, run over the accounts `remaining` in front of the accounts
`done` that it has already moved to the back, leaves the accounts it consults
behind `done`, in their order, and the others in front. -/
theorem checkLoop_consulted (tm : TemplateManager) (users : Users) (settings : Settings)
    (world : Nat → CheckAnswer) :
    ∀ (remaining : List Nat) (i : Nat) (done : List Nat) (events : List Event),
      (checkLoop tm users settings world remaining.length i (remaining ++ done) events).userQueue =
        remaining.drop (consultedCount tm users settings world i remaining) ++ done ++
          remaining.take (consultedCount tm users settings world i remaining) := by
  intro remaining
  induction remaining with
  | nil => intro i done events; simp [checkLoop, consultedCount]
  | cons userId rest ih =>
    intro i done events
    have hnext : ∀ ev, checkSucceeds tm users settings world i userId = false →
        (checkLoop tm users settings world rest.length (i + 1) (rest ++ done ++ [userId])
          ev).userQueue =
          (userId :: rest).drop (consultedCount tm users settings world i (userId :: rest)) ++
            done ++
            (userId :: rest).take (consultedCount tm users settings world i (userId :: rest)) := by
      intro ev hc
      rw [List.append_assoc, ih (i + 1) (done ++ [userId]) ev]
      simp only [consultedCount, hc, Bool.false_eq_true, if_false]
      rw [Nat.add_comm 1]
      simp [List.append_assoc]
    simp only [List.length_cons, List.cons_append, checkLoop]
    split
    · rename_i hs
      exact hnext _ (by simp [checkSucceeds, hs])
    · rename_i hs
      split
      · rename_i e hl
        exact hnext _ (by simp [checkSucceeds, hs, hl])
      · rename_i w1 hl
        split
        · rename_i e ht
          exact hnext _ (by simp [checkSucceeds, hs, hl, ht])
        · rename_i w2 ht
          split
          · rename_i hm
            exact hnext _ (by simp [checkSucceeds, hs, hl, ht, hm])
          · rename_i m hm
            have hc : checkSucceeds tm users settings world i userId = true := by
              simp [checkSucceeds, hs, hl, ht, hm]
            simp [consultedCount, hc]
/-- An iteration of the run loop leaves `userIds` alone and stores the queue
of its check pass. -/
theorem cycle_queue (tm : TemplateManager) (users : Users) (settings : Settings)
    (world : CycleWorld) (cache : ChargeCache) (fuel : Nat) :
    (cycle tm users settings world cache fuel).tm.userIds = tm.userIds ∧
    (cycle tm users settings world cache fuel).tm.userQueue =
      (_findWorkingUserAndCheckPixels tm users settings world.check).userQueue := by
  unfold cycle
  simp only [findWorkingUser_status]
  split
  · exact ⟨rfl, rfl⟩
  · split
    · split
      · exact ⟨rfl, rfl⟩
      · exact ⟨rfl, rfl⟩
    · split
      · exact ⟨rfl, rfl⟩
      · exact ⟨rfl, rfl⟩

/-- Storing a manager that satisfies a property keeps the property of all
managers. -/
theorem Templates.set_all (P : TemplateManager → Prop) (templates : Templates) (id : Nat)
    (manager : TemplateManager) (h : ∀ p ∈ templates, P p.2) (hm : P manager) :
    ∀ p ∈ Templates.set templates id manager, P p.2 := by
  intro p hp
  unfold Templates.set at hp
  split at hp
  · obtain ⟨q, hq, rfl⟩ := List.mem_map.1 hp
    split
    · exact hm
    · exact h q hq
  · rcases List.mem_append.1 hp with hp | hp
    · exact h p hp
    · simp only [List.mem_singleton] at hp; subst hp; exact hm

/-- A manager found by `lookup` is in the collection. -/
theorem Templates.mem_of_lookup (templates : Templates) (id : Nat) (manager : TemplateManager)
    (h : templates.lookup id = some manager) : (id, manager) ∈ templates := by
  induction templates with
  | nil => simp at h
  | cons p rest ih =>
    obtain ⟨k, v⟩ := p
    simp only [List.lookup_cons] at h
    split at h
    · rename_i hk
      simp only [beq_iff_eq] at hk
      simp only [Option.some.injEq] at h
      subst hk; subst h
      exact List.mem_cons_self _ _
    · exact List.mem_cons_of_mem _ (ih h)

/-- A manager stored under an id is the one found under that id. -/
theorem Templates.lookup_set (templates : Templates) (id : Nat) (manager : TemplateManager) :
    (Templates.set templates id manager).lookup id = some manager := by
  unfold Templates.set
  split
  · rename_i h
    induction templates with
    | nil => simp at h
    | cons p rest ih =>
      obtain ⟨k, v⟩ := p
      simp only [List.lookup_cons] at h
      simp only [List.map_cons, List.lookup_cons]
      by_cases hk : k = id
      · subst hk; simp
      · have hb : (id == k) = false := by simp [Ne.symm hk]
        simp only [hb] at h
        simp only [hk, if_false, List.lookup_cons, hb]
        exact ih h
  · rename_i h
    induction templates with
    | nil => simp [List.lookup_cons]
    | cons p rest ih =>
      obtain ⟨k, v⟩ := p
      simp only [List.lookup_cons] at h
      simp only [List.cons_append, List.lookup_cons]
      split
      · rename_i hb; simp [hb] at h
      · rename_i hb; simp only [hb] at h; exact ih h

/-- Stopping a template left without users changes neither `userIds` nor
`userQueue`. -/
theorem stopIfEmpty_lists (manager : TemplateManager) (remaining : List Nat) :
    (stopIfEmpty manager remaining).userIds = manager.userIds ∧
    (stopIfEmpty manager remaining).userQueue = manager.userQueue := by
  unfold stopIfEmpty
  split
  · exact ⟨rfl, rfl⟩
  · exact ⟨rfl, rfl⟩

/-- For a manager whose `userIds` is an array, the body of the deletion loop
filters the user out of both lists, whether it throws afterwards or not. -/
theorem removeUserFrom_some (users : Users) (userId : Nat) (manager : TemplateManager)
    (userIds : List Nat) (h : manager.userIds = some userIds) :
    (removeUserFrom users userId manager).manager.userIds =
      some (userIds.filter (fun id => decide (id ≠ userId))) ∧
    (removeUserFrom users userId manager).manager.userQueue =
      manager.userQueue.filter (fun id => decide (id ≠ userId)) := by
  unfold removeUserFrom
  simp only [h]
  split
  · split
    · split
      · exact ⟨(stopIfEmpty_lists _ _).1, (stopIfEmpty_lists _ _).2⟩
      · split
        · exact ⟨rfl, rfl⟩
        · exact ⟨(stopIfEmpty_lists _ _).1, (stopIfEmpty_lists _ _).2⟩
    · exact ⟨(stopIfEmpty_lists _ _).1, (stopIfEmpty_lists _ _).2⟩
  · exact ⟨rfl, rfl⟩

/-- The body of the deletion loop does not throw for a manager whose `userIds`
is an array of users that are known after the deletion, the deleted one
apart. -/
theorem removeUserFrom_not_thrown (users : Users) (userId : Nat) (manager : TemplateManager)
    (userIds : List Nat) (h : manager.userIds = some userIds)
    (hk : ∀ id ∈ userIds, id ≠ userId → (users id).isSome = true) :
    (removeUserFrom users userId manager).thrown = false := by
  unfold removeUserFrom
  simp only [h]
  split
  · split
    · split
      · rfl
      · rename_i masterId hm
        have hmem : masterId ∈ userIds.filter (fun id => decide (id ≠ userId)) :=
          List.mem_of_mem_head? hm
        obtain ⟨h1, h2⟩ := List.mem_filter.1 hmem
        have h3 := hk masterId h1 (by simpa using h2)
        split
        · rename_i hn; simp [hn] at h3
        · rfl
    · rfl
  · rfl

/-- The deletion loop keeps, in every manager, `userIds` an array and the
queue a permutation of it, whether it is ended by a TypeError or not. -/
theorem removeUserLoop_perm (users : Users) (userId : Nat) (templates : Templates)
    (h : ∀ p ∈ templates, ∃ userIds, p.2.userIds = some userIds ∧ p.2.userQueue.Perm userIds) :
    ∀ p ∈ removeUserLoop users userId templates,
      ∃ userIds, p.2.userIds = some userIds ∧ p.2.userQueue.Perm userIds := by
  induction templates with
  | nil => intro p hp; simp [removeUserLoop] at hp
  | cons q rest ih =>
    obtain ⟨id, manager⟩ := q
    obtain ⟨ids, hi, hperm⟩ := h (id, manager) (List.mem_cons_self _ _)
    obtain ⟨h1, h2⟩ := removeUserFrom_some users userId manager ids hi
    have hrest : ∀ p ∈ rest, ∃ userIds, p.2.userIds = some userIds ∧ p.2.userQueue.Perm userIds :=
      fun p hp => h p (List.mem_cons_of_mem _ hp)
    have hhead : ∃ userIds, (removeUserFrom users userId manager).manager.userIds = some userIds ∧
        (removeUserFrom users userId manager).manager.userQueue.Perm userIds :=
      ⟨_, h1, by rw [h2]; exact hperm.filter _⟩
    intro p hp
    simp only [removeUserLoop] at hp
    split at hp
    · rcases List.mem_cons.1 hp with hp | hp
      · subst hp; exact hhead
      · exact hrest p hp
    · rcases List.mem_cons.1 hp with hp | hp
      · subst hp; exact hhead
      · exact ih hrest p hp

/-- When `userIds` is, in every manager, an array of users that are known
after the deletion, the deletion loop visits every manager and filters the
user out of both of its lists. -/
theorem removeUserLoop_all (users : Users) (userId : Nat) (templates : Templates)
    (h : ∀ p ∈ templates, ∃ userIds, p.2.userIds = some userIds ∧
      ∀ id ∈ userIds, id ≠ userId → (users id).isSome = true) :
    List.Forall₂
      (fun p q => q.1 = p.1 ∧
        q.2.userIds = p.2.userIds.map (fun ids => ids.filter (fun id => decide (id ≠ userId))) ∧
        q.2.userQueue = p.2.userQueue.filter (fun id => decide (id ≠ userId)))
      templates (removeUserLoop users userId templates) := by
  induction templates with
  | nil => exact List.Forall₂.nil
  | cons p rest ih =>
    obtain ⟨id, manager⟩ := p
    obtain ⟨userIds, hu, hk⟩ := h (id, manager) (List.mem_cons_self _ _)
    obtain ⟨h1, h2⟩ := removeUserFrom_some users userId manager userIds hu
    have h3 := removeUserFrom_not_thrown users userId manager userIds hu hk
    simp only [removeUserLoop, h3, Bool.false_eq_true, if_false]
    refine List.Forall₂.cons ⟨rfl, ?_, h2⟩ (ih (fun q hq => h q (List.mem_cons_of_mem _ hq)))
    simp only [h1]
    show _ = Option.map _ manager.userIds
    rw [hu]
    rfl

/-- Every request whose body carries `userIds` keeps, in every manager,
`userIds` an array and the queue a permutation of it. -/
theorem Server.step_perm (s : Server) (request : Request)
    (hr : request.carriesUserIds = true)
    (h : ∀ p ∈ s.templates, ∃ userIds, p.2.userIds = some userIds ∧ p.2.userQueue.Perm userIds) :
    ∀ p ∈ (s.step request).templates,
      ∃ userIds, p.2.userIds = some userIds ∧ p.2.userQueue.Perm userIds := by
  cases request with
  | create templateId data =>
    simp only [Server.step]
    cases hc : createTemplate s.templates templateId data with
    | none => exact h
    | some templates =>
      simp only []
      unfold createTemplate at hc
      split at hc
      · simp at hc
      · simp at hc
      · split at hc
        · simp at hc
        · split at hc
          · simp at hc
          · simp only [Option.some.injEq] at hc
            subst hc
            exact Templates.set_all
              (fun m => ∃ userIds, m.userIds = some userIds ∧ m.userQueue.Perm userIds) _ _ _ h
              ⟨_, rfl, List.Perm.refl _⟩
  | edit id data =>
    simp only [Server.step]
    simp only [Request.carriesUserIds] at hr
    obtain ⟨userIds, hu⟩ := Option.isSome_iff_exists.1 hr
    unfold Templates.afterUpdate updateTemplate
    cases hl : s.templates.lookup id with
    | none => exact h
    | some manager =>
      simp only [hu]
      apply Templates.set_all
        (fun m => ∃ userIds, m.userIds = some userIds ∧ m.userQueue.Perm userIds) _ _ _ h
      show ∃ ids, _ = some ids ∧ List.Perm _ ids
      split
      · exact ⟨userIds, by simp [assignUserIds, hu], List.Perm.refl _⟩
      · exact ⟨userIds, by simp [assignUserIds, hu], List.Perm.refl _⟩
  | deleteUser userId =>
    simp only [Server.step]
    cases hc : deleteUser s.users s.templates userId with
    | none => exact h
    | some r =>
      obtain ⟨users, templates⟩ := r
      simp only []
      unfold deleteUser at hc
      split at hc
      · simp at hc
      · simp only [Option.some.injEq, Prod.mk.injEq] at hc
        obtain ⟨_, hc⟩ := hc
        subst hc
        exact removeUserLoop_perm _ userId s.templates h
  | cycle id settings world fuel =>
    simp only [Server.step]
    cases hl : s.templates.lookup id with
    | none => exact h
    | some manager =>
      simp only []
      apply Templates.set_all
        (fun m => ∃ userIds, m.userIds = some userIds ∧ m.userQueue.Perm userIds) _ _ _ h
      show ∃ ids, _ = some ids ∧ List.Perm _ ids
      obtain ⟨ids, hi, hm⟩ := h _ (Templates.mem_of_lookup _ _ _ hl)
      have hq := cycle_queue manager s.users settings world s.cache fuel
      refine ⟨ids, hq.1.trans hi, ?_⟩
      rw [hq.2]
      unfold _findWorkingUserAndCheckPixels
      have hk := checkLoop_consulted manager s.users settings world.check manager.userQueue 0 [] []
      rw [List.append_nil, List.append_nil] at hk
      rw [hk]
      exact (List.perm_append_comm.trans (List.Perm.of_eq (List.take_append_drop _ _))).trans hm
/-- **C11.** An edit request can leave a template whose `userQueue` is not a
permutation of its `userIds`. A template is created with the accounts 1, 2, 3;
an edit request for it has a body without `userIds`. `updateTemplate` throws
at the spread `[...userIds]`, after it has assigned the name, the coordinates
and `userIds`: the template is left with `userIds` undefined and the old queue
1, 2, 3. For the other requests the invariant holds: from an empty collection,
create requests, edit requests that carry `userIds`, user deletions and
iterations of the run loop keep, in every template, `userIds` an array and
`userQueue` a permutation of it. The constructor makes both lists the given
one, an edit that carries `userIds` makes both lists the new one. The check
pass `_findWorkingUserAndCheckPixels` consults the accounts at the front of
the queue up to the first working one and leaves exactly these at the back of
the queue, in their order, behind the others. Deleting a user, when `userIds`
is in every template an array of known users, takes it out of `userIds` and
`userQueue` of every template, by filtering, which keeps the order of the
others. -/
theorem userQueue_stale_after_edit :
    ((Server.run ⟨threeUsers, [], ChargeCache.empty⟩ (staleQueueRequests.take 1)).templates.map
        (fun p => (p.1, p.2.name, p.2.userIds, p.2.userQueue)) =
          [(7, "scenario", some [1, 2, 3], [1, 2, 3])] ∧
      updateTemplate
        (Server.run ⟨threeUsers, [], ChargeCache.empty⟩ (staleQueueRequests.take 1)).templates
        7 staleQueueBody = none ∧
      (Server.run ⟨threeUsers, [], ChargeCache.empty⟩ staleQueueRequests).templates.map
        (fun p => (p.1, p.2.name, p.2.userIds, p.2.userQueue)) =
          [(7, "renamed", none, [1, 2, 3])]) ∧
    (∀ (users : Users) (cache : ChargeCache) (requests : List Request),
      (∀ r ∈ requests, r.carriesUserIds = true) →
      ∀ p ∈ (Server.run ⟨users, [], cache⟩ requests).templates,
        ∃ userIds, p.2.userIds = some userIds ∧ p.2.userQueue.Perm userIds) ∧
    (∀ (name : String) (t : Template) (c : Coords) (b1 b2 b3 b4 b5 b6 : Bool) (userIds : List Nat),
      (TemplateManager.new name t c b1 b2 b3 b4 b5 b6 userIds).userQueue = userIds ∧
      (TemplateManager.new name t c b1 b2 b3 b4 b5 b6 userIds).userIds = some userIds) ∧
    (∀ (templates : Templates) (id : Nat) (d : TemplateData) (manager : TemplateManager)
        (userIds : List Nat),
      templates.lookup id = some manager → d.userIds = some userIds →
      ∃ m, (Templates.afterUpdate templates id d).lookup id = some m ∧
        m.userIds = some userIds ∧ m.userQueue = userIds) ∧
    (∀ (tm : TemplateManager) (users : Users) (settings : Settings) (world : Nat → CheckAnswer),
      (_findWorkingUserAndCheckPixels tm users settings world).userQueue =
        tm.userQueue.drop (consultedCount tm users settings world 0 tm.userQueue) ++
          tm.userQueue.take (consultedCount tm users settings world 0 tm.userQueue)) ∧
    (∀ (users : Users) (templates : Templates) (userId : Nat),
      (users userId).isSome = true →
      (∀ p ∈ templates, ∃ userIds, p.2.userIds = some userIds ∧
        ∀ id ∈ userIds, (users id).isSome = true) →
      ∃ users1 templates1, deleteUser users templates userId = some (users1, templates1) ∧
        users1 userId = none ∧
        List.Forall₂
          (fun p q => q.1 = p.1 ∧
            q.2.userIds =
              p.2.userIds.map (fun ids => ids.filter (fun id => decide (id ≠ userId))) ∧
            q.2.userQueue = p.2.userQueue.filter (fun id => decide (id ≠ userId)))
          templates templates1) := by
  refine ⟨⟨rfl, rfl, rfl⟩, ?_, fun _ _ _ _ _ _ _ _ _ _ => ⟨rfl, rfl⟩, ?_, ?_, ?_⟩
  · intro users cache requests
    have key : ∀ (requests : List Request) (s : Server),
        (∀ r ∈ requests, r.carriesUserIds = true) →
        (∀ p ∈ s.templates, ∃ userIds, p.2.userIds = some userIds ∧ p.2.userQueue.Perm userIds) →
        ∀ p ∈ (Server.run s requests).templates,
          ∃ userIds, p.2.userIds = some userIds ∧ p.2.userQueue.Perm userIds := by
      intro requests
      induction requests with
      | nil => intro s _ h; exact h
      | cons r rest ih =>
        intro s hr h
        exact ih (s.step r) (fun q hq => hr q (List.mem_cons_of_mem _ hq))
          (Server.step_perm s r (hr r (List.mem_cons_self _ _)) h)
    intro hr
    exact key requests _ hr (by simp)
  · intro templates id d manager userIds hl hu
    unfold Templates.afterUpdate updateTemplate
    simp only [hl, hu]
    refine ⟨_, Templates.lookup_set _ _ _, ?_, ?_⟩
    · split
      · simp [assignUserIds, hu]
      · simp [assignUserIds, hu]
    · split
      · rfl
      · rfl
  · intro tm users settings world
    have hk := checkLoop_consulted tm users settings world tm.userQueue 0 [] []
    rw [List.append_nil, List.append_nil] at hk
    exact hk
  · intro users templates userId hu hall
    obtain ⟨u, hu⟩ := Option.isSome_iff_exists.1 hu
    refine ⟨fun id => if id = userId then none else users id,
      removeUserLoop (fun id => if id = userId then none else users id) userId templates,
      by simp only [deleteUser, hu], by simp, ?_⟩
    apply removeUserLoop_all
    intro p hp
    obtain ⟨userIds, h1, h2⟩ := hall p hp
    refine ⟨userIds, h1, fun id hid hne => ?_⟩
    simp only [hne, if_false]
    exact h2 id hid

/-- Witness for C11: after creating a template with accounts 1, 2, 3, one
iteration of its run loop and the deletion of user 2, the user ids are 1, 3
and the queue is 3, 1. In a check pass over the queue 2, 1, 3 where account 2
does not exist and account 1 works, two accounts are consulted and the queue
becomes 3, 2, 1. -/
theorem userQueue_stale_after_edit_witness :
    (∀ r ∈ rotationRequests, r.carriesUserIds = true) ∧
    (Server.run ⟨threeUsers, [], ChargeCache.empty⟩ rotationRequests).templates.map
        (fun p => (p.1, p.2.userIds, p.2.userQueue)) = [(7, some [1, 3], [3, 1])] ∧
    (∃ userIds, some [1, 3] = some userIds ∧ List.Perm [3, 1] userIds) ∧
    consultedCount (scenarioManager [2, 1, 3] false) scenarioUsers scenarioSettings
      completeWorld.check 0 [2, 1, 3] = 2 ∧
    (_findWorkingUserAndCheckPixels (scenarioManager [2, 1, 3] false) scenarioUsers
      scenarioSettings completeWorld.check).userQueue = [3, 2, 1] :=
  ⟨by simp [rotationRequests, Request.carriesUserIds], rfl,
    userQueue_stale_after_edit.2.1 threeUsers ChargeCache.empty rotationRequests
      (by simp [rotationRequests, Request.carriesUserIds])
      ((Server.run ⟨threeUsers, [], ChargeCache.empty⟩ rotationRequests).templates.get
        ⟨0, by decide⟩)
      (List.get_mem _ _ _),
    rfl,
    (userQueue_stale_after_edit.2.2.2.2.1 (scenarioManager [2, 1, 3] false) scenarioUsers
      scenarioSettings completeWorld.check).trans rfl⟩

/-! ### Template queue: accounts shared by running templates -/

/-- **C12.** The queue processor lets two running templates claim the same
account. Templates 1 and 2 both use account 1. `startTemplate(1)` starts
template 1 and marks account 1 busy; `startTemplate(2)` queues template 2;
`stopTemplate(2)`, on the queued template, which is not running, takes it out
of the queue and releases its user ids, account 1 among them, although
template 1 still runs; `startTemplate(2)` then finds account 1 free and starts
template 2. Both templates are running with account 1. -/
theorem queueProcessor_shared_account :
    ((sharedAccountProcessor.call (.startTemplate 1)).runningIds = [1] ∧
     (sharedAccountProcessor.call (.startTemplate 1)).activeTemplateUsers = [1]) ∧
    (((sharedAccountProcessor.call (.startTemplate 1)).call (.startTemplate 2)).runningIds = [1] ∧
     ((sharedAccountProcessor.call (.startTemplate 1)).call (.startTemplate 2)).templateQueue = [2]) ∧
    ((((sharedAccountProcessor.call (.startTemplate 1)).call (.startTemplate 2)).call
        (.stopTemplate 2)).runningIds = [1] ∧
     (((sharedAccountProcessor.call (.startTemplate 1)).call (.startTemplate 2)).call
        (.stopTemplate 2)).activeTemplateUsers = []) ∧
    (([QueueCall.startTemplate 1, .startTemplate 2, .stopTemplate 2, .startTemplate 2].foldl
        QueueProcessor.call sharedAccountProcessor).runningIds = [1, 2] ∧
     ([QueueCall.startTemplate 1, .startTemplate 2, .stopTemplate 2, .startTemplate 2].foldl
        QueueProcessor.call sharedAccountProcessor).templates.map (fun p => p.2.userIds) =
          [some [1], some [1]]) := by
  refine ⟨⟨rfl, rfl⟩, ⟨rfl, rfl⟩, ⟨rfl, rfl⟩, ⟨rfl, rfl⟩⟩

/-! ### Token broker -/

/-- A lookup among resolved promises that have all been created misses a
promise that has not. -/
theorem lookup_created_none (settled : List (Nat × String)) (n : Nat)
    (h : ∀ e ∈ settled, e.1 < n) : settled.lookup n = none := by
  induction settled with
  | nil => rfl
  | cons e rest ih =>
    obtain ⟨k, v⟩ := e
    have hk : k < n := h (k, v) (List.mem_cons_self _ _)
    have hne : (n == k) = false := by
      simp only [beq_eq_false_iff_ne, ne_eq]
      omega
    simp only [List.lookup_cons, hne]
    exact ih (fun e he => h e (List.mem_cons_of_mem _ he))

/-- Resolving a pending promise gives it the value. -/
theorem lookup_resolvePromiseWith (settled : List (Nat × String)) (p : Nat) (v : String)
    (h : settled.lookup p = none) : (resolvePromiseWith settled p v).lookup p = some v := by
  unfold resolvePromiseWith
  simp only [h, Option.isSome_none, Bool.false_eq_true, if_false]
  induction settled with
  | nil => simp [List.lookup_cons]
  | cons e rest ih =>
    obtain ⟨k, w⟩ := e
    simp only [List.lookup_cons] at h
    simp only [List.cons_append, List.lookup_cons]
    split
    · rename_i hk; simp [hk] at h
    · rename_i hk; simp only [hk] at h; exact ih h

/-- The head of the filtered list is the first element that passes. -/
theorem find?_of_filter_cons {α : Type} (p : α → Bool) :
    ∀ (l : List α) (t : α) (rest : List α), l.filter p = t :: rest → l.find? p = some t := by
  intro l
  induction l with
  | nil => intro t rest h; simp at h
  | cons a l ih =>
    intro t rest h
    cases hp : p a with
    | true =>
      simp only [List.filter_cons, hp, if_true, List.cons.injEq] at h
      obtain ⟨h1, _⟩ := h
      subst h1
      simp only [List.find?_cons, hp]
    | false =>
      simp only [List.filter_cons, hp, Bool.false_eq_true, if_false] at h
      simp only [List.find?_cons, hp]
      exact ih t rest h

/-- **C13.** `getToken` at time `now`. If the queue holds a token that is not
expired, the call returns the promise resolved with the first such token of
the queue (the oldest one), the queue afterwards is the rest of the
non-expired tokens in their order, and the waiting state (`isTokenNeeded`,
the pending promise and its resolver) is unchanged. If it holds none, the
broker sets `isTokenNeeded` and returns its pending promise, which no caller
has received a value from. -/
theorem getToken_contract (tm : TokenManager) (now : Int) :
    (∀ (t : QueuedToken) (rest : List QueuedToken),
      tm.tokenQueue.filter (notExpired now) = t :: rest →
      (tm.getToken now).2 = .resolved t.token ∧
      tm.tokenQueue.find? (notExpired now) = some t ∧
      (tm.getToken now).1.tokenQueue = rest ∧
      (tm.getToken now).1.isTokenNeeded = tm.isTokenNeeded ∧
      (tm.getToken now).1.tokenPromise = tm.tokenPromise ∧
      (tm.getToken now).1.resolvePromise = tm.resolvePromise) ∧
    (tm.tokenQueue.filter (notExpired now) = [] → tm.Valid →
      (tm.getToken now).1.isTokenNeeded = true ∧
      (tm.getToken now).1.tokenQueue = [] ∧
      ∃ p, (tm.getToken now).2 = .created p ∧
        (tm.getToken now).1.tokenPromise = some p ∧
        (tm.getToken now).1.resolvePromise = some p ∧
        (tm.getToken now).1.received (.created p) = none) := by
  refine ⟨?_, ?_⟩
  · intro t rest h
    have hfind := find?_of_filter_cons (notExpired now) tm.tokenQueue t rest h
    simp only [TokenManager.getToken, TokenManager._purgeExpiredTokens, h]
    exact ⟨trivial, hfind, trivial, trivial, trivial, trivial⟩
  · intro h hv
    obtain ⟨hs, hr, hn, hp⟩ := hv
    cases htp : tm.tokenPromise with
    | some p =>
      have hpp := hp p (by simp [htp])
      simp only [TokenManager.getToken, TokenManager._purgeExpiredTokens, h, htp]
      refine ⟨by simp [hn, htp], trivial, p, rfl, rfl, hr.trans htp, hpp.2⟩
    | none =>
      simp only [TokenManager.getToken, TokenManager._purgeExpiredTokens, h, htp]
      exact ⟨trivial, trivial, tm.created, rfl, rfl, rfl, lookup_created_none _ _ hs⟩

/-- Witness for C13: with an expired token and two live ones queued, the call
at time 130000 returns the first live token and leaves the second; on the
empty broker the call waits. -/
theorem getToken_contract_witness :
    (threeTokenBroker.getToken 130000).2 = .resolved "first" ∧
    (threeTokenBroker.getToken 130000).1.tokenQueue = [⟨"second", 110000⟩] ∧
    (TokenManager.init.getToken 0).1.isTokenNeeded = true :=
  ⟨((getToken_contract threeTokenBroker 130000).1 ⟨"first", 100000⟩ [⟨"second", 110000⟩]
      (by decide)).1,
   ((getToken_contract threeTokenBroker 130000).1 ⟨"first", 100000⟩ [⟨"second", 110000⟩]
      (by decide)).2.2.1,
   ((getToken_contract TokenManager.init 0).2 (by decide) (by decide)).1⟩

/-- **C14.** `setToken(v)` at time `now`. If a waiter is pending (the resolver
of the pending promise is set), the pending promise is resolved with `v`,
`isTokenNeeded` becomes false, the waiting state is cleared and the queue is
unchanged. If no waiter is pending, the entry `(v, now)` is appended at the
back of the queue and `isTokenNeeded` and the waiting state are unchanged. -/
theorem setToken_contract (tm : TokenManager) (v : String) (now : Int) :
    (∀ p : Nat, tm.resolvePromise = some p → tm.Valid →
      (tm.setToken v now).received (.created p) = some v ∧
      (tm.setToken v now).isTokenNeeded = false ∧
      (tm.setToken v now).tokenPromise = none ∧
      (tm.setToken v now).resolvePromise = none ∧
      (tm.setToken v now).tokenQueue = tm.tokenQueue) ∧
    (tm.resolvePromise = none →
      (tm.setToken v now).tokenQueue = tm.tokenQueue ++ [⟨v, now⟩] ∧
      (tm.setToken v now).isTokenNeeded = tm.isTokenNeeded ∧
      (tm.setToken v now).tokenPromise = tm.tokenPromise ∧
      (tm.setToken v now).resolvePromise = none ∧
      (tm.setToken v now).settled = tm.settled) := by
  refine ⟨?_, ?_⟩
  · intro p hp hv
    obtain ⟨hs, hr, hn, hpend⟩ := hv
    have hpp := hpend p (by rw [← hr, hp]; exact rfl)
    simp only [TokenManager.setToken, hp, TokenManager.received]
    exact ⟨lookup_resolvePromiseWith _ _ _ hpp.2, trivial, trivial, trivial, trivial⟩
  · intro hp
    simp only [TokenManager.setToken, hp]
    exact ⟨trivial, trivial, trivial, trivial, trivial⟩

/-- Witness for C14: a token supplied to a waiting broker resolves the
pending promise and is not queued; supplied to an idle broker it is queued. -/
theorem setToken_contract_witness :
    ((TokenManager.init.getToken 0).1.setToken "v" 5).received (.created 0) = some "v" ∧
    ((TokenManager.init.getToken 0).1.setToken "v" 5).tokenQueue = [] ∧
    (TokenManager.init.setToken "v" 5).tokenQueue = [⟨"v", 5⟩] :=
  ⟨((setToken_contract (TokenManager.init.getToken 0).1 "v" 5).1 0 rfl (by decide)).1,
   ((setToken_contract (TokenManager.init.getToken 0).1 "v" 5).1 0 rfl (by decide)).2.2.2.2,
   ((setToken_contract TokenManager.init "v" 5).2 rfl).1⟩

/-- A valid broker with an empty queue answers `getToken` with a pending
promise that it tracks afterwards. -/
theorem getToken_empty_queue (tm : TokenManager) (now : Int) (hv : tm.Valid)
    (hq : tm.tokenQueue = []) :
    ∃ p, (tm.getToken now).2 = .created p ∧
      (tm.getToken now).1.tokenQueue = [] ∧
      (tm.getToken now).1.tokenPromise = some p ∧
      (tm.getToken now).1.resolvePromise = some p ∧
      (tm.getToken now).1.settled.lookup p = none := by
  obtain ⟨hs, hr, hn, hp⟩ := hv
  cases htp : tm.tokenPromise with
  | some p =>
    have hpp := hp p (by simp [htp])
    have hg : tm.getToken now = ({ tm with tokenQueue := [] }, .created p) := by
      simp only [TokenManager.getToken, TokenManager._purgeExpiredTokens, hq, List.filter_nil, htp]
    rw [hg]
    exact ⟨p, rfl, rfl, htp, hr.trans htp, hpp.2⟩
  | none =>
    have hg : tm.getToken now =
        ({ tm with
            tokenQueue := []
            isTokenNeeded := true
            tokenPromise := some tm.created
            resolvePromise := some tm.created
            created := tm.created + 1 }, .created tm.created) := by
      simp only [TokenManager.getToken, TokenManager._purgeExpiredTokens, hq, List.filter_nil, htp]
    rw [hg]
    exact ⟨tm.created, rfl, rfl, rfl, rfl, lookup_created_none _ _ hs⟩

/-- A waiting broker with an empty queue answers `getToken` with its pending
promise and stays as it is. -/
theorem getToken_waiting (tm : TokenManager) (now : Int) (p : Nat)
    (hq : tm.tokenQueue = []) (hp : tm.tokenPromise = some p) :
    tm.getToken now = (tm, .created p) := by
  obtain ⟨q, tp, rp, n, c, s⟩ := tm
  simp only at hq hp
  subst hq; subst hp
  rfl

/-- Every further call on a waiting broker returns the same pending promise. -/
theorem getTokens_waiting (tm : TokenManager) (p : Nat)
    (hq : tm.tokenQueue = []) (hp : tm.tokenPromise = some p) :
    ∀ nows : List Int, tm.getTokens nows = (tm, List.replicate nows.length (.created p)) := by
  intro nows
  induction nows with
  | nil => rfl
  | cons now rest ih =>
    simp only [TokenManager.getTokens, getToken_waiting tm now p hq hp, ih,
      List.length_cons, List.replicate_succ]

/-- Counterexample for C15: two callers wait on the empty broker; the token
`v` supplied afterwards is received by both. -/
theorem getToken_waiters_counterexample :
    (TokenManager.init.getTokens [0, 1]).2.map (TokenManager.init.getTokens [0, 1]).1.received =
      [none, none] ∧
    (TokenManager.init.getTokens [0, 1]).2.map
        ((TokenManager.init.getTokens [0, 1]).1.setToken "v" 2).received =
      [some "v", some "v"] := by
  decide

/-- **C15** (amended). A supplied token satisfies every caller that is waiting
when it arrives. When `k ≥ 1` calls of `getToken` are made on a broker with
an empty queue, all of them return the same pending promise and all are
waiting; `setToken(v)` resolves that promise with `v`, so every one of the
`k` callers receives `v` and none remains waiting; `v` is not put into the
queue and the waiting state is cleared. -/
theorem setToken_serves_all_waiters (tm : TokenManager) (hv : tm.Valid)
    (hq : tm.tokenQueue = []) (first : Int) (later : List Int) (v : String) (now : Int) :
    ∃ p, (tm.getTokens (first :: later)).2 = List.replicate (later.length + 1) (.created p) ∧
      (tm.getTokens (first :: later)).1.received (.created p) = none ∧
      ((tm.getTokens (first :: later)).1.setToken v now).received (.created p) = some v ∧
      ((tm.getTokens (first :: later)).1.setToken v now).tokenQueue = [] ∧
      ((tm.getTokens (first :: later)).1.setToken v now).tokenPromise = none ∧
      ((tm.getTokens (first :: later)).1.setToken v now).isTokenNeeded = false := by
  obtain ⟨p, h2, hq1, hp1, hr1, hl1⟩ := getToken_empty_queue tm first hv hq
  have hrest := getTokens_waiting (tm.getToken first).1 p hq1 hp1 later
  refine ⟨p, ?_, ?_, ?_, ?_, ?_, ?_⟩
  · simp only [TokenManager.getTokens, hrest, h2, List.replicate_succ]
  · simp only [TokenManager.getTokens, hrest, TokenManager.received, hl1]
  · simp only [TokenManager.getTokens, hrest, TokenManager.received, TokenManager.setToken, hr1]
    exact lookup_resolvePromiseWith _ _ _ hl1
  · simp only [TokenManager.getTokens, hrest, TokenManager.setToken, hr1, hq1]
  · simp only [TokenManager.getTokens, hrest, TokenManager.setToken, hr1]
  · simp only [TokenManager.getTokens, hrest, TokenManager.setToken, hr1]

/-- Witness for C15: three callers wait on the empty broker and all receive
the supplied token. -/
theorem setToken_serves_all_waiters_witness :
    ∃ p, (TokenManager.init.getTokens [0, 1, 2]).2 = List.replicate 3 (.created p) ∧
      (TokenManager.init.getTokens [0, 1, 2]).1.received (.created p) = none ∧
      ((TokenManager.init.getTokens [0, 1, 2]).1.setToken "v" 3).received (.created p) =
        some "v" ∧
      ((TokenManager.init.getTokens [0, 1, 2]).1.setToken "v" 3).tokenQueue = [] ∧
      ((TokenManager.init.getTokens [0, 1, 2]).1.setToken "v" 3).tokenPromise = none ∧
      ((TokenManager.init.getTokens [0, 1, 2]).1.setToken "v" 3).isTokenNeeded = false :=
  setToken_serves_all_waiters TokenManager.init (by decide) rfl 0 [1, 2] "v" 3

/-! ### Paint scheduler: the direction step -/

/-- Putting `a` at the place of `b` and `b` in front is a rearrangement. -/
theorem set_perm_cons (a b : Mismatch) :
    ∀ (xs : List Mismatch) (j : Nat), xs[j]? = some b → (b :: xs.set j a).Perm (a :: xs) := by
  intro xs
  induction xs with
  | nil => intro j h; simp at h
  | cons y ys ih =>
    intro j h
    cases j with
    | zero =>
      simp only [List.getElem?_cons_zero, Option.some.injEq] at h
      subst h
      simp only [List.set_cons_zero]
      exact List.Perm.swap _ _ _
    | succ j =>
      simp only [List.getElem?_cons_succ] at h
      simp only [List.set_cons_succ]
      exact (List.Perm.swap _ _ _).trans (((ih j h).cons y).trans (List.Perm.swap _ _ _))

/-- Exchanging two elements is a rearrangement. -/
theorem swapAt_perm : ∀ (l : List Mismatch) (i j : Nat), (swapAt l i j).Perm l := by
  have key : ∀ (l : List Mismatch) (i j : Nat) (a b : Mismatch),
      l[i]? = some a → l[j]? = some b → ((l.set i b).set j a).Perm l := by
    intro l
    induction l with
    | nil => intro i j a b h; simp at h
    | cons x xs ih =>
      intro i j a b hi hj
      cases i with
      | zero =>
        simp only [List.getElem?_cons_zero, Option.some.injEq] at hi
        subst hi
        cases j with
        | zero =>
          simp only [List.getElem?_cons_zero, Option.some.injEq] at hj
          subst hj
          simp
        | succ j =>
          simp only [List.getElem?_cons_succ] at hj
          simp only [List.set_cons_zero, List.set_cons_succ]
          exact set_perm_cons _ _ xs j hj
      | succ i =>
        simp only [List.getElem?_cons_succ] at hi
        cases j with
        | zero =>
          simp only [List.getElem?_cons_zero, Option.some.injEq] at hj
          subst hj
          simp only [List.set_cons_succ, List.set_cons_zero]
          exact set_perm_cons _ _ xs i hi
        | succ j =>
          simp only [List.getElem?_cons_succ] at hj
          simp only [List.set_cons_succ]
          exact (ih i j a b hi hj).cons x
  intro l i j
  unfold swapAt
  split
  · rename_i a b hi hj
    exact key l i j a b hi hj
  · exact List.Perm.refl _

/-- The shuffle is a rearrangement. -/
theorem shuffleLoop_perm (random : Nat → ℚ) :
    ∀ (fuel i k : Nat) (l : List Mismatch), (shuffleLoop random fuel i k l).Perm l := by
  intro fuel
  induction fuel with
  | zero => intro i k l; exact List.Perm.refl _
  | succ fuel ih =>
    intro i k l
    simp only [shuffleLoop]
    split
    · exact (ih _ _ _).trans (swapAt_perm _ _ _)
    · exact List.Perm.refl _

/-- The direction step is a rearrangement. -/
theorem directionStep_perm (d : String) (t : Template) (random : Nat → ℚ) (l : List Mismatch) :
    (directionStep d t random l).Perm l := by
  unfold directionStep
  split
  · exact shuffleLoop_perm _ _ _ _ _
  · exact List.perm_insertionSort _ _

/-- The sort of the direction step orders the list by the key of the mode. -/
theorem directionStep_sorted_key (d : String) (t : Template) (random : Nat → ℚ)
    (l : List Mismatch) (hd : d ≠ "random") :
    ((directionStep d t random l).map (directionKey d t)).Sorted (fun a b => a ≤ b) := by
  unfold directionStep
  rw [if_neg hd]
  have htotal : IsTotal Mismatch (fun a b => directionKey d t a ≤ directionKey d t b) :=
    ⟨fun a b => le_total _ _⟩
  have htrans : IsTrans Mismatch (fun a b => directionKey d t a ≤ directionKey d t b) :=
    ⟨fun a b c hab hbc => le_trans hab hbc⟩
  have hs := List.sorted_insertionSort
    (fun a b => directionKey d t a ≤ directionKey d t b) l
  exact List.pairwise_map.2 hs

/-- **C17.** The direction step of `paint` returns a rearrangement of the
mismatch list for every `drawingDirection`, `random` included. For a
non-random direction the result is sorted by the key of the mode: `btt`
non-increasing `localY`, `ltr` non-decreasing `localX`, `rtl` non-increasing
`localX`, `center_out` non-decreasing
`(localX - width/2)^2 + (localY - height/2)^2`, and `ttb` or any other value
non-decreasing `localY`. -/
theorem directionStep_sorted (d : String) (t : Template) (random : Nat → ℚ)
    (l : List Mismatch) :
    (directionStep d t random l).Perm l ∧
    (d ≠ "random" →
      (d = "btt" →
        ((directionStep d t random l).map (fun p => p.localY)).Sorted (fun a b => a ≥ b)) ∧
      (d = "ltr" →
        ((directionStep d t random l).map (fun p => p.localX)).Sorted (fun a b => a ≤ b)) ∧
      (d = "rtl" →
        ((directionStep d t random l).map (fun p => p.localX)).Sorted (fun a b => a ≥ b)) ∧
      (d = "center_out" →
        ((directionStep d t random l).map
          (fun p => ((p.localX : ℚ) - (t.width : ℚ) / 2) ^ 2 +
            ((p.localY : ℚ) - (t.height : ℚ) / 2) ^ 2)).Sorted (fun a b => a ≤ b)) ∧
      (d ≠ "btt" → d ≠ "ltr" → d ≠ "rtl" → d ≠ "center_out" →
        ((directionStep d t random l).map (fun p => p.localY)).Sorted (fun a b => a ≤ b))) := by
  refine ⟨directionStep_perm d t random l, fun hd => ?_⟩
  have hs := List.pairwise_map.1 (directionStep_sorted_key d t random l hd)
  refine ⟨?_, ?_, ?_, ?_, ?_⟩
  · intro h
    subst h
    refine List.pairwise_map.2 (hs.imp ?_)
    intro a b hab
    simp only [directionKey, if_true, neg_le_neg_iff, Nat.cast_le] at hab
    exact hab
  · intro h
    subst h
    refine List.pairwise_map.2 (hs.imp ?_)
    intro a b hab
    have h1 : ("ltr" : String) ≠ "btt" := by decide
    simp only [directionKey, if_neg h1, if_true, Nat.cast_le] at hab
    exact hab
  · intro h
    subst h
    refine List.pairwise_map.2 (hs.imp ?_)
    intro a b hab
    have h1 : ("rtl" : String) ≠ "btt" := by decide
    have h2 : ("rtl" : String) ≠ "ltr" := by decide
    simp only [directionKey, if_neg h1, if_neg h2, if_true, neg_le_neg_iff, Nat.cast_le] at hab
    exact hab
  · intro h
    subst h
    refine List.pairwise_map.2 (hs.imp ?_)
    intro a b hab
    have h1 : ("center_out" : String) ≠ "btt" := by decide
    have h2 : ("center_out" : String) ≠ "ltr" := by decide
    have h3 : ("center_out" : String) ≠ "rtl" := by decide
    simp only [directionKey, if_neg h1, if_neg h2, if_neg h3, if_true] at hab
    exact hab
  · intro h1 h2 h3 h4
    refine List.pairwise_map.2 (hs.imp ?_)
    intro a b hab
    simp only [directionKey, if_neg h1, if_neg h2, if_neg h3, if_neg h4, Nat.cast_le] at hab
    exact hab

/-- Witness for C17: bottom-to-top order of three pixels. -/
theorem directionStep_sorted_witness :
    directionStep "btt" ⟨3, 3, []⟩ (fun _ => 0)
        [pixelAt 0 1 1 false, pixelAt 1 0 1 false, pixelAt 2 2 1 false] =
      [pixelAt 2 2 1 false, pixelAt 0 1 1 false, pixelAt 1 0 1 false] ∧
    ((directionStep "btt" ⟨3, 3, []⟩ (fun _ => 0)
        [pixelAt 0 1 1 false, pixelAt 1 0 1 false, pixelAt 2 2 1 false]).map
      (fun p => p.localY)).Sorted (fun a b => a ≥ b) :=
  ⟨by decide,
    ((directionStep_sorted "btt" ⟨3, 3, []⟩ (fun _ => 0)
      [pixelAt 0 1 1 false, pixelAt 1 0 1 false, pixelAt 2 2 1 false]).2 (by decide)).1 rfl⟩

/-! ### Paint scheduler: the colour-order step -/

/-- The bucket of a colour after one more pixel is pushed. -/
theorem lookup_pushBucket (p : Mismatch) (c : Int) :
    ∀ acc : List (Int × List Mismatch),
      ((pushBucket acc p).lookup c).getD [] =
        (acc.lookup c).getD [] ++ (if p.color = c then [p] else []) := by
  intro acc
  induction acc with
  | nil =>
    by_cases h : p.color = c
    · have hb : (c == p.color) = true := by simpa using h.symm
      simp only [pushBucket, List.lookup_cons, hb, List.lookup_nil, Option.getD_some,
        Option.getD_none, if_pos h, List.nil_append]
    · have hb : (c == p.color) = false := by simpa using fun e : c = p.color => h e.symm
      simp only [pushBucket, List.lookup_cons, hb, List.lookup_nil, Option.getD_none,
        if_neg h, List.append_nil]
  | cons e rest ih =>
    obtain ⟨k, ps⟩ := e
    by_cases hk : k = p.color
    · by_cases hc : c = k
      · have hb : (c == k) = true := by simpa using hc
        have hpc : p.color = c := (hc.trans hk).symm
        simp only [pushBucket, if_pos hk, List.lookup_cons, hb, Option.getD_some, if_pos hpc]
      · have hb : (c == k) = false := by simpa using hc
        have hpc : ¬ p.color = c := fun e => hc (e.symm.trans hk.symm)
        simp only [pushBucket, if_pos hk, List.lookup_cons, hb, if_neg hpc, List.append_nil]
    · by_cases hc : c = k
      · have hb : (c == k) = true := by simpa using hc
        have hpc : ¬ p.color = c := fun e => hk (hc.symm.trans e.symm)
        simp only [pushBucket, if_neg hk, List.lookup_cons, hb, Option.getD_some, if_neg hpc,
          List.append_nil]
      · have hb : (c == k) = false := by simpa using hc
        simp only [pushBucket, if_neg hk, List.lookup_cons, hb]
        exact ih

/-- The keys of the buckets after one more pixel is pushed. -/
theorem keys_pushBucket (p : Mismatch) :
    ∀ acc : List (Int × List Mismatch),
      (pushBucket acc p).map Prod.fst =
        if p.color ∈ acc.map Prod.fst then acc.map Prod.fst else acc.map Prod.fst ++ [p.color] := by
  intro acc
  induction acc with
  | nil => simp [pushBucket]
  | cons e rest ih =>
    obtain ⟨k, ps⟩ := e
    by_cases hk : k = p.color
    · subst hk; simp [pushBucket]
    · have hk' : ¬ p.color = k := fun e => hk e.symm
      simp only [pushBucket, if_neg hk, List.map_cons, ih, List.mem_cons, hk', false_or]
      split <;> simp

/-- The buckets built from a list: the keys are distinct, and the bucket of
each colour holds the pixels of that colour in the order of the list. -/
theorem buckets_spec (l : List Mismatch) :
    ∀ (acc : List (Int × List Mismatch)) (l0 : List Mismatch),
      (acc.map Prod.fst).Nodup →
      (∀ c, (acc.lookup c).getD [] = l0.filter (fun p => decide (p.color = c))) →
      ((l.foldl pushBucket acc).map Prod.fst).Nodup ∧
      ∀ c, ((l.foldl pushBucket acc).lookup c).getD [] =
        (l0 ++ l).filter (fun p => decide (p.color = c)) := by
  induction l with
  | nil => intro acc l0 hn hl; simpa using ⟨hn, hl⟩
  | cons p rest ih =>
    intro acc l0 hn hl
    have hn' : ((pushBucket acc p).map Prod.fst).Nodup := by
      rw [keys_pushBucket]
      split
      · exact hn
      · rename_i hmem
        exact List.Nodup.append hn (List.nodup_singleton _)
          (by
            intro a ha hb
            simp only [List.mem_singleton] at hb
            subst hb
            exact hmem ha)
    have hl' : ∀ c, ((pushBucket acc p).lookup c).getD [] =
        (l0 ++ [p]).filter (fun q => decide (q.color = c)) := by
      intro c
      rw [lookup_pushBucket, hl c, List.filter_append]
      by_cases h : p.color = c <;> simp [List.filter_cons, h]
    have := ih (pushBucket acc p) (l0 ++ [p]) hn' hl'
    simpa [List.foldl_cons, List.append_assoc] using this

/-- `Object.keys` lists every key once: it is a rearrangement of the keys. -/
theorem objectKeys_perm (buckets : List (Int × List Mismatch)) :
    (objectKeys buckets).Perm (buckets.map Prod.fst) := by
  unfold objectKeys
  have h1 := List.perm_insertionSort (fun a b : Int => a ≤ b)
    ((buckets.map Prod.fst).filter isArrayIndex)
  exact (h1.append_right _).trans (List.filter_append_perm isArrayIndex _)

/-- Concatenating, over distinct keys, a list for one key and nothing for the
others gives that list when the key occurs. -/
theorem flatMap_single (c : Int) (X : List Mismatch) :
    ∀ ks : List Int, ks.Nodup →
      ks.flatMap (fun k => if k = c then X else []) = if c ∈ ks then X else [] := by
  intro ks
  induction ks with
  | nil => intro _; rfl
  | cons k rest ih =>
    intro hn
    have hn' := List.nodup_cons.1 hn
    rw [List.flatMap_cons, ih hn'.2]
    by_cases hk : k = c
    · subst hk
      simp [hn'.1]
    · have hk' : ¬ c = k := fun e => hk e.symm
      simp [hk, hk']

/-- The colour-order step as a concatenation of the colour classes of the
list over the keys. -/
theorem colorOrderStep_eq (l : List Mismatch) :
    colorOrderStep "color" l =
      (objectKeys (l.foldl pushBucket [])).flatMap
        (fun c => l.filter (fun p => decide (p.color = c))) := by
  have hb := (buckets_spec l [] [] List.nodup_nil (fun _ => rfl)).2
  simp only [List.nil_append] at hb
  simp only [colorOrderStep, if_true, hb]

/-- The colour-order step keeps the pixels of every colour, in their order. -/
theorem colorOrderStep_filter (l : List Mismatch) (c : Int) :
    (colorOrderStep "color" l).filter (fun p => decide (p.color = c)) =
      l.filter (fun p => decide (p.color = c)) := by
  have hb := buckets_spec l [] [] List.nodup_nil (fun _ => rfl)
  simp only [List.nil_append] at hb
  have hperm := objectKeys_perm (l.foldl pushBucket [])
  have hnodup : (objectKeys (l.foldl pushBucket [])).Nodup := hperm.nodup_iff.2 hb.1
  rw [colorOrderStep_eq, List.filter_flatMap]
  have hinner : (fun k => (l.filter (fun p => decide (p.color = k))).filter
        (fun p => decide (p.color = c))) =
      (fun k => if k = c then l.filter (fun p => decide (p.color = c)) else []) := by
    funext k
    by_cases hk : k = c
    · subst hk
      simp [List.filter_filter]
    · simp only [if_neg hk, List.filter_filter, List.filter_eq_nil_iff]
      intro p _
      simp only [Bool.and_eq_true, decide_eq_true_eq, not_and]
      intro h1 h2
      exact hk (h2.symm.trans h1)
  rw [hinner, flatMap_single c _ _ hnodup]
  split
  · rfl
  · rename_i hmem
    have hmem' : c ∉ (l.foldl pushBucket []).map Prod.fst := fun h => hmem (hperm.mem_iff.2 h)
    have hnone : (l.foldl pushBucket []).lookup c = none := by
      rw [List.lookup_eq_none_iff]
      intro e he
      simp only [bne_iff_ne, ne_eq]
      intro hce
      exact hmem' (List.mem_map.2 ⟨e, he, hce.symm⟩)
    have := hb.2 c
    rw [hnone] at this
    exact this

/-- The colour-order step is a rearrangement. -/
theorem colorOrderStep_perm (drawingOrder : String) (l : List Mismatch) :
    (colorOrderStep drawingOrder l).Perm l := by
  by_cases hd : drawingOrder = "color"
  · subst hd
    rw [List.perm_iff_count]
    intro a
    have h1 := colorOrderStep_filter l a.color
    have h2 : List.count a ((colorOrderStep "color" l).filter (fun p => decide (p.color = a.color))) =
        List.count a (colorOrderStep "color" l) := List.count_filter (by simp)
    have h3 : List.count a (l.filter (fun p => decide (p.color = a.color))) = List.count a l :=
      List.count_filter (by simp)
    rw [← h2, h1, h3]
  · simp only [colorOrderStep, if_neg hd]
    exact List.Perm.refl _

/-- Over ascending keys the concatenation of the colour classes has ascending
colours. -/
theorem flatMap_classes_sorted (l : List Mismatch) :
    ∀ ks : List Int, ks.Sorted (fun a b => a ≤ b) →
      ((ks.flatMap (fun c => l.filter (fun p => decide (p.color = c)))).map
        (fun p => p.color)).Sorted (fun a b => a ≤ b) := by
  intro ks
  induction ks with
  | nil => intro _; simp
  | cons k rest ih =>
    intro hs
    have hs' := List.sorted_cons.1 hs
    rw [List.flatMap_cons, List.map_append]
    refine List.pairwise_append.2 ⟨?_, ih hs'.2, ?_⟩
    · refine List.pairwise_map.2 (List.pairwise_iff_forall_sublist.2 ?_)
      intro a b hab
      have ha : a ∈ l.filter (fun p => decide (p.color = k)) := hab.subset (by simp)
      have hb : b ∈ l.filter (fun p => decide (p.color = k)) := hab.subset (by simp)
      have h1 : a.color = k := by simpa using (List.mem_filter.1 ha).2
      have h2 : b.color = k := by simpa using (List.mem_filter.1 hb).2
      rw [h1, h2]
    · intro a ha b hb
      obtain ⟨p, hp, rfl⟩ := List.mem_map.1 ha
      obtain ⟨q, hq, rfl⟩ := List.mem_map.1 hb
      obtain ⟨c, hc, hq'⟩ := List.mem_flatMap.1 hq
      have h1 : p.color = k := by simpa using (List.mem_filter.1 hp).2
      have h2 : q.color = c := by simpa using (List.mem_filter.1 hq').2
      rw [h1, h2]
      exact hs'.1 c hc

/-- Counterexample for C18: colour 5 is met first and colour 2 second, and the
colour step returns the pixel of colour 2 first. -/
theorem colorOrderStep_counterexample :
    colorOrderStep "color" [pixelAt 0 0 5 false, pixelAt 1 0 2 false] =
      [pixelAt 1 0 2 false, pixelAt 0 0 5 false] := by
  decide

/-- **C18** (amended). With `drawingOrder = 'color'` the colour step returns
the pixels grouped by desired colour: the result is a rearrangement of the
list, (b) the pixels of each colour keep the relative order they have in the
list, and (a) for colours that are array indices (`0 ≤ c < 2^32 - 1`, as all
palette ids are) the groups appear in ascending numeric order of the colour,
which is the order `Object.keys` lists integer keys in. -/
theorem colorOrderStep_groups (l : List Mismatch) :
    (colorOrderStep "color" l).Perm l ∧
    (∀ c : Int, (colorOrderStep "color" l).filter (fun p => decide (p.color = c)) =
      l.filter (fun p => decide (p.color = c))) ∧
    ((∀ p ∈ l, 0 ≤ p.color ∧ p.color < 4294967295) →
      ((colorOrderStep "color" l).map (fun p => p.color)).Sorted (fun a b => a ≤ b)) := by
  refine ⟨colorOrderStep_perm "color" l, colorOrderStep_filter l, ?_⟩
  intro hidx
  rw [colorOrderStep_eq]
  unfold objectKeys
  rw [List.flatMap_append]
  have hnil : ((List.map Prod.fst (l.foldl pushBucket [])).filter (fun c => !isArrayIndex c)).flatMap
      (fun c => l.filter (fun p => decide (p.color = c))) = [] := by
    rw [List.flatMap_eq_nil_iff]
    intro c hc
    rw [List.filter_eq_nil_iff]
    intro p hp
    have hcn := (List.mem_filter.1 hc).2
    have hpi := hidx p hp
    simp only [decide_eq_true_eq]
    intro hpc
    rw [← hpc] at hcn
    simp [isArrayIndex, hpi.1, hpi.2] at hcn
  rw [hnil, List.append_nil]
  have htotal : IsTotal Int (fun a b => a ≤ b) := ⟨fun a b => le_total a b⟩
  have htrans : IsTrans Int (fun a b => a ≤ b) := ⟨fun a b c hab hbc => le_trans hab hbc⟩
  exact flatMap_classes_sorted l _ (List.sorted_insertionSort (fun a b : Int => a ≤ b) _)

/-- Witness for C18: three pixels of colours 5, 2, 5. -/
theorem colorOrderStep_groups_witness :
    colorOrderStep "color" [pixelAt 0 0 5 false, pixelAt 1 0 2 false, pixelAt 2 0 5 false] =
      [pixelAt 1 0 2 false, pixelAt 0 0 5 false, pixelAt 2 0 5 false] ∧
    ((colorOrderStep "color"
        [pixelAt 0 0 5 false, pixelAt 1 0 2 false, pixelAt 2 0 5 false]).map
      (fun p => p.color)).Sorted (fun a b => a ≤ b) :=
  ⟨by decide,
    (colorOrderStep_groups
      [pixelAt 0 0 5 false, pixelAt 1 0 2 false, pixelAt 2 0 5 false]).2.2 (by decide)⟩

/-! ### Paint scheduler: the outline step -/

/-- Every request `submitGroups` has posted was there before or is the
request of one of the groups. -/
theorem submitGroups_requests_mem (post : Nat → Nat → Nat → PaintBody → PaintResponse)
    (token : String) :
    ∀ (groups : List TileGroup) (w : WPlacer) (requests : List PaintRequest) (slept total : Nat),
      ∀ r ∈ (submitGroups post token groups w requests slept total).requests,
        r ∈ requests ∨ ∃ g ∈ groups, r = ⟨g.tx, g.ty, ⟨g.colors, g.coords, token⟩⟩ := by
  intro groups
  induction groups with
  | nil => intro w requests slept total r hr; exact Or.inl hr
  | cons g rest ih =>
    intro w requests slept total r hr
    have hstep : ∀ r ∈ (if (_executePaint w (post requests.length) g.tx g.ty
          ⟨g.colors, g.coords, token⟩).posted then
          requests ++ [(⟨g.tx, g.ty, ⟨g.colors, g.coords, token⟩⟩ : PaintRequest)]
          else requests),
        r ∈ requests ∨ ∃ g' ∈ g :: rest, r = ⟨g'.tx, g'.ty, ⟨g'.colors, g'.coords, token⟩⟩ := by
      intro r hr
      split at hr
      · rcases List.mem_append.1 hr with hr | hr
        · exact Or.inl hr
        · simp only [List.mem_singleton] at hr
          exact Or.inr ⟨g, List.mem_cons_self _ _, hr⟩
      · exact Or.inl hr
    unfold submitGroups at hr
    simp only [] at hr
    split at hr
    · exact hstep r hr
    · rcases ih _ _ _ _ r hr with h | ⟨g', hg', h⟩
      · exact hstep r h
      · exact Or.inr ⟨g', List.mem_cons_of_mem _ hg', h⟩

/-- The entries `slice` keeps are entries of the list. -/
theorem slice0_subset {α : Type} (l : List α) (e : Int) : slice0 l e ⊆ l := by
  unfold slice0
  split
  · exact List.take_subset _ _
  · exact List.take_subset _ _

/-- The outline, direction and colour steps rearrange the list the outline
step selects. -/
theorem orderedMismatches_perm (w : WPlacer) (random : Nat → ℚ) (l : List Mismatch) :
    (orderedMismatches w random l).Perm (outlineStep w.templateSettings.outlineMode l) := by
  unfold orderedMismatches
  exact (colorOrderStep_perm _ _).trans (directionStep_perm _ _ _ _)

/-- Every pixel `paint` submits is the pixel of an entry of the ordered
mismatch list. -/
theorem paintLoaded_pixels_mem (w : WPlacer) (env : PaintEnv) (currentSkip : Nat)
    (colorFilter : Option Int) (mismatched : List Mismatch)
    (hm : _getMismatchedPixels w currentSkip colorFilter = some mismatched) :
    ∀ r ∈ (paintLoaded w env currentSkip colorFilter).requests, ∀ x ∈ r.pixels,
      ∃ p ∈ orderedMismatches w env.random mismatched, p.pixel = x := by
  intro r hr x hx
  unfold paintLoaded at hr
  simp only [hm] at hr
  split at hr
  · simp at hr
  · split at hr
    · simp at hr
    · split at hr
      · simp at hr
      · split at hr
        · simp at hr
        · rcases submitGroups_requests_mem _ _ _ _ _ _ _ r hr with h | ⟨g, hg, h⟩
          · simp at h
          · subst h
            have hx' : x ∈ (byTile (slice0 (orderedMismatches w env.random mismatched)
                (chargesNow w.userInfo))).flatMap TileGroup.pixels :=
              List.mem_flatMap.2 ⟨g, hg, hx⟩
            have hx'' := (byTile_pixels _).mem_iff.1 hx'
            obtain ⟨p, hp, hpx⟩ := List.mem_map.1 hx''
            exact ⟨p, slice0_subset _ _ hp, hpx⟩

/-- **C16.** With `outlineMode` set: if the mismatch list contains an entry
with `isEdge = true`, the list `paint` schedules (after the outline,
direction and colour steps) is a rearrangement of the edge entries, and every
pixel of every paint request posted is the pixel of an edge entry; if the
list contains no edge entry, the scheduled list is a rearrangement of the
whole list. -/
theorem outline_schedules_edges (w : WPlacer) (env : PaintEnv) (currentSkip : Nat)
    (colorFilter : Option Int) (mismatched : List Mismatch)
    (hm : _getMismatchedPixels w currentSkip colorFilter = some mismatched)
    (ho : w.templateSettings.outlineMode = true) :
    ((∃ p ∈ mismatched, p.isEdge = true) →
      outlineStep true mismatched = mismatched.filter (fun p => p.isEdge) ∧
      (orderedMismatches w env.random mismatched).Perm
        (mismatched.filter (fun p => p.isEdge)) ∧
      ∀ r ∈ (paintLoaded w env currentSkip colorFilter).requests, ∀ x ∈ r.pixels,
        ∃ p ∈ mismatched, p.isEdge = true ∧ p.pixel = x) ∧
    ((∀ p ∈ mismatched, p.isEdge = false) →
      outlineStep true mismatched = mismatched ∧
      (orderedMismatches w env.random mismatched).Perm mismatched) := by
  have hperm := orderedMismatches_perm w env.random mismatched
  rw [ho] at hperm
  refine ⟨?_, ?_⟩
  · intro hedge
    have hout : outlineStep true mismatched = mismatched.filter (fun p => p.isEdge) := by
      obtain ⟨p, hp, hpe⟩ := hedge
      have hmem : p ∈ mismatched.filter (fun p => p.isEdge) := List.mem_filter.2 ⟨hp, hpe⟩
      have hpos : (mismatched.filter (fun p => p.isEdge)).length > 0 :=
        List.length_pos_of_mem hmem
      simp only [outlineStep, if_true, if_pos hpos]
    rw [hout] at hperm
    refine ⟨hout, hperm, ?_⟩
    intro r hr x hx
    obtain ⟨p, hp, hpx⟩ := paintLoaded_pixels_mem w env currentSkip colorFilter mismatched hm r hr x hx
    have hp' := List.mem_filter.1 (hperm.mem_iff.1 hp)
    exact ⟨p, hp'.1, hp'.2, hpx⟩
  · intro hnone
    have hout : outlineStep true mismatched = mismatched := by
      have hnil : mismatched.filter (fun p => p.isEdge) = [] := by
        rw [List.filter_eq_nil_iff]
        intro p hp
        simp [hnone p hp]
      simp only [outlineStep, if_true, hnil, List.length_nil, gt_iff_lt, lt_self_iff_false,
        if_false]
    rw [hout] at hperm
    exact ⟨hout, hperm⟩

/-- Witness for C16: of the nine mismatches of a 3×3 image on a blank board
the eight border cells are edge entries, and they are what is scheduled. -/
theorem outline_schedules_edges_witness :
    outlineMismatches.length = 9 ∧
    (orderedMismatches outlineClient allPaintedEnv.random outlineMismatches).length = 8 ∧
    (orderedMismatches outlineClient allPaintedEnv.random outlineMismatches).Perm
      (outlineMismatches.filter (fun p => p.isEdge)) :=
  ⟨by decide, by decide,
    ((outline_schedules_edges outlineClient allPaintedEnv 1 none outlineMismatches (by decide) rfl).1
      ⟨pixelAt 0 0 1 true, by decide, rfl⟩).2.1⟩

/-! ### Mismatch resolver: the edge flag -/

/-- In a rectangular image a cell is `undefined` exactly outside the image. -/
theorem cellOpt_eq_none_iff (t : Template) (hrect : t.Rect) (i j : Int) :
    cellOpt t i j = none ↔ t.Outside i j := by
  obtain ⟨hlen, hcols⟩ := hrect
  unfold cellOpt Template.Outside
  by_cases hneg : i < 0 ∨ j < 0
  · simp only [hneg, if_true, true_iff]
    rcases hneg with h | h
    · exact Or.inl h
    · exact Or.inr (Or.inr (Or.inl h))
  · simp only [hneg, if_false]
    have hi : 0 ≤ i := by omega
    have hj : 0 ≤ j := by omega
    cases hcol : t.data[i.toNat]? with
    | none =>
      have := List.getElem?_eq_none_iff.1 hcol
      simp only [Option.none_bind, true_iff]
      right; left
      omega
    | some col =>
      have hlt : i.toNat < t.data.length := by
        by_contra hge
        rw [List.getElem?_eq_none (by omega)] at hcol
        simp at hcol
      have hmem : col ∈ t.data := List.getElem?_mem hcol
      have hh := hcols col hmem
      simp only [Option.some_bind]
      rw [List.getElem?_eq_none_iff]
      constructor
      · intro h
        right; right; right
        omega
      · intro h
        omega

/-- The edge flag of a cell of a rectangular image: some 4-neighbour lies
outside the image or holds `0`. -/
theorem isEdgeAt_iff (t : Template) (hrect : t.Rect) (x y : Nat) :
    isEdgeAt t x y = true ↔
      ∃ n ∈ fourNeighbours x y, t.Outside n.1 n.2 ∨ cellOpt t n.1 n.2 = some 0 := by
  have hn := cellOpt_eq_none_iff t hrect
  simp only [isEdgeAt, fourNeighbours, List.any_cons, List.any_nil, Bool.or_false,
    Bool.or_eq_true, beq_iff_eq, List.mem_cons, List.mem_singleton, List.mem_nil_iff, or_false,
    exists_eq_or_imp, exists_eq_left, hn]
  tauto

/-- The entry pushed for a cell: the rule that made it, its colour and its
edge flag. -/
theorem cellDecision_edge (w : WPlacer) (s : Nat) (f : Option Int) (x y : Nat)
    (remote : Option (Option Int)) (e : Mismatch)
    (h : cellDecision w s f x y remote = some [e]) :
    e.localX = x ∧ e.localY = y ∧
      ∃ column c, w.template.data[x]? = some column ∧ column[y]? = some c ∧
        ((c = 0 ∧ w.templateSettings.eraseMode = true ∧ e.color = 0 ∧ e.isEdge = false) ∨
         (c = -1 ∧ e.color = 0 ∧ e.isEdge = isEdgeAt w.template x y) ∨
         (0 < c ∧ e.color = c ∧ e.isEdge = isEdgeAt w.template x y)) := by
  unfold cellDecision at h
  by_cases hskip : s = 0 ∨ (x + y) % s ≠ 0
  · simp [hskip] at h
  simp only [hskip, if_false] at h
  cases hcol : w.template.data[x]? with
  | none => simp [hcol] at h
  | some column =>
  simp only [hcol] at h
  by_cases hf : f ≠ none ∧ column[y]? ≠ f
  · rw [if_pos hf] at h
    simp at h
  rw [if_neg hf] at h
  cases remote with
  | none => simp at h
  | some canvas =>
  cases hc : column[y]? with
  | none => simp [hc] at h
  | some c =>
  simp only [hc, Option.some.injEq] at h
  by_cases hz : c = 0
  · subst hz
    simp only [true_and, Int.reduceNeg, reduceCtorEq, false_and, if_false, lt_self_iff_false,
      (by decide : ¬ ((0 : Int) = -1))] at h
    split_ifs at h with h1
    all_goals
      simp only [Option.some.injEq, List.cons.injEq, and_true, reduceCtorEq] at h
    subst h
    exact ⟨rfl, rfl, column, 0, rfl, hc, Or.inl ⟨rfl, h1.1, rfl, rfl⟩⟩
  by_cases hm : c = -1
  · subst hm
    simp only [Int.reduceNeg, true_and, and_false, if_false, Int.reduceNeg,
      (by decide : ¬ ((-1 : Int) = 0)), (by decide : ¬ ((0 : Int) < -1))] at h
    split_ifs at h with h1 h2
    all_goals
      simp only [Option.some.injEq, List.cons.injEq, and_true, reduceCtorEq] at h
    · exact h1.2.1.elim
    · subst h
      exact ⟨rfl, rfl, column, -1, rfl, hc, Or.inr (Or.inl ⟨rfl, rfl, rfl⟩)⟩
  simp only [hz, hm, false_and, and_false, if_false] at h
  by_cases hpos : 0 < c
  · simp only [hpos, if_true] at h
    cases hhas : hasColor w.userInfo c with
    | none => simp [hhas] at h
    | some b =>
      cases b with
      | false => simp [hhas] at h
      | true =>
        simp only [hhas] at h
        split_ifs at h
        all_goals
          simp only [Option.some.injEq, List.cons.injEq, and_true, reduceCtorEq] at h
        all_goals
          subst h
          exact ⟨rfl, rfl, column, c, rfl, hc, Or.inr (Or.inr ⟨hpos, rfl, rfl⟩)⟩
  · simp [hpos] at h

/-- **C19.** Every entry of the mismatch list of a rectangular image comes
from an image cell `(localX, localY)`. An entry produced by the erase rule
(the cell holds `0`, `eraseMode` is set) has `isEdge = false`. An entry
produced by the clear-sentinel rule (the cell holds `-1`) or by the
real-colour rule (the cell holds a positive colour) has `isEdge = true`
exactly when one of the four 4-connected neighbour cells lies outside the
image or holds `0`. -/
theorem isEdge_iff_neighbour (w : WPlacer) (s : Nat) (f : Option Int) (L : List Mismatch)
    (hL : _getMismatchedPixels w s f = some L) (hrect : w.template.Rect)
    (e : Mismatch) (he : e ∈ L) :
    ∃ cell, cellOpt w.template e.localX e.localY = some cell ∧
      (cell = 0 → w.templateSettings.eraseMode = true ∧ e.color = 0 ∧ e.isEdge = false) ∧
      (cell ≠ 0 → (cell = -1 ∧ e.color = 0 ∨ 0 < cell ∧ e.color = cell) ∧
        (e.isEdge = true ↔
          ∃ n ∈ fourNeighbours e.localX e.localY,
            w.template.Outside n.1 n.2 ∨ cellOpt w.template n.1 n.2 = some 0)) := by
  obtain ⟨x, y, hcell⟩ := mem_getMismatchedPixels_cell w s f L hL e he
  rw [cellMismatch_eq_decision] at hcell
  obtain ⟨hx, hy, column, c, hcol, hc, hrule⟩ := cellDecision_edge w s f x y _ e hcell
  have hcellOpt : cellOpt w.template x y = some c := by
    simp [cellOpt, hcol, hc]
  rw [hx, hy]
  refine ⟨c, hcellOpt, ?_, ?_⟩
  · intro h0
    rcases hrule with ⟨_, hm, hcol0, hedge⟩ | ⟨h1, _⟩ | ⟨h1, _⟩
    · exact ⟨hm, hcol0, hedge⟩
    · omega
    · omega
  · intro hne
    rcases hrule with ⟨h0, _⟩ | ⟨h1, hcol1, hedge⟩ | ⟨h1, hcol1, hedge⟩
    · exact absurd h0 hne
    · exact ⟨Or.inl ⟨h1, hcol1⟩, by rw [hedge]; exact isEdgeAt_iff _ hrect x y⟩
    · exact ⟨Or.inr ⟨h1, hcol1⟩, by rw [hedge]; exact isEdgeAt_iff _ hrect x y⟩

/-- Witness for C19: in the 3×3 image of colour 1 the entry of the centre
cell is no edge entry and the entry of a corner cell is one. -/
theorem isEdge_iff_neighbour_witness :
    (pixelAt 1 1 1 false ∈ outlineMismatches ∧ pixelAt 0 0 1 true ∈ outlineMismatches) ∧
    ∃ cell, cellOpt outlineClient.template (pixelAt 0 0 1 true).localX
        (pixelAt 0 0 1 true).localY = some cell ∧
      (cell = 0 → outlineClient.templateSettings.eraseMode = true ∧
        (pixelAt 0 0 1 true).color = 0 ∧ (pixelAt 0 0 1 true).isEdge = false) ∧
      (cell ≠ 0 → (cell = -1 ∧ (pixelAt 0 0 1 true).color = 0 ∨
          0 < cell ∧ (pixelAt 0 0 1 true).color = cell) ∧
        ((pixelAt 0 0 1 true).isEdge = true ↔
          ∃ n ∈ fourNeighbours (pixelAt 0 0 1 true).localX (pixelAt 0 0 1 true).localY,
            outlineClient.template.Outside n.1 n.2 ∨
              cellOpt outlineClient.template n.1 n.2 = some 0)) :=
  ⟨by decide,
    isEdge_iff_neighbour outlineClient 1 none outlineMismatches (by decide) (by decide)
      (pixelAt 0 0 1 true) (by decide)⟩

/-! ### Charge predictor: staleness -/

/-- The last element of a list with a head, with the head as the default of
the tail. -/
theorem getLast?_cons_getD (a d : Int) (l : List Int) :
    ((a :: l).getLast?).getD d = (l.getLast?).getD a := by
  cases l with
  | nil => simp
  | cons b l =>
    rw [List.getLast?_cons_cons]
    cases hg : (b :: l).getLast? with
    | none => simp at hg
    | some z => simp

/-- The stored `lastSync` after a sequence of `consume` calls at
non-decreasing times: the last regen tick, counted from the stored time, at
or before the last call. -/
theorem consumeAll_lastSync (id : Nat) :
    ∀ (calls : List (Int × Int)) (c : ChargeCache) (u : ChargeEntry) (t0 t : Int),
      c._m id = some u → t0 ≤ t → u.lastSync = t0 + 30000 * ((t - t0) / 30000) →
      List.Chain (fun a b => a ≤ b) t (calls.map Prod.snd) →
      ∃ v, (c.consumeAll id calls)._m id = some v ∧
        v.lastSync = t0 + 30000 * ((((calls.map Prod.snd).getLast?).getD t - t0) / 30000) := by
  intro calls
  induction calls with
  | nil =>
    intro c u t0 t hu _ hl _
    exact ⟨u, hu, by simpa using hl⟩
  | cons call rest ih =>
    intro c u t0 t hu ht hl hchain
    simp only [List.map_cons, List.chain_cons] at hchain
    obtain ⟨hle, hrest⟩ := hchain
    have hc := consume_eq_set c id u call.1 call.2 hu
    have hget := set_get c id
      ⟨max 0 (min u.max (u.base + max 0 ((call.2 - u.lastSync) / 30000)) - call.1), u.max,
        call.2 - (call.2 - u.lastSync).tmod 30000⟩
    rw [← hc] at hget
    have hnn : 0 ≤ call.2 - u.lastSync := by
      rw [hl]
      have := Int.emod_nonneg (t - t0) (by norm_num : (30000 : Int) ≠ 0)
      omega
    have hsync : call.2 - (call.2 - u.lastSync).tmod 30000 =
        t0 + 30000 * ((call.2 - t0) / 30000) := by
      rw [Int.tmod_eq_emod hnn (by norm_num), hl]
      omega
    obtain ⟨v, hv, hvl⟩ := ih (c.consume id call.1 call.2) _ t0 call.2 hget (by omega) hsync hrest
    refine ⟨v, hv, ?_⟩
    rw [hvl, List.map_cons, getLast?_cons_getD]

/-- Counterexample for C20: account 1 is read at time 0 and consumes a charge
at time 450000; at time 500000, more than 8 minutes after the read, the entry
is not stale. -/
theorem stale_counterexample :
    (((ChargeCache.empty.markFromUserInfo (some chargeUser) 0).consume 1 1 450000).stale 1
      500000) = false ∧
    (500000 : Int) - 0 > 480000 := by
  exact ⟨rfl, by decide⟩


/-- A `consume` call on an account that was never synced changes nothing. -/
theorem consumeAll_unsynced (id : Nat) :
    ∀ (calls : List (Int × Int)) (c : ChargeCache), c._m id = none →
      (c.consumeAll id calls)._m id = none := by
  intro calls
  induction calls with
  | nil => intro c h; exact h
  | cons call rest ih =>
    intro c h
    have hc : c.consume id call.1 call.2 = c := by simp [ChargeCache.consume, h]
    simp only [ChargeCache.consumeAll, hc]
    exact ih c h

/-- **C20** (amended). `stale(id, now)` is true for an account that was never
synced, also after `consume` calls. For an account read by `markFromUserInfo`
at time `t0` and followed by `consume` calls at times `t0 ≤ t1 ≤ … ≤ tk`,
`stale(id, now)` is true iff more than 480000 ms have elapsed at `now` since
`t0 + 30000 * floor((tk - t0) / 30000)`, the last regen tick at or before the
latest `consume` call (`t0` itself when no `consume` call followed the read):
every `consume` call moves the stored `lastSync` forward, so staleness is
measured from the latest consumption and not from the read. -/
theorem stale_after_consumes (c : ChargeCache) (now : Int) :
    (∀ (id : Nat) (calls : List (Int × Int)), c._m id = none →
      (c.consumeAll id calls).stale id now = true) ∧
    (∀ (userInfo : UserInfo) (charges : Charges) (t0 : Int) (calls : List (Int × Int)),
      userInfo.id ≠ 0 → userInfo.charges = some charges →
      List.Chain (fun a b => a ≤ b) t0 (calls.map Prod.snd) →
      (((c.markFromUserInfo (some userInfo) t0).consumeAll userInfo.id calls).stale userInfo.id
          now = true ↔
        now - (t0 + 30000 * ((((calls.map Prod.snd).getLast?).getD t0 - t0) / 30000)) >
          480000)) := by
  refine ⟨?_, ?_⟩
  · intro id calls h
    simp [ChargeCache.stale, consumeAll_unsynced id calls c h]
  · intro userInfo charges t0 calls hid hch hchain
    rw [markFromUserInfo_eq_set c userInfo charges t0 hid hch]
    obtain ⟨v, hv, hvl⟩ := consumeAll_lastSync userInfo.id calls
      (c.set userInfo.id ⟨⌊(charges.count.getD 0 : ℚ)⌋, ⌊(charges.max.getD 0 : ℚ)⌋, t0⟩)
      ⟨⌊(charges.count.getD 0 : ℚ)⌋, ⌊(charges.max.getD 0 : ℚ)⌋, t0⟩ t0 t0 (set_get _ _ _)
      (le_refl _) (by simp) hchain
    simp only [ChargeCache.stale, hv, hvl, ChargeCache.SYNC_MS, decide_eq_true_eq]
    norm_num

/-- Witness for C20: read at time 0, one charge consumed at time 450000; the
entry is stale at `now` iff `now - 450000 > 480000`, so not at 500000 and
only from 930001 on. -/
theorem stale_after_consumes_witness :
    (((ChargeCache.empty.markFromUserInfo (some chargeUser) 0).consumeAll chargeUser.id
        [(1, 450000)]).stale chargeUser.id 930001 = true ↔
      ((930001 : Int) - (0 + 30000 * ((450000 - 0) / 30000)) > 480000)) ∧
    ((ChargeCache.empty.markFromUserInfo (some chargeUser) 0).consumeAll chargeUser.id
        [(1, 450000)]).stale chargeUser.id 930001 = true ∧
    ((ChargeCache.empty.markFromUserInfo (some chargeUser) 0).consumeAll chargeUser.id
        [(1, 450000)]).stale chargeUser.id 500000 = false :=
  ⟨(stale_after_consumes ChargeCache.empty 930001).2 chargeUser ⟨some 3, some 100⟩ 0
      [(1, 450000)] (by decide) rfl (by simp),
    rfl, rfl⟩

/-! ### Settings update and sleeping templates -/

/-- Counterexample for C21: an update that changes `accountCooldown` and
`antiGriefStandby` calls `interruptSleep` on no template, although template 7
is running. -/
theorem putSettings_counterexample :
    (putSettings DEFAULT_SETTINGS runningTemplates cooldownBody).2 = [] ∧
    (putSettings DEFAULT_SETTINGS runningTemplates cooldownBody).1.accountCooldown ≠
      DEFAULT_SETTINGS.accountCooldown ∧
    (putSettings DEFAULT_SETTINGS runningTemplates cooldownBody).1.antiGriefStandby ≠
      DEFAULT_SETTINGS.antiGriefStandby ∧
    runningTemplates.map (fun p => p.2.running) = [true] := by
  refine ⟨?_, ?_, ?_, rfl⟩
  · simp [putSettings, updateSettings, cooldownBody, SettingsBody.empty]
  · simp [putSettings, updateSettings, cooldownBody, SettingsBody.empty, DEFAULT_SETTINGS]
  · simp [putSettings, updateSettings, cooldownBody, SettingsBody.empty, DEFAULT_SETTINGS]

/-- **C21** (amended). The settings-update handler calls `interruptSleep` on
every running template, and on no other, exactly when the update changes
`chargeThreshold`; when `chargeThreshold` stays the same it calls
`interruptSleep` on no template, whatever else the update changes
(`accountCooldown` and `antiGriefStandby` included). -/
theorem putSettings_interrupts (currentSettings : ServerSettings) (templates : Templates)
    (body : SettingsBody) :
    (putSettings currentSettings templates body).1 = updateSettings currentSettings body ∧
    ((updateSettings currentSettings body).chargeThreshold ≠ currentSettings.chargeThreshold →
      ∀ p ∈ templates,
        (p.1 ∈ (putSettings currentSettings templates body).2 ↔
          ∃ q ∈ templates, q.1 = p.1 ∧ q.2.running = true) ∧
        (p.2.running = true → p.1 ∈ (putSettings currentSettings templates body).2)) ∧
    ((updateSettings currentSettings body).chargeThreshold = currentSettings.chargeThreshold →
      (putSettings currentSettings templates body).2 = []) := by
  refine ⟨?_, ?_, ?_⟩
  · unfold putSettings
    simp only []
    split <;> rfl
  · intro hne p hp
    have hne' : currentSettings.chargeThreshold ≠
        (updateSettings currentSettings body).chargeThreshold := fun h => hne h.symm
    have h2 : (putSettings currentSettings templates body).2 =
        (templates.filter (fun p => p.2.running)).map (fun p => p.1) := by
      unfold putSettings
      simp only [if_pos hne']
    rw [h2]
    refine ⟨?_, ?_⟩
    · simp only [List.mem_map, List.mem_filter]
      constructor
      · rintro ⟨q, ⟨hq, hr⟩, hqp⟩
        exact ⟨q, hq, hqp, hr⟩
      · rintro ⟨q, hq, hqp, hr⟩
        exact ⟨q, ⟨hq, hr⟩, hqp⟩
    · intro hr
      exact List.mem_map.2 ⟨p, List.mem_filter.2 ⟨hp, hr⟩, rfl⟩
  · intro heq
    unfold putSettings
    simp only [heq.symm, ne_eq, not_true_eq_false, if_false]

/-- Witness for C21: an update of `chargeThreshold` interrupts the running
template 7. -/
theorem putSettings_interrupts_witness :
    (updateSettings DEFAULT_SETTINGS thresholdBody).chargeThreshold ≠
      DEFAULT_SETTINGS.chargeThreshold ∧
    7 ∈ (putSettings DEFAULT_SETTINGS runningTemplates thresholdBody).2 :=
  ⟨by simp [updateSettings, thresholdBody, SettingsBody.empty, DEFAULT_SETTINGS],
    ((putSettings_interrupts DEFAULT_SETTINGS runningTemplates thresholdBody).2.1
      (by simp [updateSettings, thresholdBody, SettingsBody.empty, DEFAULT_SETTINGS])
        (7, scenarioManager [1] true) (by simp [runningTemplates])).2 rfl⟩

/-! ### Paint turn and the charge predictor -/

/-- A paint turn leaves an account that was never synced without an entry in
the charge cache: `consume` does nothing for it. -/
theorem paintTurnLoop_cache_unsynced (running : Bool) (world : TurnWorld) (skip : Nat)
    (colorFilter : Option Int) (cache : ChargeCache) (id : Nat) (h : cache._m id = none) :
    ∀ (fuel j : Nat) (w : WPlacer) (events : List Event),
      (paintTurnLoop running world skip colorFilter cache fuel j w events).cache._m id = none := by
  intro fuel
  induction fuel with
  | zero => intro j w events; exact h
  | succ fuel ih =>
    intro j w events
    simp only [paintTurnLoop]
    split
    · exact h
    · split
      · rename_i painted _
        simp only []
        split
        · rename_i u _
          split
          · by_cases hu : u.id = id
            · subst hu
              simp [ChargeCache.consume, h]
            · cases hc : cache._m u.id with
              | none => simp [ChargeCache.consume, hc, h]
              | some e => simp [ChargeCache.consume, hc, ChargeCache.set, h, Ne.symm hu]
          · exact h
        · exact h
      · exact h
      · exact ih _ _ _
      · exact h



/-- **C22.** The charge predictor is never synced by the engine. In the
scenario account 1 logs in with 3 charges while 10 mismatches are pending; its
paint turn paints 3 pixels and calls `consume(1, 3)`, but the cache, empty
since the start of the process, has no entry for the account (nothing calls
`markFromUserInfo`), so `consume` does nothing and `predict` returns `null`
instead of a count of 0. Had the login synced the cache, the prediction would
be 0. -/
theorem paintTurn_cache_not_synced :
    (paintPass (scenarioManager [1] false) scenarioUsers scenarioSettings threeChargePass 5
        [1] 0 ChargeCache.empty []).finished = true ∧
    (paintPass (scenarioManager [1] false) scenarioUsers scenarioSettings threeChargePass 5
        [1] 0 ChargeCache.empty []).events.map Event.pixelCount = [0, 0, 3] ∧
    (paintPass (scenarioManager [1] false) scenarioUsers scenarioSettings threeChargePass 5
        [1] 0 ChargeCache.empty []).cache.predict 1 1000 = none ∧
    (((ChargeCache.empty.markFromUserInfo (some ⟨1, 0, some ⟨some 3, some 100⟩, 0⟩) 1000).consume
        1 3 1000).predict 1 1000).map (fun p => p.count) = some 0 := by
  refine ⟨rfl, rfl, rfl, ?_⟩
  rfl

/-! ### Charge predictor: `consume` keeps the regen ticks -/

/-- **C23.** For a synced account with stored `lastSync = L` and every
`now ≥ L`, `consume(id, n, now)` sets `lastSync` to
`L + 30000 * floor((now - L) / 30000)`, the most recent completed regen tick.
With `avail` the count `predict(id, now)` gave before the call, every later
prediction, at `t ≥ now`, has the count
`min(max, max(0, avail - n) + floor((t - L)/30000) - floor((now - L)/30000))`:
consuming neither loses nor gains regeneration progress. -/
theorem consume_keeps_ticks (c : ChargeCache) (id : Nat) (u : ChargeEntry) (n now : Int)
    (hu : c._m id = some u) (hnow : u.lastSync ≤ now) :
    ∃ v avail, (c.consume id n now)._m id = some v ∧
      (c.predict id now).map (fun p => p.count) = some avail ∧
      v.lastSync = u.lastSync + 30000 * ((now - u.lastSync) / 30000) ∧
      v.lastSync ≤ now ∧ now - v.lastSync < 30000 ∧
      ∀ t : Int, now ≤ t →
        ((c.consume id n now).predict id t).map (fun p => p.count) =
          some (min u.max (max 0 (avail - n) + (t - u.lastSync) / 30000 -
            (now - u.lastSync) / 30000)) := by
  have hnn : 0 ≤ now - u.lastSync := by omega
  have hmod : (now - u.lastSync).tmod 30000 = (now - u.lastSync) % 30000 :=
    Int.tmod_eq_emod hnn (by norm_num)
  have hsync : now - (now - u.lastSync).tmod 30000 =
      u.lastSync + 30000 * ((now - u.lastSync) / 30000) := by
    rw [hmod]; omega
  refine ⟨⟨max 0 (min u.max (u.base + max 0 ((now - u.lastSync) / 30000)) - n), u.max,
      now - (now - u.lastSync).tmod 30000⟩,
    min u.max (u.base + max 0 ((now - u.lastSync) / 30000)), ?_, ?_, hsync, ?_, ?_, ?_⟩
  · rw [consume_eq_set c id u n now hu]
    exact set_get _ _ _
  · simp [ChargeCache.predict, hu, ChargeCache.REGEN_MS]
  · show now - (now - u.lastSync).tmod 30000 ≤ now
    rw [hmod]
    have := Int.emod_nonneg (now - u.lastSync) (by norm_num : (30000 : Int) ≠ 0)
    omega
  · show now - (now - (now - u.lastSync).tmod 30000) < 30000
    rw [hmod]
    have := Int.emod_lt_of_pos (now - u.lastSync) (by norm_num : (0 : Int) < 30000)
    omega
  · intro t ht
    rw [consume_eq_set c id u n now hu, predict_set]
    simp only [Option.map_some', Option.some.injEq, hsync]
    have hk : (t - (u.lastSync + 30000 * ((now - u.lastSync) / 30000))) / 30000 =
        (t - u.lastSync) / 30000 - (now - u.lastSync) / 30000 := by omega
    have hge : 0 ≤ (t - u.lastSync) / 30000 - (now - u.lastSync) / 30000 := by omega
    rw [hk, max_eq_right hge]
    congr 1
    omega

/-- Witness for C23: read at time 0 with 3 of 100 charges, one charge consumed
at time 45000: `lastSync` becomes 30000 and the count at time 60000 is 4. -/
theorem consume_keeps_ticks_witness :
    ∃ v avail, ((ChargeCache.empty.set 1 ⟨3, 100, 0⟩).consume 1 1 45000)._m 1 = some v ∧
      ((ChargeCache.empty.set 1 ⟨3, 100, 0⟩).predict 1 45000).map (fun p => p.count) =
        some avail ∧
      v.lastSync = (0 : Int) + 30000 * ((45000 - 0) / 30000) ∧
      v.lastSync ≤ 45000 ∧ 45000 - v.lastSync < 30000 ∧
      ∀ t : Int, 45000 ≤ t →
        (((ChargeCache.empty.set 1 ⟨3, 100, 0⟩).consume 1 1 45000).predict 1 t).map
            (fun p => p.count) =
          some (min 100 (max 0 (avail - 1) + (t - 0) / 30000 - (45000 - 0) / 30000)) :=
  consume_keeps_ticks (ChargeCache.empty.set 1 ⟨3, 100, 0⟩) 1 ⟨3, 100, 0⟩ 1 45000 rfl
    (by decide)

/-! ### Mismatch resolver: remote coordinates -/

/-- **C24.** For every anchor `(startX, startY, startPx, startPy)` and every
image cell `(x, y)`, the remote tile and the pixel inside the tile that
`_getMismatchedPixels` computes satisfy
`tx * 1000 + px = startX * 1000 + startPx + x` and
`ty * 1000 + py = startY * 1000 + startPy + y` with `px, py < 1000`; every
entry of the mismatch list carries these coordinates for its cell
`(localX, localY)`. -/
theorem remote_coordinates (w : WPlacer) :
    (∀ x y : Nat,
      targetTile w.coords.startX w.coords.startPx x * 1000 + localPixel w.coords.startPx x =
        w.coords.startX * 1000 + w.coords.startPx + x ∧
      targetTile w.coords.startY w.coords.startPy y * 1000 + localPixel w.coords.startPy y =
        w.coords.startY * 1000 + w.coords.startPy + y ∧
      localPixel w.coords.startPx x < 1000 ∧ localPixel w.coords.startPy y < 1000) ∧
    (∀ (s : Nat) (f : Option Int) (L : List Mismatch),
      _getMismatchedPixels w s f = some L → ∀ e ∈ L,
        e.tx * 1000 + e.px = w.coords.startX * 1000 + w.coords.startPx + e.localX ∧
        e.ty * 1000 + e.py = w.coords.startY * 1000 + w.coords.startPy + e.localY ∧
        e.px < 1000 ∧ e.py < 1000) := by
  have hcell : ∀ x y : Nat,
      targetTile w.coords.startX w.coords.startPx x * 1000 + localPixel w.coords.startPx x =
        w.coords.startX * 1000 + w.coords.startPx + x ∧
      targetTile w.coords.startY w.coords.startPy y * 1000 + localPixel w.coords.startPy y =
        w.coords.startY * 1000 + w.coords.startPy + y ∧
      localPixel w.coords.startPx x < 1000 ∧ localPixel w.coords.startPy y < 1000 := by
    intro x y
    simp only [targetTile, localPixel]
    refine ⟨by omega, by omega, by omega, by omega⟩
  refine ⟨hcell, ?_⟩
  intro s f L hL e he
  obtain ⟨x, y, hxy⟩ := mem_getMismatchedPixels_cell w s f L hL e he
  rw [cellMismatch_eq_decision] at hxy
  rcases cellDecision_shape w s f x y _ _ hxy with h | ⟨e', he', _, h1, h2, h3, h4, h5, h6, _⟩
  · simp at h
  · have : e = e' := by simpa using he'
    subst this
    rw [h1, h2, h3, h4, h5, h6]
    exact hcell x y

/-- Witness for C24: the image is anchored at pixel (998, 999) of tile
(5, 7); the entry of cell (2, 1) lies at pixel (0, 0) of tile (6, 8). -/
theorem remote_coordinates_witness :
    (⟨6, 8, 0, 0, 1, true, 2, 1⟩ : Mismatch) ∈ boundaryMismatches ∧
    ((6 : Nat) * 1000 + 0 = 5 * 1000 + 998 + 2 ∧ (8 : Nat) * 1000 + 0 = 7 * 1000 + 999 + 1 ∧
      (0 : Nat) < 1000 ∧ (0 : Nat) < 1000) :=
  ⟨by decide,
    (remote_coordinates boundaryClient).2 1 none boundaryMismatches (by decide)
      ⟨6, 8, 0, 0, 1, true, 2, 1⟩ (by decide)⟩

/-! ### `loadTiles` covers the image -/

/-- **C25.** The tile coordinates `loadTiles` requests contain, for every
image cell `(x, y)` with `x < width` and `y < height`, the tile
`_getMismatchedPixels` computes for the cell. -/
theorem loadTiles_covers_image (w : WPlacer) (x y : Nat) (hx : x < w.template.width)
    (hy : y < w.template.height) :
    (targetTile w.coords.startX w.coords.startPx x,
      targetTile w.coords.startY w.coords.startPy y) ∈ tileKeys w := by
  simp only [tileKeys, targetTile, List.mem_flatMap, List.mem_map, List.mem_range'_1,
    Prod.mk.injEq]
  refine ⟨w.coords.startX + (w.coords.startPx + x) / 1000, ⟨by omega, by omega⟩,
    w.coords.startY + (w.coords.startPy + y) / 1000, ⟨by omega, by omega⟩, rfl, rfl⟩

/-- Witness for C25: the image anchored at pixel (998, 999) of tile (5, 7)
has its cell (2, 1) in tile (6, 8), which `loadTiles` requests. -/
theorem loadTiles_covers_image_witness :
    tileKeys boundaryClient = [(5, 7), (5, 8), (6, 7), (6, 8)] ∧
    (targetTile boundaryClient.coords.startX boundaryClient.coords.startPx 2,
      targetTile boundaryClient.coords.startY boundaryClient.coords.startPy 1) ∈
        tileKeys boundaryClient :=
  ⟨by decide, loadTiles_covers_image boundaryClient 2 1 (by decide) (by decide)⟩

/-! ### Token broker: the purge -/

/-- Counterexample for C26: at time 120001 the token received at time 1 has
an age of exactly 120000 ms, which is not greater than 2 minutes, and the
purge removes it. -/
theorem purge_boundary_counterexample :
    (agedTokenBroker._purgeExpiredTokens 120001).tokenQueue = [⟨"younger", 2⟩] ∧
    ¬ ((120001 : Int) - (⟨"boundary", 1⟩ : QueuedToken).receivedAt > 120000) ∧
    (⟨"boundary", 1⟩ : QueuedToken) ∈ agedTokenBroker.tokenQueue := by
  decide

/-- **C26** (amended). The purge of a `getToken` call at time `now` removes
from the queue exactly the tokens whose age `now - receivedAt` is at least
120000 ms and keeps every token whose age is less than 120000 ms, in their
order; it changes nothing else, and the queue `getToken` leaves behind holds
kept tokens only. -/
theorem purge_removes_expired (tm : TokenManager) (now : Int) :
    (tm._purgeExpiredTokens now).tokenQueue.Sublist tm.tokenQueue ∧
    (∀ t, t ∈ (tm._purgeExpiredTokens now).tokenQueue ↔
      t ∈ tm.tokenQueue ∧ now - t.receivedAt < 120000) ∧
    (tm._purgeExpiredTokens now).tokenQueue =
      tm.tokenQueue.filter (fun t => decide (¬ now - t.receivedAt ≥ 120000)) ∧
    (∀ t ∈ tm.tokenQueue, now - t.receivedAt ≥ 120000 →
      t ∉ (tm._purgeExpiredTokens now).tokenQueue ∧ t ∉ (tm.getToken now).1.tokenQueue) ∧
    { tm._purgeExpiredTokens now with tokenQueue := tm.tokenQueue } = tm ∧
    (tm.getToken now).1.tokenQueue = (tm._purgeExpiredTokens now).tokenQueue.tail := by
  have hq : (tm._purgeExpiredTokens now).tokenQueue = tm.tokenQueue.filter (notExpired now) := rfl
  have hmem : ∀ t, t ∈ (tm._purgeExpiredTokens now).tokenQueue ↔
      t ∈ tm.tokenQueue ∧ now - t.receivedAt < 120000 := by
    intro t
    rw [hq, List.mem_filter]
    simp [notExpired, TokenManager.TOKEN_EXPIRATION_MS, MS.TWO_MIN]
  have hget : (tm.getToken now).1.tokenQueue = (tm._purgeExpiredTokens now).tokenQueue.tail := by
    unfold TokenManager.getToken
    simp only []
    split
    · rename_i t rest h; rw [h]; rfl
    · rename_i h
      split
      · rw [h]; rfl
      · rw [h]; rfl
  refine ⟨?_, hmem, ?_, ?_, rfl, hget⟩
  · rw [hq]; exact List.filter_sublist _
  · rw [hq]
    apply List.filter_congr
    intro t _
    simp [notExpired, TokenManager.TOKEN_EXPIRATION_MS, MS.TWO_MIN]
  · intro t _ hage
    have h1 : t ∉ (tm._purgeExpiredTokens now).tokenQueue := by
      intro h
      have := ((hmem t).1 h).2
      omega
    refine ⟨h1, ?_⟩
    rw [hget]
    exact fun h => h1 (List.mem_of_mem_tail h)

/-- Witness for C26: of the tokens of age 120001, 120000 and 119999 ms only
the last one is kept. -/
theorem purge_removes_expired_witness :
    (⟨"boundary", 1⟩ : QueuedToken) ∉ (agedTokenBroker._purgeExpiredTokens 120001).tokenQueue ∧
    (⟨"boundary", 1⟩ : QueuedToken) ∉ (agedTokenBroker.getToken 120001).1.tokenQueue :=
  (purge_removes_expired agedTokenBroker 120001).2.2.2.1 ⟨"boundary", 1⟩ (by decide) (by decide)

/-! ### `totalPixels` at creation and after an edit -/

/-- **C27.** Creation and edit count `totalPixels` differently. For the image
with the cells `1, -1, 0`, which has two non-zero cells, the constructor
counts the cells different from `0` and gives `totalPixels = 2`; the edit
that replaces the image by the same image counts the cells greater than `0`
and gives `totalPixels = 1`, leaving the cell with the clear sentinel out. -/
theorem totalPixels_edit_differs :
    ((createTemplate [] 7 sentinelData).map
        (fun templates => templates.map (fun p => p.2.totalPixels))) = some [2] ∧
    (((createTemplate [] 7 sentinelData).bind
        (fun templates => updateTemplate templates 7 sentinelData)).map
        (fun templates => templates.map (fun p => p.2.totalPixels))) = some [1] ∧
    (sentinelImage.data.flatten.filter (fun p => decide (p ≠ 0))).length = 2 := by
  decide

/-! ### Token broker: the waiting state -/

/-- The waiting state stays in order, and the queue stays empty while a
promise is pending, under every call. -/
theorem TokenManager.call_valid (tm : TokenManager) (call : TokenCall)
    (hv : tm.Valid) (hq : tm.tokenPromise ≠ none → tm.tokenQueue = []) :
    (tm.call call).Valid ∧ ((tm.call call).tokenPromise ≠ none → (tm.call call).tokenQueue = []) := by
  obtain ⟨hs, hr, hn, hp⟩ := hv
  cases call with
  | getToken now =>
    simp only [TokenManager.call, TokenManager.getToken, TokenManager._purgeExpiredTokens]
    split
    · rename_i t rest hf
      have hnone : tm.tokenPromise = none := by
        by_contra hne
        simp only [hq hne, List.filter_nil] at hf
        exact absurd hf (by simp)
      refine ⟨⟨hs, hr, hn, hp⟩, ?_⟩
      intro h
      exact absurd hnone h
    · rename_i hf
      split
      · rename_i p hsome
        refine ⟨⟨hs, hr, hn, hp⟩, fun _ => hf⟩
      · rename_i hnone
        refine ⟨⟨?_, rfl, rfl, ?_⟩, fun _ => hf⟩
        · intro e he
          exact Nat.lt_succ_of_lt (hs e he)
        · intro p hpm
          simp only [Option.mem_def, Option.some.injEq] at hpm
          subst hpm
          exact ⟨Nat.lt_succ_self _, lookup_created_none _ _ hs⟩
  | setToken t now =>
    simp only [TokenManager.call, TokenManager.setToken]
    split
    · rename_i p hsome
      have hpp := hp p (by rw [← hr, hsome]; exact rfl)
      refine ⟨⟨?_, rfl, rfl, ?_⟩, fun h => absurd rfl h⟩
      · intro e he
        unfold resolvePromiseWith at he
        split at he
        · exact hs e he
        · rcases List.mem_append.1 he with he | he
          · exact hs e he
          · simp only [List.mem_singleton] at he
            subst he
            exact hpp.1
      · intro q hq'
        simp at hq'
    · rename_i hnone
      have htp : tm.tokenPromise = none := hr ▸ hnone
      refine ⟨⟨hs, hr, hn, hp⟩, ?_⟩
      intro h
      exact absurd htp h
  | invalidateToken =>
    simp only [TokenManager.call, TokenManager.invalidateToken]
    refine ⟨⟨hs, hr, hn, hp⟩, ?_⟩
    intro h
    simp only [hq h, List.tail_nil]

/-- Every state reachable from the initial state is in order. -/
theorem TokenManager.run_valid (calls : List TokenCall) :
    (TokenManager.run calls).Valid ∧
      ((TokenManager.run calls).tokenPromise ≠ none → (TokenManager.run calls).tokenQueue = []) := by
  have key : ∀ (calls : List TokenCall) (tm : TokenManager),
      tm.Valid → (tm.tokenPromise ≠ none → tm.tokenQueue = []) →
      (calls.foldl TokenManager.call tm).Valid ∧
        ((calls.foldl TokenManager.call tm).tokenPromise ≠ none →
          (calls.foldl TokenManager.call tm).tokenQueue = []) := by
    intro calls
    induction calls with
    | nil => intro tm hv hq; exact ⟨hv, hq⟩
    | cons c rest ih =>
      intro tm hv hq
      obtain ⟨hv', hq'⟩ := TokenManager.call_valid tm c hv hq
      exact ih (tm.call c) hv' hq'
  exact key calls TokenManager.init (by decide) (by decide)

/-- **C28.** In every state the token broker reaches from its initial state
by `getToken`, `setToken` and `invalidateToken` calls: `isTokenNeeded` is true
iff a promise is pending; `tokenPromise` and `resolvePromise` are both set, to
the same promise, which is not resolved, or both `null`; and while a promise
is pending the token queue is empty. -/
theorem tokenBroker_waiting_invariant (calls : List TokenCall) :
    ((TokenManager.run calls).isTokenNeeded = true ↔
      (TokenManager.run calls).tokenPromise ≠ none) ∧
    (TokenManager.run calls).resolvePromise = (TokenManager.run calls).tokenPromise ∧
    (∀ p, (TokenManager.run calls).tokenPromise = some p →
      (TokenManager.run calls).received (.created p) = none) ∧
    ((TokenManager.run calls).tokenPromise ≠ none → (TokenManager.run calls).tokenQueue = []) := by
  obtain ⟨⟨_, hr, hn, hp⟩, hq⟩ := TokenManager.run_valid calls
  refine ⟨?_, hr, ?_, hq⟩
  · rw [hn]
    cases (TokenManager.run calls).tokenPromise <;> simp
  · intro p hsome
    exact (hp p (by rw [hsome]; exact rfl)).2

/-- Witness for C28: a token is queued, invalidated, then two callers wait:
the broker needs a token, its promise and resolver are set, and its queue is
empty. -/
theorem tokenBroker_waiting_invariant_witness :
    (TokenManager.run [.setToken "a" 0, .invalidateToken, .getToken 1, .getToken 2]).tokenPromise
      = some 0 ∧
    (TokenManager.run [.setToken "a" 0, .invalidateToken, .getToken 1, .getToken 2]).tokenQueue
      = [] :=
  ⟨by decide,
    (tokenBroker_waiting_invariant
      [.setToken "a" 0, .invalidateToken, .getToken 1, .getToken 2]).2.2.2 (by decide)⟩

/-! ### Purchases respect the droplet reserve -/

/-- The purchase step buys `floor((d - r) / 500)` units, and only when that is
positive. -/
theorem purchase_events (settings : Settings) (answer : PassAnswer) (productId call : Nat)
    (w : WPlacer) (d : Int) :
    (∀ pid a, Event.buyProduct pid a ∈ (purchase settings answer productId call w d).events →
      pid = productId ∧ a = (d - settings.dropletReserve) / 500 ∧ 0 < a) ∧
    ((d - settings.dropletReserve) / 500 ≤ 0 →
      (purchase settings answer productId call w d).events = [Event.loadUserInfo]) := by
  refine ⟨?_, ?_⟩
  · intro pid a h
    unfold purchase at h
    simp only [] at h
    split at h
    · rename_i hpos
      split at h
      · simp only [List.mem_cons, List.mem_singleton, reduceCtorEq, Event.buyProduct.injEq,
          false_or, List.mem_nil_iff, or_false] at h
        exact ⟨h.1, h.2, h.2 ▸ hpos⟩
      · split at h
        all_goals
          simp only [List.mem_cons, List.mem_singleton, reduceCtorEq, Event.buyProduct.injEq,
            false_or, List.mem_nil_iff, or_false] at h
          exact ⟨h.1, h.2, h.2 ▸ hpos⟩
    · simp at h
  · intro hle
    unfold purchase
    simp only []
    rw [if_neg (by omega)]

/-- **C29.** Whenever `handleUpgrades` or `handleChargePurchases` issues a
purchase for an account whose freshly loaded user info holds `d` droplets,
with the configured reserve `r`, the purchased amount is
`a = floor((d - r) / 500)` with `a ≥ 1` and `a * 500 ≤ d - r`; when
`floor((d - r) / 500) ≤ 0` neither flow issues a purchase. -/
theorem purchases_respect_reserve (tm : TemplateManager) (settings : Settings)
    (answer : PassAnswer) (w : WPlacer) :
    (∀ pid a, Event.buyProduct pid a ∈ (handleUpgrades tm settings answer w).events →
      ∃ u, answer.loadUserInfo 0 = .ok u ∧ pid = 70 ∧
        a = (u.droplets - settings.dropletReserve) / 500 ∧ 1 ≤ a ∧
        a * 500 ≤ u.droplets - settings.dropletReserve) ∧
    (∀ pid a, Event.buyProduct pid a ∈ (handleChargePurchases tm settings answer w).events →
      ∃ u, answer.loadUserInfo 2 = .ok u ∧ pid = 80 ∧
        a = (u.droplets - settings.dropletReserve) / 500 ∧ 1 ≤ a ∧
        a * 500 ≤ u.droplets - settings.dropletReserve) ∧
    (∀ u, answer.loadUserInfo 0 = .ok u → (u.droplets - settings.dropletReserve) / 500 ≤ 0 →
      ∀ pid a, Event.buyProduct pid a ∉ (handleUpgrades tm settings answer w).events) ∧
    (∀ u, answer.loadUserInfo 2 = .ok u → (u.droplets - settings.dropletReserve) / 500 ≤ 0 →
      ∀ pid a, Event.buyProduct pid a ∉ (handleChargePurchases tm settings answer w).events) := by
  refine ⟨?_, ?_, ?_, ?_⟩
  · intro pid a h
    unfold handleUpgrades at h
    split at h
    · simp at h
    · cases hl : answer.loadUserInfo 0 with
      | error e => simp [hl, login] at h
      | ok u =>
        simp only [hl, login] at h
        obtain ⟨h1, h2, h3⟩ := (purchase_events settings answer 70 1 _ u.droplets).1 pid a h
        exact ⟨u, rfl, h1, h2, by omega, by omega⟩
  · intro pid a h
    unfold handleChargePurchases at h
    split at h
    · simp at h
    · cases hl : answer.loadUserInfo 2 with
      | error e => simp [hl, login] at h
      | ok u =>
        simp only [hl, login] at h
        split at h
        · simp at h
        · split at h
          · obtain ⟨h1, h2, h3⟩ := (purchase_events settings answer 80 3 _ u.droplets).1 pid a h
            exact ⟨u, rfl, h1, h2, by omega, by omega⟩
          · simp at h
  · intro u hl hle pid a h
    unfold handleUpgrades at h
    split at h
    · simp at h
    · simp only [hl, login] at h
      rw [(purchase_events settings answer 70 1 _ u.droplets).2 hle] at h
      simp at h
  · intro u hl hle pid a h
    unfold handleChargePurchases at h
    split at h
    · simp at h
    · simp only [hl, login] at h
      split at h
      · simp at h
      · split at h
        · rw [(purchase_events settings answer 80 3 _ u.droplets).2 hle] at h
          simp at h
        · simp at h

/-- Witness for C29: with 1250 droplets and a reserve of 200 the upgrade flow
buys 2 units, for 1000 droplets. -/
theorem purchases_respect_reserve_witness :
    (handleUpgrades buyingManager reserveSettings richAccountPass (tenPixelClient 3)).events =
      [Event.loadUserInfo, Event.buyProduct 70 2, Event.sleep 5000, Event.loadUserInfo] ∧
    ∃ u, richAccountPass.loadUserInfo 0 = .ok u ∧ 70 = 70 ∧
      (2 : Int) = (u.droplets - reserveSettings.dropletReserve) / 500 ∧ (1 : Int) ≤ 2 ∧
      (2 : Int) * 500 ≤ u.droplets - reserveSettings.dropletReserve :=
  ⟨by decide,
    (purchases_respect_reserve buyingManager reserveSettings richAccountPass
      (tenPixelClient 3)).1 70 2 (by decide)⟩

/-! ### Varints -/

/-- The bytes `varintWrite` writes: continuation bytes with the high bit set,
then one last byte with the high bit clear; `k` bytes are enough for a number
below `2^(7k)`. -/
theorem varintWriteLoop_shape (fuel : Nat) :
    ∀ n, n ≤ fuel →
      (∃ init last, varintWriteLoop fuel n [] = init ++ [last] ∧
        (∀ b ∈ init, b &&& 0x80 ≠ 0 ∧ b < 256) ∧ last &&& 0x80 = 0 ∧ last < 128) ∧
      ∀ k, 1 ≤ k → n < 2 ^ (7 * k) → (varintWriteLoop fuel n []).length ≤ k := by
  induction fuel with
  | zero =>
    intro n hn
    have : n = 0 := by omega
    subst this
    refine ⟨⟨[], 0, by simp [varintWriteLoop], by simp, by decide, by decide⟩, ?_⟩
    intro k hk _
    simp [varintWriteLoop]
    omega
  | succ fuel ih =>
    intro n hn
    by_cases hbig : n ≥ 0x80
    · have hstep : varintWriteLoop (fuel + 1) n [] =
          [(n &&& 0x7f) ||| 0x80] ++ varintWriteLoop fuel ((n % 2 ^ 32) >>> 7) [] := by
        simp only [varintWriteLoop, if_pos hbig, List.nil_append]
        rw [varintWriteLoop_append]
      have hdiv : (n % 2 ^ 32) >>> 7 = (n % 2 ^ 32) / 128 := by
        rw [Nat.shiftRight_eq_div_pow]
      have hle : (n % 2 ^ 32) >>> 7 ≤ fuel := by
        rw [hdiv]
        have h1 : n % 2 ^ 32 ≤ n := Nat.mod_le _ _
        omega
      obtain ⟨⟨init, last, heq, hinit, hlast⟩, hlen⟩ := ih _ hle
      have hbyte := low_byte_facts (n % 128) (Nat.mod_lt _ (by decide))
      refine ⟨⟨((n &&& 0x7f) ||| 0x80) :: init, last, ?_, ?_, hlast⟩, ?_⟩
      · rw [hstep, heq]; rfl
      · intro b hb
        rcases List.mem_cons.1 hb with hb | hb
        · subst hb
          rw [and_127]
          exact ⟨hbyte.2.1, hbyte.2.2.1⟩
        · exact hinit b hb
      · intro k hk hlt
        have hk2 : 2 ≤ k := by
          by_contra hlt2
          have : k = 1 := by omega
          subst this
          norm_num at hlt
          omega
        have hsmall : (n % 2 ^ 32) >>> 7 < 2 ^ (7 * (k - 1)) := by
          rw [hdiv]
          have h1 : n % 2 ^ 32 ≤ n := Nat.mod_le _ _
          have h2 : 2 ^ (7 * k) = 128 * 2 ^ (7 * (k - 1)) := by
            have : 7 * k = 7 + 7 * (k - 1) := by omega
            rw [this, Nat.pow_add]
          rw [h2] at hlt
          have h3 : n % 2 ^ 32 < 128 * 2 ^ (7 * (k - 1)) := by omega
          exact Nat.div_lt_of_lt_mul h3
        have := hlen (k - 1) (by omega) hsmall
        rw [hstep]
        simp only [List.length_append, List.length_singleton]
        omega
    · have hstep : varintWriteLoop (fuel + 1) n [] = [n] := by
        simp only [varintWriteLoop, if_neg hbig, List.nil_append]
      have hn128 : n < 128 := by omega
      have hbyte := low_byte_facts n hn128
      refine ⟨⟨[], n, by rw [hstep]; rfl, by simp, hbyte.2.2.2.2, hn128⟩, ?_⟩
      intro k hk _
      rw [hstep]
      simpa using hk

/-- **C30.** For every `n < 2^32`, every array `pre` the bytes are appended to
and every continuation `post`: `varintWrite(n)` appends its bytes to `pre`,
`varintRead` at the position where they start returns `n` and the index just
past them; the bytes are at least 1 and at most 5, every byte but the last
has its high bit set and the last has it clear. -/
theorem varint_round_trip (n : Nat) (hn : n < 2 ^ 32) (pre post : List Nat) :
    varintWrite n pre = pre ++ varintWrite n [] ∧
    varintRead (varintWrite n pre ++ post) pre.length =
      (n, pre.length + (varintWrite n []).length) ∧
    varintRead (varintWrite n pre ++ post) pre.length = (n, (varintWrite n pre).length) ∧
    1 ≤ (varintWrite n []).length ∧ (varintWrite n []).length ≤ 5 ∧
    ∃ init last, varintWrite n [] = init ++ [last] ∧
      (∀ b ∈ init, b &&& 0x80 ≠ 0 ∧ b < 256) ∧ last &&& 0x80 = 0 ∧ last < 128 := by
  have happ := varintWrite_append n pre
  have hread := varintRead_write n hn pre post
  obtain ⟨⟨init, last, heq, hinit, hlast⟩, hlen⟩ := varintWriteLoop_shape n n (Nat.le_refl _)
  have h5 : (varintWrite n []).length ≤ 5 :=
    hlen 5 (by decide) (Nat.lt_of_lt_of_le hn (by norm_num))
  have h1 : 1 ≤ (varintWrite n []).length := by
    unfold varintWrite
    rw [heq]
    simp
  refine ⟨happ, ?_, ?_, h1, h5, init, last, heq, hinit, hlast⟩
  · rw [happ, List.append_assoc]
    exact hread
  · rw [happ, List.append_assoc, hread, List.length_append]

/-- Witness for C30: 300 is written as the bytes `0xAC, 0x02` and read
back. -/
theorem varint_round_trip_witness :
    varintWrite 300 [7] = [7, 172, 2] ∧
    varintRead (varintWrite 300 [7] ++ [9]) 1 = (300, 1 + (varintWrite 300 []).length) :=
  ⟨by decide, (varint_round_trip 300 (by decide) [7] [9]).2.1⟩


end WPlacerArk
